import Mathlib

/-!
# Kratos self-service flow state machine and password validator

A shallow embedding of `selfservice/flow/state.go` and
`selfservice/strategy/password/validator.go`, with the properties of the
specification proved (or refuted) over it.

Go strings are byte sequences, so they are modelled as lists of bytes; text
literals of the source are written through `ofString`, their UTF-8 encoding.
-/

namespace Kratos

/-- One Go `byte`. -/
abbrev Byte := Fin 256

/-- Build a byte from a number, keeping the low eight bits (Go's `byte(n)`). -/
def byte (n : Nat) : Byte := ⟨n % 256, Nat.mod_lt n (by decide)⟩

/-- A Go `string`: an immutable byte sequence, not necessarily valid UTF-8. -/
abbrev GoString := List Byte

/-- The `utf8.RuneError` replacement rune U+FFFD. -/
def RuneError : Nat := 0xFFFD

/-- Go's `utf8.EncodeRune`: the UTF-8 bytes of a rune; surrogates and values
above U+10FFFF are written as U+FFFD. -/
def encodeRune (r : Nat) : List Byte :=
  if r ≤ 0x7F then [byte r]
  else if r ≤ 0x7FF then [byte (0xC0 + r / 64), byte (0x80 + r % 64)]
  else if r > 0x10FFFF ∨ (0xD800 ≤ r ∧ r ≤ 0xDFFF) then [byte 0xEF, byte 0xBF, byte 0xBD]
  else if r ≤ 0xFFFF then
    [byte (0xE0 + r / 4096), byte (0x80 + r / 64 % 64), byte (0x80 + r % 64)]
  else
    [byte (0xF0 + r / 262144), byte (0x80 + r / 4096 % 64), byte (0x80 + r / 64 % 64),
      byte (0x80 + r % 64)]

/-- The UTF-8 encoding of a list of Unicode scalar values. -/
def encodeRunes : List Char → GoString
  | [] => []
  | c :: cs => encodeRune c.val.toNat ++ encodeRunes cs

deriving instance DecidableEq for Except

/-- A source-text literal as a Go string. -/
def ofString (s : String) : GoString := encodeRunes s.data

end Kratos

/-! ## `selfservice/flow/state.go` -/

namespace Kratos.flow

open Kratos

/-- `type State string`. -/
abbrev State := GoString

def StateChooseMethod : State := ofString "choose_method"
def StateEmailSent : State := ofString "sent_email"
def StatePassedChallenge : State := ofString "passed_challenge"
def StateShowForm : State := ofString "show_form"
def StateSuccess : State := ofString "success"
def StateRecoveryAwaitingAddress : State := ofString "recovery_awaiting_address"
def StateRecoveryAwaitingAddressChoice : State := ofString "recovery_awaiting_address_choice"
def StateRecoveryAwaitingAddressConfirm : State := ofString "recovery_confirming_address"
def StateRecoveryAwaitingCode : State := ofString "recovery_awaiting_code"

/-- `var states = []State{...}`: the table of linear states. -/
def states : List State := [StateChooseMethod, StateEmailSent, StatePassedChallenge]

/-- The loop of `indexOf`: `for k, s := range states`, started at position `k`. -/
def indexOfLoop (current : State) : List State → Nat → Nat
  | [], _ => 0
  | s :: rest, k => if s = current then k else indexOfLoop current rest (k + 1)

/-- `func indexOf(current State) int`. -/
def indexOf (current : State) : Nat := indexOfLoop current states 0

/-- `func HasReachedState(expected, actual State) bool`. -/
def HasReachedState (expected actual : State) : Bool :=
  decide (indexOf actual ≥ indexOf expected)

/-- `strings.HasPrefix`. -/
def hasPrefix (s pre : GoString) : Bool := s.take pre.length == pre

/-- `func IsStateRecoveryV2(state State) bool`. -/
def IsStateRecoveryV2 (state : State) : Bool := hasPrefix state (ofString "recovery_")

/-- `func NextState(current State) State`; `none` stands for the run-time panic of
an out-of-range index into `states`. -/
def NextState (current : State) : Option State :=
  if current = StatePassedChallenge then some StatePassedChallenge
  else states[indexOf current + 1]?

/-- `NextState` applied `n` times in a row. -/
def iterNextState : Nat → State → Option State
  | 0, s => some s
  | n + 1, s => (NextState s).bind (iterNextState n)

/-- The position of a state as the specification words it: its place in the table
`[choose_method, sent_email, passed_challenge]`, and 0 when it is not there. -/
def tablePosition (s : State) : Nat :=
  if s = StateChooseMethod then 0
  else if s = StateEmailSent then 1
  else if s = StatePassedChallenge then 2
  else 0

end Kratos.flow

/-! ## Text primitives of the Go runtime used by `validator.go` -/

namespace Kratos

/-- Go's `utf8.DecodeRune` / `utf8.DecodeRuneInString`: the first rune of `p` and
its width in bytes; `(RuneError, 1)` on an invalid or truncated encoding and
`(RuneError, 0)` on empty input. -/
def decodeRune (p : List Byte) : Nat × Nat :=
  match p with
  | [] => (RuneError, 0)
  | p0 :: rest =>
    if p0.val < 0x80 then (p0.val, 1)
    else if p0.val < 0xC2 ∨ 0xF4 < p0.val then (RuneError, 1)
    else
      let lo := if p0.val = 0xE0 then 0xA0 else if p0.val = 0xF0 then 0x90 else 0x80
      let hi := if p0.val = 0xED then 0x9F else if p0.val = 0xF4 then 0x8F else 0xBF
      match rest with
      | [] => (RuneError, 1)
      | b1 :: rest1 =>
        if p0.val < 0xE0 then
          if b1.val < lo ∨ hi < b1.val then (RuneError, 1)
          else (p0.val % 32 * 64 + b1.val % 64, 2)
        else
          match rest1 with
          | [] => (RuneError, 1)
          | b2 :: rest2 =>
            if p0.val < 0xF0 then
              if b1.val < lo ∨ hi < b1.val then (RuneError, 1)
              else if b2.val < 0x80 ∨ 0xBF < b2.val then (RuneError, 1)
              else (p0.val % 16 * 4096 + b1.val % 64 * 64 + b2.val % 64, 3)
            else
              match rest2 with
              | [] => (RuneError, 1)
              | b3 :: _ =>
                if b1.val < lo ∨ hi < b1.val then (RuneError, 1)
                else if b2.val < 0x80 ∨ 0xBF < b2.val then (RuneError, 1)
                else if b3.val < 0x80 ∨ 0xBF < b3.val then (RuneError, 1)
                else (p0.val % 8 * 262144 + b1.val % 64 * 4096 + b2.val % 64 * 64
                  + b3.val % 64, 4)

/-- The iteration `for i, x := range s` over a Go string: the pairs
(byte offset of the rune, rune), in order. `fuel` bounds the number of runes. -/
def rangeStringFrom : Nat → Nat → GoString → List (Nat × Nat)
  | 0, _, _ => []
  | fuel + 1, i, s =>
    match s with
    | [] => []
    | _ :: _ =>
      let d := decodeRune s
      (i, d.1) :: rangeStringFrom fuel (i + d.2) (s.drop d.2)

/-- `for i, x := range s`. -/
def rangeString (s : GoString) : List (Nat × Nat) := rangeStringFrom s.length 0 s

/-- The conversion `[]rune(s)`. -/
def runesOf (s : GoString) : List Nat := (rangeString s).map Prod.snd

/-- ASCII-only lower-casing; it agrees with `strings.ToLower` on strings made of
ASCII bytes. -/
def asciiToLower (s : GoString) : GoString :=
  s.map fun b => if 0x41 ≤ b.val ∧ b.val ≤ 0x5A then byte (b.val + 32) else b

end Kratos

/-! ## `encoding/json`: validation (`scanner.go`) -/

namespace Kratos.json

open Kratos

/-- The step functions of the scanner (`stateBeginValue`, `stateInString`, ...). -/
inductive Step
  | beginValueOrEmpty | beginValue | beginStringOrEmpty | beginString | endValue | endTop
  | inString | inStringEsc | inStringEscU | inStringEscU1 | inStringEscU12 | inStringEscU123
  | neg | one | zero | dot | dot0 | e | eSign | e0
  | t | tr | tru | f | fa | fal | fals | n | nu | nul
  | error
  deriving DecidableEq

/-- The entries of the scanner's parse stack. -/
inductive ParseState
  | objectKey | objectValue | arrayValue
  deriving DecidableEq

/-- `type scanner struct`: the current step function, the parse stack (innermost
first), whether an error was recorded, and whether the top-level value has ended. -/
structure Scanner where
  step : Step
  parseState : List ParseState
  err : Bool
  endTop : Bool
  deriving DecidableEq

/-- `maxNestingDepth`. -/
def maxNestingDepth : Nat := 10000

/-- `func isSpace(c byte) bool`. -/
def isSpace (c : Byte) : Bool := c.val = 0x20 ∨ c.val = 0x09 ∨ c.val = 0x0D ∨ c.val = 0x0A

/-- `func (s *scanner) error`. -/
def Scanner.error (s : Scanner) : Scanner := { s with step := .error, err := true }

/-- `func (s *scanner) pushParseState`, with the step function to continue with. -/
def Scanner.pushParseState (s : Scanner) (newParseState : ParseState) (next : Step) : Scanner :=
  if s.parseState.length + 1 ≤ maxNestingDepth then
    { s with step := next, parseState := newParseState :: s.parseState }
  else { s with parseState := newParseState :: s.parseState }.error

/-- `func (s *scanner) popParseState`. -/
def Scanner.popParseState (s : Scanner) : Scanner :=
  if s.parseState.length - 1 = 0 then
    { s with parseState := s.parseState.tail, step := .endTop, endTop := true }
  else { s with parseState := s.parseState.tail, step := .endValue }

/-- `func stateEndTop`. -/
def stateEndTop (s : Scanner) (c : Byte) : Scanner :=
  if ¬ isSpace c then s.error else s

/-- `func stateEndValue`. -/
def stateEndValue (s : Scanner) (c : Byte) : Scanner :=
  match s.parseState with
  | [] => stateEndTop { s with step := .endTop, endTop := true } c
  | ps :: rest =>
    if isSpace c then { s with step := .endValue }
    else
      match ps with
      | .objectKey =>
        if c.val = 0x3A then { s with parseState := .objectValue :: rest, step := .beginValue }
        else s.error
      | .objectValue =>
        if c.val = 0x2C then { s with parseState := .objectKey :: rest, step := .beginString }
        else if c.val = 0x7D then s.popParseState
        else s.error
      | .arrayValue =>
        if c.val = 0x2C then { s with step := .beginValue }
        else if c.val = 0x5D then s.popParseState
        else s.error

/-- `func stateBeginValue`. -/
def stateBeginValue (s : Scanner) (c : Byte) : Scanner :=
  if isSpace c then s
  else if c.val = 0x7B then s.pushParseState .objectKey .beginStringOrEmpty
  else if c.val = 0x5B then s.pushParseState .arrayValue .beginValueOrEmpty
  else if c.val = 0x22 then { s with step := .inString }
  else if c.val = 0x2D then { s with step := .neg }
  else if c.val = 0x30 then { s with step := .zero }
  else if c.val = 0x74 then { s with step := .t }
  else if c.val = 0x66 then { s with step := .f }
  else if c.val = 0x6E then { s with step := .n }
  else if 0x31 ≤ c.val ∧ c.val ≤ 0x39 then { s with step := .one }
  else s.error

/-- `func stateBeginValueOrEmpty`. -/
def stateBeginValueOrEmpty (s : Scanner) (c : Byte) : Scanner :=
  if isSpace c then s
  else if c.val = 0x5D then stateEndValue s c
  else stateBeginValue s c

/-- `func stateBeginString`. -/
def stateBeginString (s : Scanner) (c : Byte) : Scanner :=
  if isSpace c then s
  else if c.val = 0x22 then { s with step := .inString }
  else s.error

/-- `func stateBeginStringOrEmpty`. -/
def stateBeginStringOrEmpty (s : Scanner) (c : Byte) : Scanner :=
  if isSpace c then s
  else if c.val = 0x7D then
    stateEndValue { s with parseState := .objectValue :: s.parseState.tail } c
  else stateBeginString s c

/-- `func stateInString`. -/
def stateInString (s : Scanner) (c : Byte) : Scanner :=
  if c.val = 0x22 then { s with step := .endValue }
  else if c.val = 0x5C then { s with step := .inStringEsc }
  else if c.val < 0x20 then s.error
  else s

/-- `func stateInStringEsc`. -/
def stateInStringEsc (s : Scanner) (c : Byte) : Scanner :=
  if c.val = 0x62 ∨ c.val = 0x66 ∨ c.val = 0x6E ∨ c.val = 0x72 ∨ c.val = 0x74 ∨ c.val = 0x5C
      ∨ c.val = 0x2F ∨ c.val = 0x22 then { s with step := .inString }
  else if c.val = 0x75 then { s with step := .inStringEscU }
  else s.error

/-- A hexadecimal digit, in either case. -/
def isHex (c : Byte) : Bool :=
  (0x30 ≤ c.val ∧ c.val ≤ 0x39) ∨ (0x61 ≤ c.val ∧ c.val ≤ 0x66) ∨ (0x41 ≤ c.val ∧ c.val ≤ 0x46)

/-- The four functions `stateInStringEscU`, `...U1`, `...U12`, `...U123`: a
hexadecimal digit leads on to `next`. -/
def stateInStringEscHex (next : Step) (s : Scanner) (c : Byte) : Scanner :=
  if isHex c then { s with step := next } else s.error

/-- A decimal digit. -/
def isDigit (c : Byte) : Bool := 0x30 ≤ c.val ∧ c.val ≤ 0x39

/-- `func stateNeg`. -/
def stateNeg (s : Scanner) (c : Byte) : Scanner :=
  if c.val = 0x30 then { s with step := .zero }
  else if 0x31 ≤ c.val ∧ c.val ≤ 0x39 then { s with step := .one }
  else s.error

/-- `func stateESign`. -/
def stateESign (s : Scanner) (c : Byte) : Scanner :=
  if isDigit c then { s with step := .e0 } else s.error

/-- `func stateE`. -/
def stateE (s : Scanner) (c : Byte) : Scanner :=
  if c.val = 0x2B ∨ c.val = 0x2D then { s with step := .eSign } else stateESign s c

/-- `func stateE0`. -/
def stateE0 (s : Scanner) (c : Byte) : Scanner :=
  if isDigit c then s else stateEndValue s c

/-- `func state0`. -/
def state0 (s : Scanner) (c : Byte) : Scanner :=
  if c.val = 0x2E then { s with step := .dot }
  else if c.val = 0x65 ∨ c.val = 0x45 then { s with step := .e }
  else stateEndValue s c

/-- `func state1`. -/
def state1 (s : Scanner) (c : Byte) : Scanner :=
  if isDigit c then { s with step := .one } else state0 s c

/-- `func stateDot`. -/
def stateDot (s : Scanner) (c : Byte) : Scanner :=
  if isDigit c then { s with step := .dot0 } else s.error

/-- `func stateDot0`. -/
def stateDot0 (s : Scanner) (c : Byte) : Scanner :=
  if isDigit c then s
  else if c.val = 0x65 ∨ c.val = 0x45 then { s with step := .e }
  else stateEndValue s c

/-- The functions `stateT`, `stateTr`, ..., `stateNul` for the literals `true`,
`false` and `null`: the expected byte leads on to `next`. -/
def stateLiteral (expected : Nat) (next : Step) (s : Scanner) (c : Byte) : Scanner :=
  if c.val = expected then { s with step := next } else s.error

/-- The call `s.step(s, c)`. -/
def Scanner.next (s : Scanner) (c : Byte) : Scanner :=
  match s.step with
  | .beginValueOrEmpty => stateBeginValueOrEmpty s c
  | .beginValue => stateBeginValue s c
  | .beginStringOrEmpty => stateBeginStringOrEmpty s c
  | .beginString => stateBeginString s c
  | .endValue => stateEndValue s c
  | .endTop => stateEndTop s c
  | .inString => stateInString s c
  | .inStringEsc => stateInStringEsc s c
  | .inStringEscU => stateInStringEscHex .inStringEscU1 s c
  | .inStringEscU1 => stateInStringEscHex .inStringEscU12 s c
  | .inStringEscU12 => stateInStringEscHex .inStringEscU123 s c
  | .inStringEscU123 => stateInStringEscHex .inString s c
  | .neg => stateNeg s c
  | .one => state1 s c
  | .zero => state0 s c
  | .dot => stateDot s c
  | .dot0 => stateDot0 s c
  | .e => stateE s c
  | .eSign => stateESign s c
  | .e0 => stateE0 s c
  | .t => stateLiteral 0x72 .tr s c
  | .tr => stateLiteral 0x75 .tru s c
  | .tru => stateLiteral 0x65 .endValue s c
  | .f => stateLiteral 0x61 .fa s c
  | .fa => stateLiteral 0x6C .fal s c
  | .fal => stateLiteral 0x73 .fals s c
  | .fals => stateLiteral 0x65 .endValue s c
  | .n => stateLiteral 0x75 .nu s c
  | .nu => stateLiteral 0x6C .nul s c
  | .nul => stateLiteral 0x6C .endValue s c
  | .error => s.error

/-- `func (s *scanner) reset`. -/
def Scanner.reset : Scanner := { step := .beginValue, parseState := [], err := false, endTop := false }

/-- `func (s *scanner) eof`: true when the input ended on a complete value (`scanEnd`). -/
def Scanner.eof (s : Scanner) : Bool :=
  if s.err then false
  else if s.endTop then true
  else (s.next (byte 0x20)).endTop

/-- `func checkValid(data []byte, scan *scanner) error`: true for `nil`. An error
recorded on a byte stops the scan; it is kept in `err`, so folding on gives the same
verdict. -/
def checkValid (data : List Byte) : Bool := (data.foldl Scanner.next Scanner.reset).eof

end Kratos.json

/-! ## `encoding/json`: strings (`encode.go`, `decode.go`) and `database/sql` -/

namespace Kratos.json

open Kratos

/-- The table `hex = "0123456789abcdef"`. -/
def hex (n : Nat) : Byte := if n < 10 then byte (0x30 + n) else byte (0x61 + (n - 10))

/-- The table `htmlSafeSet` on ASCII bytes: everything from the space on except the
double quote, the backslash and the characters `<`, `>`, `&`. -/
def htmlSafe (b : Byte) : Bool :=
  0x20 ≤ b.val ∧ b.val ≠ 0x22 ∧ b.val ≠ 0x5C ∧ b.val ≠ 0x3C ∧ b.val ≠ 0x3E ∧ b.val ≠ 0x26

/-- The escape that `appendString` writes for an ASCII byte outside `htmlSafeSet`. -/
def escapeByte (b : Byte) : List Byte :=
  if b.val = 0x5C ∨ b.val = 0x22 then [byte 0x5C, b]
  else if b.val = 0x08 then [byte 0x5C, byte 0x62]
  else if b.val = 0x0C then [byte 0x5C, byte 0x66]
  else if b.val = 0x0A then [byte 0x5C, byte 0x6E]
  else if b.val = 0x0D then [byte 0x5C, byte 0x72]
  else if b.val = 0x09 then [byte 0x5C, byte 0x74]
  else [byte 0x5C, byte 0x75, byte 0x30, byte 0x30, hex (b.val / 16), hex (b.val % 16)]

/-- The loop of `appendString` (with `escapeHTML` set, as `json.Marshal` does) over
the rest of the source string; `fuel` bounds the iterations. -/
def appendStringLoop : Nat → List Byte → List Byte
  | 0, _ => []
  | _ + 1, [] => []
  | fuel + 1, b :: rest =>
    if b.val < 0x80 then
      if htmlSafe b then b :: appendStringLoop fuel rest
      else escapeByte b ++ appendStringLoop fuel rest
    else
      let d := decodeRune ((b :: rest).take 4)
      if d.1 = RuneError ∧ d.2 = 1 then
        [byte 0x5C, byte 0x75, byte 0x66, byte 0x66, byte 0x66, byte 0x64]
          ++ appendStringLoop fuel rest
      else if d.1 = 0x2028 ∨ d.1 = 0x2029 then
        [byte 0x5C, byte 0x75, byte 0x32, byte 0x30, byte 0x32, hex (d.1 % 16)]
          ++ appendStringLoop fuel ((b :: rest).drop d.2)
      else (b :: rest).take d.2 ++ appendStringLoop fuel ((b :: rest).drop d.2)

/-- `json.Marshal(s)` for a string `s` (`appendString`): the quoted and escaped
string. It cannot fail. -/
def marshalString (src : GoString) : List Byte :=
  byte 0x22 :: appendStringLoop src.length src ++ [byte 0x22]

/-- The value of a hexadecimal digit, `none` for any other byte. -/
def hexValue (c : Byte) : Option Nat :=
  if 0x30 ≤ c.val ∧ c.val ≤ 0x39 then some (c.val - 0x30)
  else if 0x61 ≤ c.val ∧ c.val ≤ 0x66 then some (c.val - 0x61 + 10)
  else if 0x41 ≤ c.val ∧ c.val ≤ 0x46 then some (c.val - 0x41 + 10)
  else none

/-- `func getu4(s []byte) rune`: the value of a leading `\uXXXX`; `none` for -1. -/
def getu4 (s : List Byte) : Option Nat :=
  match s with
  | c0 :: c1 :: h0 :: h1 :: h2 :: h3 :: _ =>
    if c0.val = 0x5C ∧ c1.val = 0x75 then
      match hexValue h0, hexValue h1, hexValue h2, hexValue h3 with
      | some a, some b, some c, some d => some (((a * 16 + b) * 16 + c) * 16 + d)
      | _, _, _, _ => none
    else none
  | _ => none

/-- `utf16.DecodeRune(r1, r2)`, where `r2` may be the -1 of a failed `getu4`. -/
def utf16DecodeRune (r1 : Nat) (r2 : Option Nat) : Nat :=
  match r2 with
  | some r2 =>
    if 0xD800 ≤ r1 ∧ r1 < 0xDC00 ∧ 0xDC00 ≤ r2 ∧ r2 < 0xE000 then
      (r1 - 0xD800) * 1024 + (r2 - 0xDC00) + 0x10000
    else RuneError
  | none => RuneError

/-- The first loop of `unquoteBytes`: the length of the prefix that needs no
unquoting. -/
def plainPrefix : Nat → List Byte → Nat
  | 0, _ => 0
  | _ + 1, [] => 0
  | fuel + 1, c :: rest =>
    if c.val = 0x5C ∨ c.val = 0x22 ∨ c.val < 0x20 then 0
    else if c.val < 0x80 then 1 + plainPrefix fuel rest
    else
      let d := decodeRune (c :: rest)
      if d.1 = RuneError ∧ d.2 = 1 then 0
      else d.2 + plainPrefix fuel ((c :: rest).drop d.2)

/-- The second loop of `unquoteBytes`: the unquoted bytes of the rest of the
literal, `none` when it is malformed. -/
def unquoteLoop : Nat → List Byte → Option (List Byte)
  | 0, _ => some []
  | _ + 1, [] => some []
  | fuel + 1, c :: rest =>
    if c.val = 0x5C then
      match rest with
      | [] => none
      | e :: rest1 =>
        if e.val = 0x22 ∨ e.val = 0x5C ∨ e.val = 0x2F ∨ e.val = 0x27 then
          (unquoteLoop fuel rest1).map (e :: ·)
        else if e.val = 0x62 then (unquoteLoop fuel rest1).map (byte 0x08 :: ·)
        else if e.val = 0x66 then (unquoteLoop fuel rest1).map (byte 0x0C :: ·)
        else if e.val = 0x6E then (unquoteLoop fuel rest1).map (byte 0x0A :: ·)
        else if e.val = 0x72 then (unquoteLoop fuel rest1).map (byte 0x0D :: ·)
        else if e.val = 0x74 then (unquoteLoop fuel rest1).map (byte 0x09 :: ·)
        else if e.val = 0x75 then
          match getu4 (c :: rest) with
          | none => none
          | some rr =>
            if 0xD800 ≤ rr ∧ rr < 0xE000 then
              let dec := utf16DecodeRune rr (getu4 (rest.drop 5))
              if dec ≠ RuneError then
                (unquoteLoop fuel (rest.drop 11)).map (encodeRune dec ++ ·)
              else (unquoteLoop fuel (rest.drop 5)).map (encodeRune RuneError ++ ·)
            else (unquoteLoop fuel (rest.drop 5)).map (encodeRune rr ++ ·)
        else none
    else if c.val = 0x22 ∨ c.val < 0x20 then none
    else if c.val < 0x80 then (unquoteLoop fuel rest).map (c :: ·)
    else
      let d := decodeRune (c :: rest)
      (unquoteLoop fuel ((c :: rest).drop d.2)).map (encodeRune d.1 ++ ·)

/-- `func unquoteBytes(s []byte) (t []byte, ok bool)`. -/
def unquoteBytes (s : List Byte) : Option (List Byte) :=
  if s.length < 2 ∨ s.head? ≠ some (byte 0x22) ∨ s.getLast? ≠ some (byte 0x22) then none
  else
    let body := s.tail.dropLast
    let r := plainPrefix body.length body
    if r = body.length then some body
    else (unquoteLoop body.length (body.drop r)).map (body.take r ++ ·)

/-- The string case of `rescanLiteral`: the length of the literal from just after
its opening quote up to and including its closing quote; `esc` tells whether the
byte at hand is escaped by a preceding backslash. -/
def stringLiteralEnd : Bool → List Byte → Nat
  | _, [] => 0
  | true, _ :: rest => 1 + stringLiteralEnd false rest
  | false, c :: rest =>
    if c.val = 0x5C then 1 + stringLiteralEnd true rest
    else if c.val = 0x22 then 1
    else 1 + stringLiteralEnd false rest

/-- The errors of `json.Unmarshal` and of `State.UnmarshalJSON`. -/
inductive DecodeError
  /-- A `*json.SyntaxError`. -/
  | syntaxError
  /-- A `*json.UnmarshalTypeError` for a JSON value of the named kind. -/
  | unmarshalType (value : String)
  /-- The decoder's internal phase error. -/
  | phase
  /-- The error "json.RawMessage: UnmarshalJSON on nil pointer". -/
  | nilPointer
  deriving DecidableEq

/-- `json.Unmarshal(data, p)` for `p` a non-nil `*string` holding `cur`: the new
content of `*p`, or the error (`*p` is then unchanged). -/
def unmarshalString (data : List Byte) (cur : GoString) : Except DecodeError GoString :=
  if ¬ checkValid data then .error .syntaxError
  else
    match data.dropWhile isSpace with
    | [] => .error .phase
    | c :: rest =>
      if c.val = 0x5B then .error (.unmarshalType "array")
      else if c.val = 0x7B then .error (.unmarshalType "object")
      else if c.val = 0x6E then .ok cur
      else if c.val = 0x74 ∨ c.val = 0x66 then .error (.unmarshalType "bool")
      else if c.val = 0x22 then
        match unquoteBytes (c :: rest.take (stringLiteralEnd false rest)) with
        | some t => .ok t
        | none => .error .phase
      else .error (.unmarshalType "number")

end Kratos.json

namespace Kratos.sql

open Kratos

/-- A `driver.Value` handed to a `Scanner`. A `float64` and a `time.Time` are given
by the text `convertAssign` renders them to; `unsupported` is any other Go value. -/
inductive DriverValue
  | null
  | string (s : GoString)
  | bytes (b : List Byte)
  | int64 (i : Int)
  | bool (b : Bool)
  | float64 (rendered : GoString)
  | time (rendered : GoString)
  | unsupported
  deriving DecidableEq

/-- `type NullString struct`. -/
structure NullString where
  String : GoString
  Valid : Bool
  deriving DecidableEq

/-- `strconv.FormatInt(i, 10)`. -/
def formatInt (i : Int) : GoString :=
  (if i < 0 then [byte 0x2D] else []) ++ (Nat.toDigits 10 i.natAbs).map fun c => byte c.toNat

/-- `func (ns *NullString) Scan(value any) error`: the new content of `*ns`, or
`none` for the error of `convertAssign`. -/
def NullString.Scan (value : DriverValue) : Option NullString :=
  match value with
  | .null => some { String := [], Valid := false }
  | .string s => some { String := s, Valid := true }
  | .bytes b => some { String := b, Valid := true }
  | .int64 i => some { String := formatInt i, Valid := true }
  | .bool b => some { String := ofString (if b then "true" else "false"), Valid := true }
  | .float64 r => some { String := r, Valid := true }
  | .time r => some { String := r, Valid := true }
  | .unsupported => none

/-- `func (ns NullString) Value() (driver.Value, error)`; it has no error case. -/
def NullString.Value (ns : NullString) : DriverValue :=
  if ¬ ns.Valid then .null else .string ns.String

end Kratos.sql

/-! ## `selfservice/flow/state.go`: serialisation -/

namespace Kratos.flow

open Kratos

/-- `func (ns State) MarshalJSON() ([]byte, error)`: `json.Marshal(string(ns))`. -/
def State.MarshalJSON (ns : State) : Except json.DecodeError (List Byte) :=
  .ok (json.marshalString ns)

/-- `func (ns *State) UnmarshalJSON(data []byte) error`: the receiver is `none` for
a nil pointer; the result is the state afterwards, or the error. -/
def State.UnmarshalJSON (ns : Option State) (data : List Byte) : Except json.DecodeError State :=
  match ns with
  | none => .error .nilPointer
  | some cur => if data.length = 0 then .ok cur else json.unmarshalString data cur

/-- `func (ns *State) Scan(value interface{}) error`: the state afterwards, or
`none` for the error of `NullString.Scan`. -/
def State.Scan (value : sql.DriverValue) : Option State :=
  match sql.NullString.Scan value with
  | none => none
  | some v => some v.String

/-- `func (ns State) Value() (driver.Value, error)`; it has no error case. -/
def State.Value (ns : State) : sql.DriverValue :=
  if ns.length = 0 then sql.NullString.Value { String := [], Valid := false }
  else sql.NullString.Value { String := ns, Valid := true }

end Kratos.flow

/-! ## `github.com/arbovm/levenshtein` (external library, as used by `validate`) -/

namespace Kratos.levenshtein

/-- The inner loop `for y := 1; y <= len_s1; y++` of `Distance` for one rune `c` of
`s2`: `prev` is the part of the old column still to be read, `left` the new value
just written at `y-1`, `lastdiag` the old value at `y-1`. -/
def columnStep (c : Nat) : List Nat → List Nat → Nat → Nat → List Nat
  | [], _, _, _ => []
  | _ :: _, [], _, _ => []
  | a :: s1, old :: prev, left, lastdiag =>
    let cost := if a ≠ c then 1 else 0
    let v := min (min (old + 1) (left + 1)) (lastdiag + cost)
    v :: columnStep c s1 prev v old

/-- The outer loop `for x := 1; x <= len_s2; x++`: `column` is the whole column
(`column[0..len_s1]`), `x` the 1-based index of the rune being consumed. -/
def columns (s1 : List Nat) : List Nat → Nat → List Nat → List Nat
  | [], _, column => column
  | c :: s2, x, column => columns s1 s2 (x + 1) (x :: columnStep c s1 column.tail x (x - 1))

/-- `func Distance(str1, str2 string) int`: the Levenshtein distance of the two
strings taken as rune sequences. -/
def Distance (str1 str2 : GoString) : Nat :=
  let s1 := runesOf str1
  let s2 := runesOf str2
  ((columns s1 s2 1 (List.range (s1.length + 1))).getLast?).getD 0

end Kratos.levenshtein

/-! ## IEEE 754 binary32 arithmetic, as far as `validate` uses it -/

namespace Kratos

/-- A non-negative `float32`: NaN, +Inf, or the finite value `mant * 2 ^ exp`.
Exponent overflow and underflow are not modelled; the quotients of two lengths
stay far inside the normal range. -/
inductive Float32
  | nan
  | inf
  | fin (mant : Nat) (exp : Int)
  deriving DecidableEq, Repr

/-- The position of the highest set bit of `n` (`bits.Len(n) - 1`), 0 for 0. -/
def log2Floor (n : Nat) : Nat := go n n
where
  /-- Halve until below 2, at most `fuel` times. -/
  go : Nat → Nat → Nat
  | 0, _ => 0
  | fuel + 1, m => if m < 2 then 0 else go fuel (m / 2) + 1

/-- Round the fraction `n / d` to the nearest integer, ties to even. -/
def roundHalfEven (n d : Nat) : Nat :=
  let q := n / d
  let r := n % d
  if 2 * r < d then q
  else if d < 2 * r then q + 1
  else if q % 2 = 0 then q else q + 1

/-- The conversion `float32(n)` of a non-negative integer: exact below `2^24`,
rounded to 24 significant bits (nearest, ties to even) above. -/
def Float32.ofNat (n : Nat) : Float32 :=
  if n < 2 ^ 24 then .fin n 0
  else
    let sh := log2Floor n - 23
    .fin (roundHalfEven n (2 ^ sh)) sh

/-- The correctly rounded quotient `x / y` of two `float32` values. -/
def Float32.div : Float32 → Float32 → Float32
  | .nan, _ => .nan
  | _, .nan => .nan
  | .inf, .inf => .nan
  | .inf, .fin _ _ => .inf
  | .fin _ _, .inf => .fin 0 0
  | .fin a ea, .fin b eb =>
    if b = 0 then (if a = 0 then .nan else .inf)
    else if a = 0 then .fin 0 0
    else
      -- scale so that the quotient of `num / den` lies in `[2^23, 2^24)`
      let t0 : Int := 23 + (log2Floor b : Int) - (log2Floor a : Int)
      let num0 := a * 2 ^ t0.toNat
      let den := b * 2 ^ (-t0).toNat
      let t : Int := if num0 < 2 ^ 23 * den then t0 + 1 else t0
      let num := if num0 < 2 ^ 23 * den then 2 * num0 else num0
      .fin (roundHalfEven num den) (ea - eb - t)

/-- The comparison `x > y` of two `float32` values (false whenever one is NaN). -/
def Float32.gt : Float32 → Float32 → Bool
  | .nan, _ => false
  | _, .nan => false
  | .inf, .inf => false
  | .inf, .fin _ _ => true
  | .fin _ _, .inf => false
  | .fin a ea, .fin b eb =>
    let e := min ea eb
    decide (b * 2 ^ (eb - e).toNat < a * 2 ^ (ea - e).toNat)

/-- The constant `0.5` as a `float32`. -/
def Float32.half : Float32 := .fin 1 (-1)

end Kratos

/-! ## `crypto/sha1` -/

namespace Kratos.sha1

/-- Rotate a 32-bit word left by `n` bits. -/
def rotl (x n : Nat) : Nat := ((x <<< n) ||| (x >>> (32 - n))) % 2 ^ 32

/-- The big-endian bytes of the `w` low bytes of `x`. -/
def bigEndian : Nat → Nat → List Byte
  | 0, _ => []
  | w + 1, x => byte (x >>> (8 * w)) :: bigEndian w x

/-- Message padding: a `0x80` byte, zeros up to 56 mod 64, the bit length. -/
def pad (msg : List Byte) : List Byte :=
  let l := msg.length
  msg ++ [byte 0x80] ++ List.replicate ((119 - l % 64) % 64) (byte 0)
    ++ bigEndian 8 (8 * l)

/-- Read the big-endian 32-bit words of a block. -/
def words : List Byte → List Nat
  | b0 :: b1 :: b2 :: b3 :: rest =>
    (b0.val * 2 ^ 24 + b1.val * 2 ^ 16 + b2.val * 2 ^ 8 + b3.val) :: words rest
  | _ => []

/-- Extend the message schedule by `n` words; `w` holds the schedule newest first. -/
def schedule : Nat → List Nat → List Nat
  | 0, w => w
  | n + 1, w =>
    schedule n (rotl (w.getD 2 0 ^^^ w.getD 7 0 ^^^ w.getD 13 0 ^^^ w.getD 15 0) 1 :: w)

/-- The five chaining words. -/
structure Digest where
  a : Nat
  b : Nat
  c : Nat
  d : Nat
  e : Nat

/-- One of the eighty rounds, for round number `t` and schedule word `wt`. -/
def round (s : Digest) (t wt : Nat) : Digest :=
  let f :=
    if t < 20 then (s.b &&& s.c) ||| ((s.b ^^^ 0xFFFFFFFF) &&& s.d)
    else if t < 40 then s.b ^^^ s.c ^^^ s.d
    else if t < 60 then (s.b &&& s.c) ||| (s.b &&& s.d) ||| (s.c &&& s.d)
    else s.b ^^^ s.c ^^^ s.d
  let k :=
    if t < 20 then 0x5A827999 else if t < 40 then 0x6ED9EBA1
    else if t < 60 then 0x8F1BBCDC else 0xCA62C1D6
  ⟨(rotl s.a 5 + f + s.e + k + wt) % 2 ^ 32, s.a, rotl s.b 30, s.c, s.d⟩

/-- Run the rounds over the schedule words, numbered from `t`. -/
def rounds (s : Digest) : Nat → List Nat → Digest
  | _, [] => s
  | t, wt :: ws => rounds (round s t wt) (t + 1) ws

/-- Process the padded message block by block (`fuel` bounds the block count). -/
def blocks : Nat → Digest → List Byte → Digest
  | 0, h, _ => h
  | fuel + 1, h, data =>
    match data with
    | [] => h
    | _ :: _ =>
      let w := (schedule 64 (words (data.take 64)).reverse).reverse
      let r := rounds h 0 w
      blocks fuel ⟨(h.a + r.a) % 2 ^ 32, (h.b + r.b) % 2 ^ 32, (h.c + r.c) % 2 ^ 32,
        (h.d + r.d) % 2 ^ 32, (h.e + r.e) % 2 ^ 32⟩ (data.drop 64)

/-- The 20-byte SHA-1 digest of a message: `h := sha1.New(); h.Write(msg);
h.Sum(nil)`. -/
def Sum (msg : List Byte) : List Byte :=
  let p := pad msg
  let h := blocks p.length ⟨0x67452301, 0xEFCDAB89, 0x98BADCFE, 0x10325476, 0xC3D2E1F0⟩ p
  bigEndian 4 h.a ++ bigEndian 4 h.b ++ bigEndian 4 h.c ++ bigEndian 4 h.d ++ bigEndian 4 h.e

end Kratos.sha1

/-! ## `selfservice/strategy/password/validator.go` -/

namespace Kratos.password

open Kratos

/-- The fields of `config.PasswordPolicy` read by the validator. The type is
declared outside the files at hand; `MinPasswordLength` and `MaxBreaches` are
unsigned machine integers (`uint`), which is why the source converts them with
`int(...)` and `int64(...)` under a silenced overflow lint (G115). Values are
meant to be below `2^64`. -/
structure PasswordPolicy where
  HaveIBeenPwnedHost : GoString
  HaveIBeenPwnedEnabled : Bool
  MaxBreaches : Nat
  IgnoreNetworkErrors : Bool
  MinPasswordLength : Nat
  IdentifierSimilarityCheckEnabled : Bool

/-- The conversions `int(u)` and `int64(u)` of a 64-bit unsigned value: the same
bit pattern read as a two's-complement number. -/
def toInt64 (u : Nat) : Int :=
  if u % 2 ^ 64 < 2 ^ 63 then (u % 2 ^ 64 : Nat) else (u % 2 ^ 64 : Nat) - 2 ^ 64

/-- What `s.Client.Do(req)` can produce for the range request. -/
inductive HttpResult
  /-- The call `retryablehttp.NewRequestWithContext` failed. -/
  | requestError
  /-- The call `Client.Do` returned an error. -/
  | transportError
  /-- A response with its status code and body; `readError` tells whether reading
  the body fails after these bytes. -/
  | response (status : Nat) (body : List Byte) (readError : Bool)

/-- The collaborators of the validator that live outside the repository, by what
they do during one call. -/
structure Env where
  /-- The function `strings.ToLower`. -/
  toLower : GoString → GoString
  /-- The outcome of a `GET` of the given URL through `s.Client`. -/
  httpDo : GoString → HttpResult
  /-- How far the goroutine of the cache (`processItems`) gets while `fetch` runs:
  the entry at position `k` is the number of buffered sets it applies before call
  number `k` of `SetWithTTL`, and 0 where the list has ended. -/
  applied : List Nat

/-- An item of the set buffer of the cache: `flag` is `itemUpdate` (`isUpdate`) or
`itemNew`. -/
structure Item where
  isUpdate : Bool
  Key : GoString
  Value : Int
  deriving DecidableEq

/-- The cache `hashes *ristretto.Cache[string, int64]` (external library): the
stored items, which `Get` reads, and the set buffer `setBuf` of the items handed to
`SetWithTTL` that the goroutine of the cache has still to apply. The cache is taken
below its capacity and its buffer below its size, with keys that do not collide;
expiry after `hashCacheItemTTL` and eviction are not modelled. -/
structure Cache where
  storedItems : List (GoString × Int)
  setBuf : List Item
  deriving DecidableEq

/-- The lookup `s.hashes.Get(key)`: it reads the stored items only. -/
def Cache.get (c : Cache) (key : GoString) : Option Int :=
  (c.storedItems.find? fun e => e.1 = key).map Prod.snd

/-- The call `s.hashes.SetWithTTL(key, value, 1, hashCacheItemTTL)`: a key that is
stored gets the value at once (`storedItems.Update`) and the item is buffered as
`itemUpdate`; any other key is only buffered, as `itemNew`. -/
def Cache.SetWithTTL (c : Cache) (key : GoString) (value : Int) : Cache :=
  if c.get key ≠ none then
    { storedItems := c.storedItems.map fun e => if e.1 = key then (key, value) else e,
      setBuf := c.setBuf ++ [{ isUpdate := true, Key := key, Value := value }] }
  else { c with setBuf := c.setBuf ++ [{ isUpdate := false, Key := key, Value := value }] }

/-- One buffered item applied by `processItems` to the stored items: an `itemNew`
is added unless its key is there already (`policy.Add` refuses a key it has, and the
item is dropped); an `itemUpdate` changes nothing that `Get` reads. -/
def Cache.applyItem (stored : List (GoString × Int)) (i : Item) : List (GoString × Int) :=
  if i.isUpdate then stored
  else if (stored.find? fun e => e.1 = i.Key).isSome then stored
  else stored ++ [(i.Key, i.Value)]

/-- The goroutine `processItems` applying the first `n` buffered items. -/
def Cache.processItems (c : Cache) (n : Nat) : Cache :=
  { storedItems := (c.setBuf.take n).foldl Cache.applyItem c.storedItems,
    setBuf := c.setBuf.drop n }

/-- The call `Wait()`: every buffered item has been applied. -/
def Cache.Wait (c : Cache) : Cache := c.processItems c.setBuf.length

/-- `type DefaultPasswordValidator struct`. The field `Client` is kept as the log of
the requests sent through it so far (the URLs handed to `Client.Do`, oldest
first); what the endpoint answers comes from `Env.httpDo`. -/
structure DefaultPasswordValidator where
  Client : List GoString
  hashes : Cache
  minIdentifierPasswordDist : Int
  maxIdentifierPasswordSubstrThreshold : Float32
  deriving DecidableEq

/-- `func NewDefaultPasswordValidatorStrategy`: a client that has sent nothing, an
empty cache and the thresholds 5 and 0.5. -/
def NewDefaultPasswordValidatorStrategy : DefaultPasswordValidator :=
  { Client := [], hashes := { storedItems := [], setBuf := [] },
    minIdentifierPasswordDist := 5,
    maxIdentifierPasswordSubstrThreshold := Float32.half }

/-- One upper-case hexadecimal digit. -/
def hexDigit (n : Nat) : Byte := if n < 10 then byte (0x30 + n) else byte (0x41 + (n - 10))

/-- `func b20(src []byte) string`: `fmt.Sprintf("%X", src)`. -/
def b20 (src : List Byte) : GoString :=
  src.flatMap fun b => [hexDigit (b.val / 16), hexDigit (b.val % 16)]

/-- The table `lengths` and the running maximum of `lcsLength`. -/
structure LcsState where
  lengths : List Nat
  greatestLength : Nat

/-- The body of the inner loop of `lcsLength` for the rune `x` at byte offset `i`
of `a` and the rune `y` at byte offset `j` of `b`. -/
def lcsCell (lenB i x : Nat) (st : LcsState) (jy : Nat × Nat) : LcsState :=
  if x = jy.2 then
    let curr :=
      if i ≠ 0 ∧ jy.1 ≠ 0 then st.lengths.getD ((i - 1) * lenB + jy.1 - 1) 0 + 1 else 1
    { lengths := st.lengths.set (i * lenB + jy.1) curr,
      greatestLength := if curr > st.greatestLength then curr else st.greatestLength }
  else st

/-- The body of the outer loop of `lcsLength`: `for j, y := range b`. -/
def lcsRow (b : GoString) (st : LcsState) (ix : Nat × Nat) : LcsState :=
  (rangeString b).foldl (lcsCell b.length ix.1 ix.2) st

/-- `func lcsLength(a, b string) int`. -/
def lcsLength (a b : GoString) : Nat :=
  ((rangeString a).foldl (lcsRow b)
    { lengths := List.replicate (a.length * b.length) 0, greatestLength := 0 }).greatestLength

/-- The errors `fetch` can return. -/
inductive FetchError
  /-- The request could not be built. -/
  | request
  /-- An error wrapping `ErrNetworkFailure`. -/
  | networkFailure
  /-- An error wrapping `ErrUnexpectedStatusCode`, with the status. -/
  | unexpectedStatusCode (status : Nat)
  /-- The internal server error "Expected password hash to contain a count formatted
  as int", with the offending field. -/
  | badCount (field : GoString)
  /-- The internal server error "Unable to initialize string scanner". -/
  | scanner
  deriving DecidableEq

/-- `errors.Is(err, ErrNetworkFailure)`. -/
def FetchError.isNetworkFailure : FetchError → Bool
  | .networkFailure => true
  | _ => false

/-- `errors.Is(err, ErrUnexpectedStatusCode)`. -/
def FetchError.isUnexpectedStatusCode : FetchError → Bool
  | .unexpectedStatusCode _ => true
  | _ => false

/-- The errors `validate` can return. -/
inductive ValidateError
  /-- `text.NewErrorValidationPasswordMinLength(min, actual)`. -/
  | PasswordMinLength (min actual : Int)
  /-- `text.NewErrorValidationPasswordIdentifierTooSimilar()`. -/
  | PasswordIdentifierTooSimilar
  /-- `text.NewErrorValidationPasswordTooManyBreaches(c)`. -/
  | PasswordTooManyBreaches (c : Int)
  /-- An error handed on from `fetch`. -/
  | fetch (e : FetchError)
  deriving DecidableEq

/-- `bufio.MaxScanTokenSize`. -/
def MaxScanTokenSize : Nat := 64 * 1024

/-- Drop one trailing carriage return (`dropCR` of `bufio`). -/
def dropCR (l : List Byte) : List Byte :=
  if l.getLast? = some (byte 0x0D) then l.dropLast else l

/-- The tokens of `bufio.Scanner` with the default `ScanLines` split over `data`,
and whether scanning stopped with `ErrTooLong`. -/
def scanLines : Nat → List Byte → List (List Byte) × Bool
  | 0, _ => ([], false)
  | fuel + 1, data =>
    match data with
    | [] => ([], false)
    | _ :: _ =>
      let line := data.takeWhile fun c => c ≠ byte 0x0A
      if MaxScanTokenSize ≤ line.length then ([], true)
      else
        let r := scanLines fuel (data.drop (line.length + 1))
        (dropCR line :: r.1, r.2)

/-- `unicode.IsSpace`: the code points with the White_Space property. -/
def isSpace (r : Nat) : Bool :=
  r = 0x20 ∨ (0x09 ≤ r ∧ r ≤ 0x0D) ∨ r = 0x85 ∨ r = 0xA0 ∨ r = 0x1680 ∨
    (0x2000 ≤ r ∧ r ≤ 0x200A) ∨ r = 0x2028 ∨ r = 0x2029 ∨ r = 0x202F ∨ r = 0x205F ∨
    r = 0x3000

/-- `utf8.DecodeLastRuneInString`: the last rune of `s` and its width; `(RuneError, 1)`
when the bytes at the end are not a well-formed encoding. -/
def decodeLastRune (s : List Byte) : Nat × Nat :=
  match s.getLast? with
  | none => (RuneError, 0)
  | some b =>
    if b.val < 0x80 then (b.val, 1)
    else
      let e := s.length
      -- `utf8.RuneStart` of the byte `k` places before the end
      let isStart (k : Nat) : Bool := decide (k ≤ e) && decide ((s.getD (e - k) 0).val / 64 ≠ 2)
      let start :=
        if isStart 2 then e - 2 else if isStart 3 then e - 3 else if isStart 4 then e - 4
        else e - 5
      let d := decodeRune (s.drop start)
      if start + d.2 ≠ e then (RuneError, 1) else d

/-- `strings.TrimLeftFunc(s, unicode.IsSpace)`; `fuel` bounds the runes dropped. -/
def trimLeftSpace : Nat → GoString → GoString
  | 0, s => s
  | fuel + 1, s =>
    match s with
    | [] => []
    | _ :: _ =>
      let d := decodeRune s
      if isSpace d.1 then trimLeftSpace fuel (s.drop d.2) else s

/-- `strings.TrimRightFunc(s, unicode.IsSpace)`; `fuel` bounds the runes dropped. -/
def trimRightSpace : Nat → GoString → GoString
  | 0, s => s
  | fuel + 1, s =>
    match s with
    | [] => []
    | _ :: _ =>
      let d := decodeLastRune s
      if isSpace d.1 then trimRightSpace fuel (s.take (s.length - d.2)) else s

/-- `strings.TrimSpace`: leading and trailing white space removed (the ASCII fast
path of the library gives the same result). -/
def trimSpace (s : GoString) : GoString :=
  let l := trimLeftSpace s.length s
  trimRightSpace l.length l

/-- `strings.Split(s, ":")`: always at least one field. -/
def splitColon : GoString → List GoString
  | [] => [[]]
  | c :: rest =>
    if c = byte 0x3A then [] :: splitColon rest
    else
      match splitColon rest with
      | [] => [[c]]
      | f :: fs => (c :: f) :: fs

/-- `strings.ReplaceAll(s, ",", "")`. -/
def removeCommas (s : GoString) : GoString := s.filter fun c => c ≠ byte 0x2C

/-- `strconv.ParseInt(s, 10, 64)`: an optional sign, then one or more decimal
digits, the value within the range of `int64`; `none` for an error. -/
def parseInt (s : GoString) : Option Int :=
  let neg := s.head? = some (byte 0x2D)
  let digits := if s.head? = some (byte 0x2D) ∨ s.head? = some (byte 0x2B) then s.tail else s
  if digits = [] ∨ ¬ digits.all (fun c => 0x30 ≤ c.val ∧ c.val ≤ 0x39) then none
  else
    let n : Nat := digits.foldl (fun acc c => acc * 10 + (c.val - 0x30)) 0
    if neg then (if n ≤ 2 ^ 63 then some (-(n : Int)) else none)
    else if n < 2 ^ 63 then some (n : Int) else none

/-- The state of the row loop of `fetch`: the cache and `thisCount`. -/
structure FetchState where
  hashes : Cache
  thisCount : Int

/-- The loop `for sc.Scan() { ... }` of `fetch` over the scanned rows; `applied`
tells how many buffered sets the cache applies before each call of `SetWithTTL`. -/
def fetchRows (prefix5 full : GoString) :
    List (List Byte) → List Nat → FetchState → Except FetchError FetchState × Cache
  | [], _, st => (.ok st, st.hashes)
  | row :: rows, applied, st =>
    let result := splitColon (trimSpace row)
    let count : Except FetchError Int :=
      if result.length = 2 then
        match parseInt (removeCommas (result.getD 1 [])) with
        | some c => .ok c
        | none => .error (.badCount (result.getD 1 []))
      else .ok 1
    match count with
    | .error e => (.error e, st.hashes)
    | .ok c =>
      let key := prefix5 ++ result.headD []
      fetchRows prefix5 full rows applied.tail
        { hashes := (st.hashes.processItems (applied.headD 0)).SetWithTTL key c,
          thisCount := if key = full then c else st.thisCount }

/-- The URL of the range request of `fetch`: `https://<host>/range/<prefix>`, the
prefix being the first five characters of the upper-case hexadecimal hash. -/
def rangeURL (hpw : List Byte) (apiDNSName : GoString) : GoString :=
  ofString "https://" ++ apiDNSName ++ ofString "/range/" ++ (b20 hpw).take 5

/-- `func (s *DefaultPasswordValidator) fetch(ctx, hpw, apiDNSName)`: the count (or
the error) and the validator afterwards (its cache, and its client with the request
logged once `Client.Do` has been called). -/
def fetch (env : Env) (s : DefaultPasswordValidator) (hpw : List Byte)
    (apiDNSName : GoString) : Except FetchError Int × DefaultPasswordValidator :=
  let prefix5 := (b20 hpw).take 5
  let loc := rangeURL hpw apiDNSName
  match env.httpDo loc with
  | .requestError => (.error .request, s)
  | .transportError => (.error .networkFailure, { s with Client := s.Client ++ [loc] })
  | .response status body readError =>
    if status ≠ 200 then
      (.error (.unexpectedStatusCode status), { s with Client := s.Client ++ [loc] })
    else
      let sc := scanLines body.length body
      match fetchRows prefix5 (b20 hpw) sc.1 env.applied
          { hashes := s.hashes, thisCount := 0 } with
      | (.error e, c) => (.error e, { s with Client := s.Client ++ [loc], hashes := c })
      | (.ok st, _) =>
        if sc.2 ∨ readError then
          (.error .scanner, { s with Client := s.Client ++ [loc], hashes := st.hashes })
        else
          (.ok st.thisCount,
            { s with Client := s.Client ++ [loc],
                     hashes := (st.hashes.processItems (env.applied.getD sc.1.length 0)).SetWithTTL
                       (b20 hpw) st.thisCount })

/-- The similarity condition of `validate`: `dist < s.minIdentifierPasswordDist ||
lcs > s.maxIdentifierPasswordSubstrThreshold`, computed on the lower-cased
identifier and password. -/
def tooSimilar (env : Env) (s : DefaultPasswordValidator) (identifier password : GoString) :
    Bool :=
  let compIdentifier := env.toLower identifier
  let compPassword := env.toLower password
  let dist := levenshtein.Distance compIdentifier compPassword
  let lcs := (Float32.ofNat (lcsLength compIdentifier compPassword)).div
    (Float32.ofNat compPassword.length)
  decide ((dist : Int) < s.minIdentifierPasswordDist) ||
    lcs.gt s.maxIdentifierPasswordSubstrThreshold

/-- The last part of `validate`, from `if !passwordPolicyConfig.HaveIBeenPwnedEnabled`
to the end: the breach check. -/
def validateBreaches (env : Env) (cfg : PasswordPolicy) (s : DefaultPasswordValidator)
    (password : GoString) : Option ValidateError × DefaultPasswordValidator :=
  if ¬ cfg.HaveIBeenPwnedEnabled then (none, s)
  else
    let hpw := sha1.Sum password
    match s.hashes.get (b20 hpw) with
    | some c =>
      if c > toInt64 cfg.MaxBreaches then (some (.PasswordTooManyBreaches c), s) else (none, s)
    | none =>
      match fetch env s hpw cfg.HaveIBeenPwnedHost with
      | (.error e, s1) =>
        if (e.isNetworkFailure ∨ e.isUnexpectedStatusCode) ∧ cfg.IgnoreNetworkErrors then
          (none, s1)
        else (some (.fetch e), s1)
      | (.ok c, s1) =>
        if c > toInt64 cfg.MaxBreaches then (some (.PasswordTooManyBreaches c), s1)
        else (none, s1)

/-- `func (s *DefaultPasswordValidator) validate(ctx, identifier, password) error`:
the error (`none` for `nil`) and the validator afterwards. The policy `cfg` is
what `s.reg.Config().PasswordPolicyConfig(ctx)` returns during the call. -/
def validate (env : Env) (cfg : PasswordPolicy) (s : DefaultPasswordValidator)
    (identifier password : GoString) : Option ValidateError × DefaultPasswordValidator :=
  if (password.length : Int) < toInt64 cfg.MinPasswordLength then
    (some (.PasswordMinLength (toInt64 cfg.MinPasswordLength) password.length), s)
  else if cfg.IdentifierSimilarityCheckEnabled ∧ identifier.length > 0 ∧
      tooSimilar env s identifier password then
    (some .PasswordIdentifierTooSimilar, s)
  else validateBreaches env cfg s password

/-- `func (s *DefaultPasswordValidator) Validate`: `validate` inside a tracing span. -/
def Validate (env : Env) (cfg : PasswordPolicy) (s : DefaultPasswordValidator)
    (identifier password : GoString) : Option ValidateError × DefaultPasswordValidator :=
  validate env cfg s identifier password

/-- The length of the longest list occurring as a contiguous part of both `a` and
`b`, as the specification words the result of `lcsLength`: the greatest length among
the contiguous parts of `a` that are contiguous parts of `b` (0 when there is none
but the empty one). -/
def longestCommonInfix {α : Type} [DecidableEq α] (a b : List α) : Nat :=
  (((a.tails.flatMap List.inits).filter fun x => decide (x <:+: b)).map List.length).foldl max 0

/-- Lower-casing of strings made of ASCII bytes and KELVIN SIGN (U+212A, bytes
`E2 84 AA`), whose lower case is the one-byte letter `k`; on such strings it agrees
with `strings.ToLower`. -/
def toLowerKelvin (s : GoString) : GoString := go 0 s
where
  /-- Walk the bytes; `skip` counts the bytes of a KELVIN SIGN still to pass over. -/
  go : Nat → GoString → GoString
  | _, [] => []
  | skip + 1, _ :: rest => go skip rest
  | 0, b :: rest =>
    if b.val = 0xE2 ∧ rest.take 2 = [byte 0x84, byte 0xAA] then byte 0x6B :: go 2 rest
    else (if 0x41 ≤ b.val ∧ b.val ≤ 0x5A then byte (b.val + 32) else b) :: go 0 rest

/-- The environment used for concrete evaluations: ASCII lower-casing and an
endpoint that cannot be reached. -/
def asciiEnv : Env :=
  { toLower := asciiToLower, httpDo := fun _ => .transportError, applied := [] }

/-- The same with `toLowerKelvin` for lower-casing. -/
def kelvinEnv : Env :=
  { toLower := toLowerKelvin, httpDo := fun _ => .transportError, applied := [] }

/-- A policy with the given minimum length, the similarity check enabled or not, and
the breach check disabled. -/
def localPolicy (minLen : Nat) (similarity : Bool) : PasswordPolicy :=
  { HaveIBeenPwnedHost := [], HaveIBeenPwnedEnabled := false, MaxBreaches := 0,
    IgnoreNetworkErrors := false, MinPasswordLength := minLen,
    IdentifierSimilarityCheckEnabled := similarity }

end Kratos.password

/-! ## Notions used to state the serialisation properties -/

namespace Kratos

/-- A Unicode scalar value: a code point that is not a surrogate. -/
def Scalar (v : Nat) : Prop := v < 0xD800 ∨ (0xDFFF < v ∧ v < 0x110000)

end Kratos

namespace Kratos.json

open Kratos

/-- What `appendString` writes for one scalar value `v` of a valid UTF-8 string. -/
def chunk (v : Nat) : List Byte :=
  if v < 0x80 then (if htmlSafe (byte v) then [byte v] else escapeByte (byte v))
  else if v = 0x2028 ∨ v = 0x2029 then
    [byte 0x5C, byte 0x75, byte 0x32, byte 0x30, byte 0x32, hex (v % 16)]
  else encodeRune v

/-- What `appendString` writes between the quotes for a sequence of scalar values. -/
def chunks : List Char → List Byte
  | [] => []
  | c :: cs => chunk c.val.toNat ++ chunks cs

end Kratos.json

namespace Kratos.flow

open Kratos

/-- Encode a state with `MarshalJSON` and decode the bytes with `UnmarshalJSON` into
a receiver that holds `cur`. -/
def State.jsonRoundTrip (s cur : State) : Except json.DecodeError State :=
  match State.MarshalJSON s with
  | .ok data => State.UnmarshalJSON (some cur) data
  | .error e => .error e

end Kratos.flow


/-! ## Notions used to state the properties of `fetch` -/

namespace Kratos.password

open Kratos

/-- One response row as the specification reads it: the pair (suffix, count), the
count being 1 when the row does not have two fields; `none` when the count field of
a two-field row is not an integer. -/
def rowEntry (row : List Byte) : Option (GoString × Int) :=
  let result := splitColon (trimSpace row)
  if result.length = 2 then
    (parseInt (removeCommas (result.getD 1 []))).map fun c => (result.headD [], c)
  else some (result.headD [], 1)

/-- The count of the last of the pairs (suffix, count) whose key `prefix5 ++ suffix`
is `key`, if there is one. -/
def lastCount (prefix5 key : GoString) : List (GoString × Int) → Option Int
  | [] => none
  | e :: es =>
    match lastCount prefix5 key es with
    | some c => some c
    | none => if prefix5 ++ e.1 = key then some e.2 else none

/-- The cache after `SetWithTTL(prefix5 ++ suffix, count, ...)` for every pair in
turn, the goroutine of the cache applying before each call as many buffered sets as
`applied` tells. -/
def storeAll (prefix5 : GoString) : List Nat → Cache → List (GoString × Int) → Cache
  | _, hashes, [] => hashes
  | applied, hashes, e :: es =>
    storeAll prefix5 applied.tail
      ((hashes.processItems (applied.headD 0)).SetWithTTL (prefix5 ++ e.1) e.2) es

/-- The value of the first `itemNew` buffered for `key`, if there is one. -/
def firstNew (buf : List Item) (key : GoString) : Option Int :=
  (buf.find? fun i => i.isUpdate = false ∧ i.Key = key).map Item.Value

/-- A policy with the breach check enabled, the similarity check disabled, minimum
length 8 and the given maximum of breaches. -/
def breachPolicy (maxBreaches : Nat) (ignoreNetworkErrors : Bool) : PasswordPolicy :=
  { HaveIBeenPwnedHost := ofString "api.pwnedpasswords.com", HaveIBeenPwnedEnabled := true,
    MaxBreaches := maxBreaches, IgnoreNetworkErrors := ignoreNetworkErrors,
    MinPasswordLength := 8, IdentifierSimilarityCheckEnabled := false }

/-- A validator whose cache holds `count` for the hash of `password` and nothing
else. -/
def cachedValidator (password : GoString) (count : Int) : DefaultPasswordValidator :=
  { NewDefaultPasswordValidatorStrategy with
    hashes := { storedItems := [(b20 (sha1.Sum password), count)], setBuf := [] } }

/-- An environment whose endpoint answers every request with the given status and
body, while the cache applies buffered sets as `applied` tells. -/
def scheduledEnv (status : Nat) (body : List Byte) (applied : List Nat) : Env :=
  { toLower := asciiToLower, httpDo := fun _ => .response status body false,
    applied := applied }

/-- An environment whose endpoint answers every request with the given status and
body, while the cache applies no buffered set. -/
def respondingEnv (status : Nat) (body : List Byte) : Env := scheduledEnv status body []

end Kratos.password


/-! ## `selfservice/flow/settings`: the types the settings strategies work on -/

namespace Kratos.settings

open Kratos

/-- `flow.Type`: the channel of a flow, `flow.TypeBrowser` or `flow.TypeAPI`. -/
inductive FlowType
  | TypeBrowser
  | TypeAPI
  deriving DecidableEq

/-- An edit of the node list of a UI container. -/
inductive NodeOp
  /-- `Nodes.ResetNodesWithPrefix(prefix)`. -/
  | ResetNodesWithPrefix (pre : GoString)
  /-- `UpdateNodeValuesFromJSON(raw, prefix, group)`. -/
  | UpdateNodeValuesFromJSON (raw : List Byte) (pre : GoString)
  deriving DecidableEq

/-- Modelled from the spec: the UI representation of a flow (`container.Container`,
declared outside the files at hand), "ordered node list plus messages, opaque to
this core": its messages, the anti-CSRF token it carries, and the edits applied to
its node list, in order. -/
structure Container where
  Messages : List GoString
  CSRF : GoString
  NodeOps : List NodeOp
  deriving DecidableEq

/-- Modelled from the spec: `UI.ResetMessages()`, "reset the flow's transient UI
messages". -/
def Container.ResetMessages (c : Container) : Container := { c with Messages := [] }

/-- Modelled from the spec: `UI.SetCSRF(token)`, which binds the given token to the
flow. -/
def Container.SetCSRF (c : Container) (token : GoString) : Container := { c with CSRF := token }

/-- `settings.Flow`: identifier, channel (the field `Type`) and UI. -/
structure Flow where
  ID : Nat
  Type_ : FlowType
  UI : Container
  deriving DecidableEq

/-- One credential of an identity: its type (the field `Type`), configuration and
version. -/
structure Credentials where
  Type_ : GoString
  Config : List Byte
  Version : Int
  deriving DecidableEq

/-- `identity.Identity`: identifier, traits and credentials. -/
structure Identity where
  ID : Nat
  Traits : List Byte
  Credentials : List Credentials
  deriving DecidableEq

/-- Modelled from the spec: `Identity.UpsertCredentialsConfig(t, conf, version)`, the
"upsert-credentials-config operation keyed by strategy id and a priority integer":
the credential of type `t` gets the given configuration and version, and is created
when the identity has none of that type. -/
def Identity.UpsertCredentialsConfig (i : Identity) (t : GoString) (conf : List Byte)
    (version : Int) : Identity :=
  if i.Credentials.any (fun c => c.Type_ = t) then
    { i with Credentials := i.Credentials.map fun c =>
        if c.Type_ = t then { c with Config := conf, Version := version } else c }
  else { i with Credentials := i.Credentials ++ [{ Type_ := t, Config := conf, Version := version }] }

/-- `session.Session`: the instant of authentication (in nanoseconds) and the
identity. -/
structure Session where
  AuthenticatedAt : Int
  Identity : Identity
  deriving DecidableEq

/-- `settings.UpdateContext`: the session, the flow (`none` for a nil pointer) and
the identity a strategy has asked to commit. -/
structure UpdateContext where
  Session : Session
  Flow : Option Flow
  toUpdate : Option Identity
  deriving DecidableEq

/-- Modelled from the spec: `UpdateContext.UpdateIdentity(i)`, the "helper to replace
the session's identity". -/
def UpdateContext.UpdateIdentity (c : UpdateContext) (i : Identity) : UpdateContext :=
  { c with toUpdate := some i }

/-- Modelled from the spec: `UpdateContext.GetSessionIdentity()`, the identity to
commit when there is one, the identity of the session otherwise. -/
def UpdateContext.GetSessionIdentity (c : UpdateContext) : Identity :=
  c.toUpdate.getD c.Session.Identity

/-- The error values met by the settings strategies. -/
inductive Error
  /-- A `*settings.FlowNeedsReAuth` (`settings.NewFlowNeedsReAuth()`), wrapped or not. -/
  | FlowNeedsReAuth
  /-- The sentinel `settings.ErrContinuePreviousAction`. -/
  | ErrContinuePreviousAction
  /-- The error `schema.NewRequiredError("#/password", "password")`. -/
  | RequiredPassword
  /-- Any other error value; `id` tells such errors apart. -/
  | other (id : Nat)
  deriving DecidableEq

/-- The test `errors.As(err, &e)` for `e` a `*settings.FlowNeedsReAuth`. -/
def Error.isFlowNeedsReAuth : Error → Bool
  | .FlowNeedsReAuth => true
  | _ => false

/-- The test `errors.Is(err, settings.ErrContinuePreviousAction)`. -/
def Error.isContinuePreviousAction : Error → Bool
  | .ErrContinuePreviousAction => true
  | _ => false

/-- The calls to collaborators that a strategy makes, as they are logged. -/
inductive Event
  /-- The task calling `Hasher.Generate` on the password was started. -/
  | HasherGenerate (password : GoString)
  /-- The call `PrivilegedIdentityPool().GetIdentityConfidential(id)`. -/
  | GetIdentityConfidential (id : Nat)
  /-- The call `validateCredentials(i, password)`. -/
  | validateCredentials (password : GoString)
  /-- The call `ctxUpdate.UpdateIdentity(i)`. -/
  | UpdateIdentity
  /-- The call `ContinuityManager().Pause` under the continuity key of the strategy. -/
  | Pause (strategy : GoString)
  deriving DecidableEq

/-- What a strategy function leaves behind: the update context, the error returned
(`none` for `nil`) and the calls made, in order. -/
structure Outcome where
  ctx : UpdateContext
  err : Option Error
  events : List Event
  deriving DecidableEq

end Kratos.settings

/-! ## `selfservice/strategy/password/settings.go` -/

namespace Kratos.password

open Kratos Kratos.settings

/-- `type updateSettingsFlowWithPasswordMethod struct`. -/
structure updateSettingsFlowWithPasswordMethod where
  Password : GoString
  CSRFToken : GoString
  Method : GoString
  Flow : Nat
  TransientPayload : List Byte
  deriving DecidableEq

/-- The collaborators of the password settings strategy (`s.d` and the packages
`flow`, `settings` and `decoderx`), each by what it answers during one request. -/
structure SettingsDeps where
  /-- `settings.PrepareUpdate`: the update context, the error and the payload. -/
  PrepareUpdate : Option Flow → Session →
    UpdateContext × Option Error × updateSettingsFlowWithPasswordMethod
  /-- `flow.MethodEnabledAndAllowedFromRequest`. -/
  MethodEnabledAndAllowedFromRequest : Option Error
  /-- `s.decodeSettingsFlow(r, &p)`: the payload afterwards and the error. -/
  decodeSettingsFlow : updateSettingsFlowWithPasswordMethod →
    updateSettingsFlowWithPasswordMethod × Option Error
  /-- `flow.MethodEnabledAndAllowed` for the submitted method. -/
  MethodEnabledAndAllowed : GoString → Option Error
  /-- `flow.EnsureCSRF` for the channel of the flow and the submitted token. -/
  EnsureCSRF : FlowType → GoString → Option Error
  /-- `Config().SelfServiceFlowSettingsPrivilegedSessionMaxAge(ctx)`, in nanoseconds. -/
  PrivilegedSessionMaxAge : Int
  /-- `time.Now()`, in nanoseconds. -/
  Now : Int
  /-- `Hasher(ctx).Generate(ctx, password)`. -/
  HasherGenerate : GoString → Except Error (List Byte)
  /-- `PrivilegedIdentityPool().GetIdentityConfidential(ctx, id)`. -/
  GetIdentityConfidential : Nat → Except Error Identity
  /-- `s.validateCredentials(ctx, i, password)`. -/
  validateCredentials : Identity → GoString → Option Error
  /-- `GenerateCSRFToken(r)`. -/
  GenerateCSRFToken : GoString
  /-- `ContinuityManager().Pause(...)` for the payload and the identity. -/
  Pause : updateSettingsFlowWithPasswordMethod → Identity → Option Error

/-- `s.SettingsStrategyID()` and `s.ID()`: `identity.CredentialsTypePassword`. -/
def SettingsStrategyID : GoString := ofString "password"

/-- `json.Marshal(&identity.CredentialsPassword{HashedPassword: string(h)})`: the
object with the one member `hashed_password` (the other field of the type is
omitted when unset). It cannot fail. -/
def marshalCredentialsPassword (h : List Byte) : List Byte :=
  ofString "\x7b\"hashed_password\":" ++ json.marshalString h ++ ofString "\x7d"

/-- `func (s *Strategy) continueSettingsFlow(ctx, r, ctxUpdate, p) error`; `none`
stands for the nil-pointer panic of `ctxUpdate.Flow.Type` on an absent flow.
Instants and durations are integers of nanoseconds. The hashing task started by the
`go` statement is logged where it is started and its result is read at the
`select`. -/
def continueSettingsFlow (d : SettingsDeps) (ctxUpdate : UpdateContext)
    (p : updateSettingsFlowWithPasswordMethod) : Option Outcome :=
  match d.MethodEnabledAndAllowed p.Method with
  | some err => some { ctx := ctxUpdate, err := some err, events := [] }
  | none =>
    match ctxUpdate.Flow with
    | none => none
    | some f =>
      match d.EnsureCSRF f.Type_ p.CSRFToken with
      | some err => some { ctx := ctxUpdate, err := some err, events := [] }
      | none =>
        if ctxUpdate.Session.AuthenticatedAt + d.PrivilegedSessionMaxAge < d.Now then
          some { ctx := ctxUpdate, err := some .FlowNeedsReAuth, events := [] }
        else if p.Password.length = 0 then
          some { ctx := ctxUpdate, err := some .RequiredPassword, events := [] }
        else
          let started := [Event.HasherGenerate p.Password,
            Event.GetIdentityConfidential ctxUpdate.Session.Identity.ID]
          match d.GetIdentityConfidential ctxUpdate.Session.Identity.ID with
          | .error err => some { ctx := ctxUpdate, err := some err, events := started }
          | .ok i =>
            let i1 := i.UpsertCredentialsConfig SettingsStrategyID (ofString "{}") 0
            let validated := started ++ [Event.validateCredentials p.Password]
            match d.validateCredentials i1 p.Password with
            | some err => some { ctx := ctxUpdate, err := some err, events := validated }
            | none =>
              match d.HasherGenerate p.Password with
              | .error err => some { ctx := ctxUpdate, err := some err, events := validated }
              | .ok h =>
                let i2 := i1.UpsertCredentialsConfig SettingsStrategyID
                  (marshalCredentialsPassword h) 0
                some { ctx := ctxUpdate.UpdateIdentity i2, err := none,
                       events := validated ++ [Event.UpdateIdentity] }

/-- `func (s *Strategy) handleSettingsError(ctx, w, r, ctxUpdate, p, err) error`. -/
def handleSettingsError (d : SettingsDeps) (ctxUpdate : UpdateContext)
    (p : updateSettingsFlowWithPasswordMethod) (err : Error) : Outcome :=
  let recovered (events : List Event) : Outcome :=
    { ctx := { ctxUpdate with
        Flow := ctxUpdate.Flow.map fun f =>
          { f with UI := (f.UI.ResetMessages).SetCSRF d.GenerateCSRFToken } },
      err := some err, events := events }
  if err.isFlowNeedsReAuth ∧ (ctxUpdate.Flow.map fun f => f.Type_) = some .TypeBrowser then
    match d.Pause p ctxUpdate.GetSessionIdentity with
    | some perr =>
      { ctx := ctxUpdate, err := some perr, events := [Event.Pause SettingsStrategyID] }
    | none => recovered [Event.Pause SettingsStrategyID]
  else recovered []

/-- `func (s *Strategy) Settings(ctx, w, r, f, ss) (*settings.UpdateContext, error)`;
`none` stands for a nil-pointer panic on an absent flow. -/
def Settings (d : SettingsDeps) (f : Option Flow) (ss : Session) : Option Outcome :=
  match d.PrepareUpdate f ss with
  | (ctxUpdate, some err, p) =>
    if err.isContinuePreviousAction then continueSettingsFlow d ctxUpdate p
    else some (handleSettingsError d ctxUpdate p err)
  | (ctxUpdate, none, p) =>
    match d.MethodEnabledAndAllowedFromRequest with
    | some err => some (handleSettingsError d ctxUpdate p err)
    | none =>
      match d.decodeSettingsFlow p with
      | (p1, some err) => some (handleSettingsError d ctxUpdate p1 err)
      | (p1, none) =>
        match ctxUpdate.Flow with
        | none => none
        | some fl =>
          let p2 := { p1 with Flow := fl.ID }
          match continueSettingsFlow d ctxUpdate p2 with
          | none => none
          | some out =>
            match out.err with
            | some err =>
              let h := handleSettingsError d out.ctx p2 err
              some { h with events := out.events ++ h.events }
            | none => some out

end Kratos.password

/-! ## `selfservice/strategy/profile/strategy.go` -/

namespace Kratos.profile

open Kratos Kratos.settings

/-- `type updateSettingsFlowWithProfileMethod struct`; `Traits` is `none` for a nil
`json.RawMessage`. -/
structure updateSettingsFlowWithProfileMethod where
  Traits : Option (List Byte)
  Method : GoString
  FlowID : GoString
  CSRFToken : GoString
  TransientPayload : List Byte
  deriving DecidableEq

/-- The collaborators `handleSettingsError` of the profile strategy calls. -/
structure Deps where
  /-- `GenerateCSRFToken(r)`. -/
  GenerateCSRFToken : GoString
  /-- `ContinuityManager().Pause(...)` for the payload and the identity. -/
  Pause : updateSettingsFlowWithProfileMethod → Identity → Option Error

/-- `s.SettingsStrategyID()`: `settings.StrategyProfile`. -/
def SettingsStrategyID : GoString := ofString "profile"

/-- `func (s *Strategy) hydrateForm(r, ar, traits) error`; it always returns nil. -/
def hydrateForm (d : Deps) (ar : Flow) (traits : Option (List Byte)) : Flow :=
  let ui :=
    match traits with
    | some t =>
      { ar.UI with NodeOps := ar.UI.NodeOps ++
          [NodeOp.ResetNodesWithPrefix (ofString "traits."),
            NodeOp.UpdateNodeValuesFromJSON t (ofString "traits")] }
    | none => ar.UI
  { ar with UI := ui.SetCSRF d.GenerateCSRFToken }

/-- `func (s *Strategy) handleSettingsError(ctx, w, r, puc, traits, p, err) error`. -/
def handleSettingsError (d : Deps) (puc : UpdateContext) (traits : Option (List Byte))
    (p : updateSettingsFlowWithProfileMethod) (err : Error) : Outcome :=
  let hydrated (events : List Event) : Outcome :=
    { ctx := { puc with
        Flow := puc.Flow.map fun f =>
          hydrateForm d f (match traits with
            | some t => some t
            | none => p.Traits) },
      err := some err, events := events }
  if err.isFlowNeedsReAuth then
    match d.Pause p puc.GetSessionIdentity with
    | some perr => { ctx := puc, err := some perr, events := [Event.Pause SettingsStrategyID] }
    | none => hydrated [Event.Pause SettingsStrategyID]
  else hydrated []

end Kratos.profile

/-! ## Inputs used in the examples of the settings strategies -/

namespace Kratos.settings

open Kratos

/-- A flow of the given channel whose UI holds one message and the token `old`. -/
def pendingFlow (t : FlowType) : Flow :=
  { ID := 1, Type_ := t,
    UI := { Messages := [ofString "stale"], CSRF := ofString "old", NodeOps := [] } }

/-- A session authenticated at the given instant, of an identity without
credentials. -/
def sessionAt (t : Int) : Session :=
  { AuthenticatedAt := t, Identity := { ID := 7, Traits := [], Credentials := [] } }

end Kratos.settings

namespace Kratos.password

open Kratos Kratos.settings

/-- The payload of the examples: a non-empty password for the flow 1. -/
def examplePayload : updateSettingsFlowWithPasswordMethod :=
  { Password := ofString "correct horse", CSRFToken := [], Method := ofString "password",
    Flow := 1, TransientPayload := [] }

/-- Collaborators at the instant 10000 with a privileged session age of 3600: method
authorization, decoding and the CSRF check pass, the identity is found, pausing
succeeds and the fresh token is `fresh`; `PrepareUpdate`, the validation of the
credentials and the hasher answer as given. -/
def exampleDeps (prepared validation : Option Error) (hashing : Except Error (List Byte)) :
    SettingsDeps :=
  { PrepareUpdate := fun f ss =>
      ({ Session := ss, Flow := f, toUpdate := none }, prepared, examplePayload),
    MethodEnabledAndAllowedFromRequest := none,
    decodeSettingsFlow := fun p => (p, none),
    MethodEnabledAndAllowed := fun _ => none,
    EnsureCSRF := fun _ _ => none,
    PrivilegedSessionMaxAge := 3600,
    Now := 10000,
    HasherGenerate := fun _ => hashing,
    GetIdentityConfidential := fun id => .ok { ID := id, Traits := [], Credentials := [] },
    validateCredentials := fun _ _ => validation,
    GenerateCSRFToken := ofString "fresh",
    Pause := fun _ _ => none }

end Kratos.password

namespace Kratos.profile

open Kratos Kratos.settings

/-- Collaborators of the profile strategy: pausing succeeds and the fresh token is
`fresh`. -/
def exampleDeps : Deps :=
  { GenerateCSRFToken := ofString "fresh", Pause := fun _ _ => none }

/-- A payload of the profile strategy without traits. -/
def examplePayload : updateSettingsFlowWithProfileMethod :=
  { Traits := none, Method := ofString "profile", FlowID := [], CSRFToken := [],
    TransientPayload := [] }

end Kratos.profile


/-! ## `selfservice/strategy/profile/strategy.go`: `SortForHydration` -/

namespace Kratos.registration

open Kratos

/-- A `registration.Strategy` as far as `SortForHydration` looks at it: what `ID()`
returns; `impl` tells apart the strategies of a list. -/
structure Strategy where
  ID : GoString
  impl : Nat
  deriving DecidableEq

/-- `type Strategies []Strategy`. -/
abbrev Strategies := List Strategy

end Kratos.registration

namespace Kratos.profile

open Kratos Kratos.registration

/-- What `SortForHydration` leaves behind: the slice it returns, the array made for
`sorted`, and the elements of the slice it was given. -/
structure Hydration where
  sorted : Strategies
  array : Strategies
  strats : Strategies
  deriving DecidableEq

/-- The loop `for i, strat := range sorted` of `SortForHydration`, at position `i`
with the elements from `i` on still to visit: the slice returned and the array of
`sorted` afterwards. At the first strategy whose `ID()` is `CredentialsTypeProfile`
(`identity.CredentialsTypeProfile`, declared outside the files at hand),
`append(sorted[:i], sorted[i+1:]...)` moves the elements after `i` one place down
inside the array of `sorted`, whose last place keeps what it held, and the outer
`append` builds the returned slice in a new array. -/
def SortForHydration.loop (CredentialsTypeProfile : GoString) (sorted : Strategies) :
    Nat → Strategies → Strategies × Strategies
  | _, [] => (sorted, sorted)
  | i, strat :: rest =>
    if strat.ID = CredentialsTypeProfile then
      let shifted := sorted.take i ++ sorted.drop (i + 1)
      (strat :: shifted, shifted ++ sorted.drop (sorted.length - 1))
    else SortForHydration.loop CredentialsTypeProfile sorted (i + 1) rest

/-- `func SortForHydration(strats registration.Strategies) registration.Strategies`:
`sorted` is a copy of `strats` in an array of its own, and every write goes to that
array. -/
def SortForHydration (CredentialsTypeProfile : GoString) (strats : Strategies) : Hydration :=
  let sorted := strats
  let r := SortForHydration.loop CredentialsTypeProfile sorted 0 sorted
  { sorted := r.1, array := r.2, strats := strats }

end Kratos.profile

/-! ## Notions used to state the properties of the settings strategies -/

namespace Kratos.settings

open Kratos

/-- The credential of the given type of an identity, if it has one. -/
def Identity.GetCredentials (i : Identity) (t : GoString) : Option settings.Credentials :=
  i.Credentials.find? fun c => c.Type_ = t

end Kratos.settings

/-! ## The grammar of JSON (RFC 8259), read over bytes -/

namespace Kratos.json

open Kratos

/-- White space of the grammar: space, horizontal tab, line feed and carriage
return only. -/
def Ws (w : List Byte) : Prop :=
  ∀ c ∈ w, c.val = 0x20 ∨ c.val = 0x09 ∨ c.val = 0x0A ∨ c.val = 0x0D

/-- A decimal digit of the grammar. -/
abbrev IsDigit (c : Byte) : Prop := 0x30 ≤ c.val ∧ c.val ≤ 0x39

/-- A hexadecimal digit of the grammar, in either case. -/
abbrev IsHexDigit (c : Byte) : Prop :=
  (0x30 ≤ c.val ∧ c.val ≤ 0x39) ∨ (0x41 ≤ c.val ∧ c.val ≤ 0x46) ∨
    (0x61 ≤ c.val ∧ c.val ≤ 0x66)

/-- A run of decimal digits, possibly empty. -/
def Digits (w : List Byte) : Prop := ∀ c ∈ w, IsDigit c

/-- The characters between the quotes of a string: unescaped bytes (anything from
0x20 on except the quotation mark and the reverse solidus; the bytes from 0x80 on
stand for the characters outside ASCII and are not checked to be UTF-8), the
two-character escapes, and `\u` with four hexadecimal digits. -/
inductive Chars : List Byte → Prop
  | nil : Chars []
  | unescaped (c : Byte) (rest : List Byte) :
      0x20 ≤ c.val → c.val ≠ 0x22 → c.val ≠ 0x5C → Chars rest → Chars (c :: rest)
  | escape (e : Byte) (rest : List Byte) :
      (e.val = 0x22 ∨ e.val = 0x5C ∨ e.val = 0x2F ∨ e.val = 0x62 ∨ e.val = 0x66 ∨
        e.val = 0x6E ∨ e.val = 0x72 ∨ e.val = 0x74) →
      Chars rest → Chars (byte 0x5C :: e :: rest)
  | unicode (h1 h2 h3 h4 : Byte) (rest : List Byte) :
      IsHexDigit h1 → IsHexDigit h2 → IsHexDigit h3 → IsHexDigit h4 → Chars rest →
      Chars (byte 0x5C :: byte 0x75 :: h1 :: h2 :: h3 :: h4 :: rest)

/-- The integer part of a number: `0`, or a digit from 1 to 9 followed by digits. -/
def IntPart (w : List Byte) : Prop :=
  w = [byte 0x30] ∨ ∃ d ds, w = d :: ds ∧ 0x31 ≤ d.val ∧ d.val ≤ 0x39 ∧ Digits ds

/-- The optional fraction: nothing, or `.` followed by one or more digits. -/
def FracPart (w : List Byte) : Prop :=
  w = [] ∨ ∃ d ds, w = byte 0x2E :: d :: ds ∧ IsDigit d ∧ Digits ds

/-- The optional exponent: nothing, or `e` or `E`, an optional sign, and one or more
digits. -/
def ExpPart (w : List Byte) : Prop :=
  w = [] ∨ ∃ e sign d ds, w = e :: (sign ++ d :: ds) ∧ (e.val = 0x65 ∨ e.val = 0x45) ∧
    (sign = [] ∨ sign = [byte 0x2B] ∨ sign = [byte 0x2D]) ∧ IsDigit d ∧ Digits ds

/-- A number: an optional minus, the integer part, the optional fraction and the
optional exponent. -/
def Number (w : List Byte) : Prop :=
  ∃ minus i f e, w = minus ++ (i ++ (f ++ e)) ∧ (minus = [] ∨ minus = [byte 0x2D]) ∧
    IntPart i ∧ FracPart f ∧ ExpPart e

/-- The syntactic categories of the grammar that refer to one another. -/
inductive Cat
  | value | elements | members

/-- The grammar of values, of the elements of an array (values separated by commas,
each with white space around it) and of the members of an object (a string, a colon
and a value, separated by commas). -/
inductive Json : Cat → List Byte → Prop
  | string (cs : List Byte) : Chars cs → Json .value (byte 0x22 :: (cs ++ [byte 0x22]))
  | number (w : List Byte) : Number w → Json .value w
  | litTrue : Json .value [byte 0x74, byte 0x72, byte 0x75, byte 0x65]
  | litFalse : Json .value [byte 0x66, byte 0x61, byte 0x6C, byte 0x73, byte 0x65]
  | litNull : Json .value [byte 0x6E, byte 0x75, byte 0x6C, byte 0x6C]
  | emptyArray (ws : List Byte) : Ws ws → Json .value (byte 0x5B :: (ws ++ [byte 0x5D]))
  | array (es : List Byte) : Json .elements es → Json .value (byte 0x5B :: (es ++ [byte 0x5D]))
  | emptyObject (ws : List Byte) : Ws ws → Json .value (byte 0x7B :: (ws ++ [byte 0x7D]))
  | object (ms : List Byte) : Json .members ms → Json .value (byte 0x7B :: (ms ++ [byte 0x7D]))
  | element (ws1 v ws2 : List Byte) :
      Ws ws1 → Json .value v → Ws ws2 → Json .elements (ws1 ++ (v ++ ws2))
  | elements (ws1 v ws2 es : List Byte) :
      Ws ws1 → Json .value v → Ws ws2 → Json .elements es →
      Json .elements (ws1 ++ (v ++ (ws2 ++ byte 0x2C :: es)))
  | member (ws1 k ws2 ws3 v ws4 : List Byte) :
      Ws ws1 → Chars k → Ws ws2 → Ws ws3 → Json .value v → Ws ws4 →
      Json .members
        (ws1 ++ (byte 0x22 :: (k ++ (byte 0x22 :: (ws2 ++ (byte 0x3A :: (ws3 ++ (v ++ ws4))))))))
  | members (ws1 k ws2 ws3 v ws4 ms : List Byte) :
      Ws ws1 → Chars k → Ws ws2 → Ws ws3 → Json .value v → Ws ws4 → Json .members ms →
      Json .members
        (ws1 ++ (byte 0x22 :: (k ++ (byte 0x22 :: (ws2 ++ (byte 0x3A :: (ws3 ++ (v ++
          (ws4 ++ byte 0x2C :: ms)))))))))

/-- A well-formed JSON document: one value with white space around it. -/
def Document (w : List Byte) : Prop :=
  ∃ ws1 v ws2, w = ws1 ++ (v ++ ws2) ∧ Ws ws1 ∧ Json .value v ∧ Ws ws2

/-! ### What the scanner still expects in each of its states -/

/-- What may follow the elements read so far of an array, up to its closing
bracket: nothing, or a comma and further elements. -/
def ArrTail (more : List Byte) : Prop :=
  more = [] ∨ ∃ es, more = byte 0x2C :: es ∧ Json .elements es

/-- What may follow the members read so far of an object, up to its closing brace. -/
def ObjTail (more : List Byte) : Prop :=
  more = [] ∨ ∃ ms, more = byte 0x2C :: ms ∧ Json .members ms

/-- The rest of an object after one of its values, `K` being what may follow the
object. -/
def AfterObjectValue (K : List Byte → Prop) (w : List Byte) : Prop :=
  ∃ ws more tail, w = ws ++ (more ++ byte 0x7D :: tail) ∧ Ws ws ∧ ObjTail more ∧ K tail

/-- The input that may follow a value that has just ended, for a parse stack: the
rest of every enclosing array or object, then white space. -/
def After : List ParseState → List Byte → Prop
  | [], w => Ws w
  | .arrayValue :: stk, w =>
    ∃ ws more tail, w = ws ++ (more ++ byte 0x5D :: tail) ∧ Ws ws ∧ ArrTail more ∧
      After stk tail
  | .objectValue :: stk, w => AfterObjectValue (After stk) w
  | .objectKey :: stk, w =>
    ∃ ws2 ws3 v rest, w = ws2 ++ (byte 0x3A :: (ws3 ++ (v ++ rest))) ∧ Ws ws2 ∧ Ws ws3 ∧
      Json .value v ∧ AfterObjectValue (After stk) rest

/-- The input expected where a value begins. -/
def Begin (stk : List ParseState) (w : List Byte) : Prop :=
  ∃ ws v rest, w = ws ++ (v ++ rest) ∧ Ws ws ∧ Json .value v ∧ After stk rest

/-- The input expected where a string begins. -/
def BeginString (stk : List ParseState) (w : List Byte) : Prop :=
  ∃ ws cs rest, w = ws ++ (byte 0x22 :: (cs ++ byte 0x22 :: rest)) ∧ Ws ws ∧ Chars cs ∧
    After stk rest

/-- The input expected inside a string when `n` hexadecimal digits of a `\u` escape
are still due. -/
def HexThen (n : Nat) (stk : List ParseState) (w : List Byte) : Prop :=
  ∃ hs cs rest, w = hs ++ (cs ++ byte 0x22 :: rest) ∧ hs.length = n ∧
    (∀ h ∈ hs, IsHexDigit h) ∧ Chars cs ∧ After stk rest

/-- The ways to complete a number from each of the number states. -/
def NumTail : Step → List Byte → Prop
  | .neg, t => ∃ i f e, t = i ++ (f ++ e) ∧ IntPart i ∧ FracPart f ∧ ExpPart e
  | .zero, t => ∃ f e, t = f ++ e ∧ FracPart f ∧ ExpPart e
  | .one, t => ∃ ds f e, t = ds ++ (f ++ e) ∧ Digits ds ∧ FracPart f ∧ ExpPart e
  | .dot, t => ∃ d ds e, t = d :: (ds ++ e) ∧ IsDigit d ∧ Digits ds ∧ ExpPart e
  | .dot0, t => ∃ ds e, t = ds ++ e ∧ Digits ds ∧ ExpPart e
  | .e, t => ∃ sign d ds, t = sign ++ d :: ds ∧
      (sign = [] ∨ sign = [byte 0x2B] ∨ sign = [byte 0x2D]) ∧ IsDigit d ∧ Digits ds
  | .eSign, t => ∃ d ds, t = d :: ds ∧ IsDigit d ∧ Digits ds
  | .e0, t => Digits t
  | _, _ => False

/-- The input expected in a number state. -/
def InNumber (step : Step) (stk : List ParseState) (w : List Byte) : Prop :=
  ∃ t rest, w = t ++ rest ∧ NumTail step t ∧ After stk rest

/-- The input expected inside a literal name of which `remaining` is still due. -/
def InLiteral (remaining : List Byte) (stk : List ParseState) (w : List Byte) : Prop :=
  ∃ rest, w = remaining ++ rest ∧ After stk rest

/-- The input that completes a well-formed document from a state of the scanner. -/
def Expected : Step → List ParseState → List Byte → Prop
  | .beginValue, stk, w => Begin stk w
  | .beginValueOrEmpty, stk, w =>
    Begin stk w ∨ ∃ stk1 ws tail, stk = .arrayValue :: stk1 ∧ w = ws ++ byte 0x5D :: tail ∧
      Ws ws ∧ After stk1 tail
  | .beginString, stk, w => BeginString stk w
  | .beginStringOrEmpty, stk, w =>
    BeginString stk w ∨ ∃ ws tail, w = ws ++ byte 0x7D :: tail ∧ Ws ws ∧ After stk.tail tail
  | .endValue, stk, w => After stk w
  | .endTop, _, w => Ws w
  | .inString, stk, w => HexThen 0 stk w
  | .inStringEsc, stk, w =>
    ∃ e w1, w = e :: w1 ∧
      (((e.val = 0x22 ∨ e.val = 0x5C ∨ e.val = 0x2F ∨ e.val = 0x62 ∨ e.val = 0x66 ∨
          e.val = 0x6E ∨ e.val = 0x72 ∨ e.val = 0x74) ∧ HexThen 0 stk w1) ∨
        (e.val = 0x75 ∧ HexThen 4 stk w1))
  | .inStringEscU, stk, w => HexThen 4 stk w
  | .inStringEscU1, stk, w => HexThen 3 stk w
  | .inStringEscU12, stk, w => HexThen 2 stk w
  | .inStringEscU123, stk, w => HexThen 1 stk w
  | .neg, stk, w => InNumber .neg stk w
  | .one, stk, w => InNumber .one stk w
  | .zero, stk, w => InNumber .zero stk w
  | .dot, stk, w => InNumber .dot stk w
  | .dot0, stk, w => InNumber .dot0 stk w
  | .e, stk, w => InNumber .e stk w
  | .eSign, stk, w => InNumber .eSign stk w
  | .e0, stk, w => InNumber .e0 stk w
  | .t, stk, w => InLiteral [byte 0x72, byte 0x75, byte 0x65] stk w
  | .tr, stk, w => InLiteral [byte 0x75, byte 0x65] stk w
  | .tru, stk, w => InLiteral [byte 0x65] stk w
  | .f, stk, w => InLiteral [byte 0x61, byte 0x6C, byte 0x73, byte 0x65] stk w
  | .fa, stk, w => InLiteral [byte 0x6C, byte 0x73, byte 0x65] stk w
  | .fal, stk, w => InLiteral [byte 0x73, byte 0x65] stk w
  | .fals, stk, w => InLiteral [byte 0x65] stk w
  | .n, stk, w => InLiteral [byte 0x75, byte 0x6C, byte 0x6C] stk w
  | .nu, stk, w => InLiteral [byte 0x6C, byte 0x6C] stk w
  | .nul, stk, w => InLiteral [byte 0x6C] stk w
  | .error, _, _ => False

end Kratos.json

/-! ## Theorems: flow state machine -/

namespace Kratos.flow

theorem indexOf_eq_tablePosition (s : State) : indexOf s = tablePosition s := by
  unfold indexOf tablePosition states
  simp only [indexOfLoop]
  by_cases h0 : StateChooseMethod = s
  · simp [h0.symm]
  · by_cases h1 : StateEmailSent = s
    · subst h1; decide
    · by_cases h2 : StatePassedChallenge = s
      · subst h2; decide
      · have h0' : ¬ s = StateChooseMethod := fun h => h0 h.symm
        have h1' : ¬ s = StateEmailSent := fun h => h1 h.symm
        have h2' : ¬ s = StatePassedChallenge := fun h => h2 h.symm
        simp [h0, h1, h2, h0', h1', h2']

theorem indexOf_lt_three (s : State) : indexOf s < 3 := by
  rw [indexOf_eq_tablePosition]; unfold tablePosition
  split_ifs <;> omega

theorem mem_states_iff (s : State) :
    s ∈ states ↔ s = StateChooseMethod ∨ s = StateEmailSent ∨ s = StatePassedChallenge := by
  simp [states]

theorem iterNextState_terminal (m : Nat) :
    iterNextState m StatePassedChallenge = some StatePassedChallenge := by
  induction m with
  | zero => rfl
  | succ k ih =>
    have h : NextState StatePassedChallenge = some StatePassedChallenge := by decide
    simp [iterNextState, h, ih]

/-- C1: from every linear state at most two applications of `NextState` reach
`passed_challenge`, `NextState passed_challenge = passed_challenge`, and any number
of further applications stays there. -/
theorem nextState_reaches_passed_challenge (S : State) (hS : S ∈ states) :
    (∃ n, n ≤ 2 ∧ iterNextState n S = some StatePassedChallenge) ∧
      NextState StatePassedChallenge = some StatePassedChallenge ∧
      ∀ m, iterNextState m StatePassedChallenge = some StatePassedChallenge := by
  refine ⟨?_, by decide, iterNextState_terminal⟩
  rcases (mem_states_iff S).1 hS with h | h | h
  · exact ⟨2, le_refl 2, by subst h; decide⟩
  · exact ⟨1, by decide, by subst h; decide⟩
  · exact ⟨0, by decide, by subst h; rfl⟩

theorem nextState_reaches_passed_challenge_witness :
    StateChooseMethod ∈ states ∧
      ((∃ n, n ≤ 2 ∧ iterNextState n StateChooseMethod = some StatePassedChallenge) ∧
        NextState StatePassedChallenge = some StatePassedChallenge ∧
        ∀ m, iterNextState m StatePassedChallenge = some StatePassedChallenge) :=
  ⟨by decide, nextState_reaches_passed_challenge StateChooseMethod (by decide)⟩

/-- C2: `NextState` never indexes `states` out of range (it returns a state for
every input string); it maps choose_method to sent_email, sent_email to
passed_challenge, passed_challenge to itself, and every state outside the linear
table (the empty state, show_form, success, the recovery states, ...) to
sent_email. -/
theorem nextState_total_and_values :
    (∀ s : State, ∃ t, NextState s = some t) ∧
      NextState StateChooseMethod = some StateEmailSent ∧
      NextState StateEmailSent = some StatePassedChallenge ∧
      NextState StatePassedChallenge = some StatePassedChallenge ∧
      (∀ s : State, s ∉ states → NextState s = some StateEmailSent) ∧
      NextState [] = some StateEmailSent ∧
      NextState StateShowForm = some StateEmailSent ∧
      NextState StateSuccess = some StateEmailSent ∧
      NextState StateRecoveryAwaitingAddress = some StateEmailSent ∧
      NextState StateRecoveryAwaitingAddressChoice = some StateEmailSent ∧
      NextState StateRecoveryAwaitingAddressConfirm = some StateEmailSent ∧
      NextState StateRecoveryAwaitingCode = some StateEmailSent := by
  refine ⟨?_, by decide, by decide, by decide, ?_, by decide, by decide, by decide,
    by decide, by decide, by decide, by decide⟩
  · intro s
    by_cases hp : s = StatePassedChallenge
    · exact ⟨StatePassedChallenge, by simp [NextState, hp]⟩
    · have hi : indexOf s = tablePosition s := indexOf_eq_tablePosition s
      unfold tablePosition at hi
      simp only [hp, if_false] at hi
      by_cases h0 : s = StateChooseMethod
      · exact ⟨StateEmailSent, by subst h0; decide⟩
      · by_cases h1 : s = StateEmailSent
        · exact ⟨StatePassedChallenge, by subst h1; decide⟩
        · simp only [h0, h1, if_false] at hi
          exact ⟨StateEmailSent, by simp [NextState, hp, hi, states]⟩
  · intro s hs
    rw [mem_states_iff] at hs
    push_neg at hs
    obtain ⟨h0, h1, h2⟩ := hs
    have hi : indexOf s = 0 := by
      rw [indexOf_eq_tablePosition]; simp [tablePosition, h0, h1, h2]
    simp [NextState, h2, hi, states]

/-- C3: `HasReachedState expected actual` holds exactly when
`indexOf actual ≥ indexOf expected`, where `indexOf` is the position in the table
(choose_method 0, sent_email 1, passed_challenge 2) and 0 for every other state. -/
theorem hasReachedState_iff (expected actual : State) :
    (HasReachedState expected actual = true ↔ indexOf actual ≥ indexOf expected) ∧
      indexOf expected = tablePosition expected ∧ indexOf actual = tablePosition actual ∧
      indexOf StateChooseMethod = 0 ∧ indexOf StateEmailSent = 1 ∧
      indexOf StatePassedChallenge = 2 ∧ (∀ s : State, s ∉ states → indexOf s = 0) := by
  refine ⟨by simp [HasReachedState], indexOf_eq_tablePosition _, indexOf_eq_tablePosition _,
    by decide, by decide, by decide, ?_⟩
  intro s hs
  rw [mem_states_iff] at hs
  push_neg at hs
  obtain ⟨h0, h1, h2⟩ := hs
  rw [indexOf_eq_tablePosition]; simp [tablePosition, h0, h1, h2]

/-- C4: over the linear family `HasReachedState` is monotone in its second
argument: if `a1` precedes `a2` in choose_method < sent_email < passed_challenge and
`expected` has been reached at `a1`, it has been reached at `a2`. -/
theorem hasReachedState_monotone (expected a1 a2 : State) (he : expected ∈ states)
    (h1 : a1 ∈ states) (h2 : a2 ∈ states) (hlt : tablePosition a1 < tablePosition a2)
    (hr : HasReachedState expected a1 = true) : HasReachedState expected a2 = true := by
  have _ := he
  have _ := h1
  have _ := h2
  simp only [HasReachedState, decide_eq_true_eq, indexOf_eq_tablePosition] at hr ⊢
  omega

theorem hasReachedState_monotone_witness :
    StateEmailSent ∈ states ∧ StateEmailSent ∈ states ∧ StatePassedChallenge ∈ states ∧
      tablePosition StateEmailSent < tablePosition StatePassedChallenge ∧
      HasReachedState StateEmailSent StateEmailSent = true ∧
      HasReachedState StateEmailSent StatePassedChallenge = true :=
  ⟨by decide, by decide, by decide, by decide, by decide,
    hasReachedState_monotone StateEmailSent StateEmailSent StatePassedChallenge
      (by decide) (by decide) (by decide) (by decide) (by decide)⟩

end Kratos.flow

/-! ## Theorems: `float32` arithmetic -/

namespace Kratos

theorem log2Floor_go_spec : ∀ fuel m, m ≤ fuel → 0 < m →
    2 ^ log2Floor.go fuel m ≤ m ∧ m < 2 ^ (log2Floor.go fuel m + 1) := by
  intro fuel
  induction fuel with
  | zero => intro m h1 h2; omega
  | succ fuel ih =>
    intro m hm hpos
    unfold log2Floor.go
    by_cases h2 : m < 2
    · rw [if_pos h2]
      have : m = 1 := by omega
      subst this
      decide
    · rw [if_neg h2]
      obtain ⟨ih1, ih2⟩ := ih (m / 2) (by omega) (by omega)
      rw [pow_succ] at ih2
      rw [pow_succ, pow_succ, pow_succ]
      omega

theorem log2Floor_spec (n : Nat) (h : 0 < n) :
    2 ^ log2Floor n ≤ n ∧ n < 2 ^ (log2Floor n + 1) :=
  log2Floor_go_spec n n (le_refl n) h

theorem roundHalfEven_le (n d k : Nat) (h : n ≤ k * d) (hd : 0 < d) : roundHalfEven n d ≤ k := by
  have hq : n / d ≤ k := Nat.div_le_of_le_mul (by rw [Nat.mul_comm]; exact h)
  have hdm := Nat.div_add_mod n d
  unfold roundHalfEven
  simp only []
  rcases Nat.lt_or_eq_of_le hq with hlt | heq
  · split_ifs <;> omega
  · have hr : n % d = 0 := by
      rw [heq, Nat.mul_comm] at hdm
      omega
    rw [if_pos (by omega)]
    exact hq

theorem roundHalfEven_ge (n d k : Nat) (h : k * d ≤ n) (hd : 0 < d) : k ≤ roundHalfEven n d := by
  have hq : k ≤ n / d := (Nat.le_div_iff_mul_le hd).mpr h
  unfold roundHalfEven
  simp only []
  split_ifs <;> omega

theorem roundHalfEven_gt (n d k : Nat) (h : (2 * k + 1) * d < 2 * n) (hd : 0 < d) :
    k + 1 ≤ roundHalfEven n d := by
  have hkd : k * d ≤ n := by
    have : (2 * k + 1) * d = 2 * (k * d) + d := by ring
    omega
  have hq : k ≤ n / d := (Nat.le_div_iff_mul_le hd).mpr hkd
  have hdm := Nat.div_add_mod n d
  unfold roundHalfEven
  simp only []
  rcases Nat.lt_or_eq_of_le hq with hlt | heq
  · split_ifs <;> omega
  · have hn : n = k * d + n % d := by
      rw [← heq, Nat.mul_comm] at hdm
      omega
    have h2 : (2 * k + 1) * d = 2 * (k * d) + d := by ring
    have hr : d < 2 * (n % d) := by omega
    rw [if_neg (by omega), if_pos hr]
    omega

theorem Float32.gt_half (m t : Nat) :
    (Float32.fin m (-(t : Int))).gt Float32.half = decide (2 ^ t < 2 * m) := by
  unfold Float32.gt Float32.half
  simp only []
  cases t with
  | zero =>
    have e : min (-((0 : Nat) : Int)) (-1) = -1 := by decide
    rw [e]
    simp only [Nat.cast_zero, neg_zero, sub_neg_eq_add, neg_add_cancel, Int.toNat_zero, pow_zero,
      mul_one, zero_add, Int.toNat_one, pow_one]
    congr 1
    apply propext
    omega
  | succ k =>
    have e : min (-((k + 1 : Nat) : Int)) (-1) = -((k + 1 : Nat) : Int) := by
      apply min_eq_left; push_cast; omega
    rw [e]
    have e1 : ((-1 : Int) - (-((k + 1 : Nat) : Int))).toNat = k := by push_cast; omega
    have e2 : ((-((k + 1 : Nat) : Int)) - (-((k + 1 : Nat) : Int))).toNat = 0 := by simp
    rw [e1, e2, pow_succ]
    congr 1
    apply propext
    omega

end Kratos

namespace Kratos

theorem roundHalfEven_half_iff (a b t : Nat) (hb : 0 < b) (hb24 : b < 2 ^ 24)
    (hnorm : 2 ^ 23 * b ≤ a * 2 ^ t) :
    2 ^ t < 2 * roundHalfEven (a * 2 ^ t) b ↔ b < 2 * a := by
  have hm : 2 ^ 23 ≤ roundHalfEven (a * 2 ^ t) b := roundHalfEven_ge _ _ _ hnorm hb
  constructor
  · intro h
    by_contra hcon
    have h2a : 2 * a ≤ b := by omega
    have ht : 24 ≤ t := by
      by_contra hlt
      have h1 : 2 ^ t ≤ 2 ^ 23 := Nat.pow_le_pow_right (by norm_num) (by omega)
      have h3 : a * 2 ^ t ≤ a * 2 ^ 23 := Nat.mul_le_mul_left a h1
      have h4 : 2 ^ 23 * b ≤ 2 ^ 23 * a := by rw [Nat.mul_comm (2 ^ 23) a]; omega
      have h5 : b ≤ a := Nat.le_of_mul_le_mul_left h4 (by norm_num)
      omega
    obtain ⟨k, rfl⟩ : ∃ k, t = k + 1 := ⟨t - 1, by omega⟩
    have hle : a * 2 ^ (k + 1) ≤ 2 ^ k * b := by
      have : a * 2 ^ (k + 1) = 2 ^ k * (2 * a) := by rw [pow_succ]; ring
      rw [this]
      exact Nat.mul_le_mul_left _ h2a
    have hmle := roundHalfEven_le _ _ _ hle hb
    have hp : 2 ^ (k + 1) = 2 * 2 ^ k := by rw [pow_succ]; ring
    omega
  · intro h
    by_cases ht : t < 24
    · have h1 : 2 ^ t ≤ 2 ^ 23 := Nat.pow_le_pow_right (by norm_num) (by omega)
      omega
    · obtain ⟨k, rfl⟩ : ∃ k, t = k + 1 := ⟨t - 1, by omega⟩
      have hk : 2 ^ 23 ≤ 2 ^ k := Nat.pow_le_pow_right (by norm_num) (by omega)
      have h1 : 2 ^ k * (b + 1) ≤ 2 ^ k * (2 * a) := Nat.mul_le_mul_left _ (by omega)
      have hp : 2 ^ (k + 1) = 2 * 2 ^ k := by rw [pow_succ]; ring
      have e1 : (2 * 2 ^ k + 1) * b = 2 * (2 ^ k * b) + b := by ring
      have e2 : 2 * (a * 2 ^ (k + 1)) = 4 * (2 ^ k * a) := by rw [pow_succ]; ring
      have e3 : 2 ^ k * (b + 1) = 2 ^ k * b + 2 ^ k := by ring
      have e4 : 2 ^ k * (2 * a) = 2 * (2 ^ k * a) := by ring
      have hgt : (2 * 2 ^ k + 1) * b < 2 * (a * 2 ^ (k + 1)) := by
        rw [e1, e2]
        rw [e3, e4] at h1
        omega
      have := roundHalfEven_gt _ _ _ hgt hb
      omega

/-- Below `2^24` the `float32` quotient of two lengths exceeds 0.5 exactly when the
exact quotient does. -/
theorem Float32.ratio_gt_half (a b : Nat) (ha : a < 2 ^ 24) (hb : b < 2 ^ 24) :
    ((Float32.ofNat a).div (Float32.ofNat b)).gt Float32.half = decide (b < 2 * a) := by
  unfold Float32.ofNat
  rw [if_pos ha, if_pos hb]
  by_cases hb0 : b = 0
  · subst hb0
    by_cases ha0 : a = 0
    · subst ha0; rfl
    · have : decide (0 < 2 * a) = true := by simp; omega
      rw [this]
      simp only [Float32.div, ha0, if_true, if_false]
      rfl
  by_cases ha0 : a = 0
  · subst ha0
    simp only [Float32.div, hb0, if_true, if_false]
    have := Float32.gt_half 0 0
    simp only [Nat.cast_zero, neg_zero] at this
    rw [this]
    simp
  have hla := log2Floor_spec a (by omega)
  have hlb := log2Floor_spec b (by omega)
  have hla24 : log2Floor a < 24 := by
    have : 2 ^ log2Floor a < 2 ^ 24 := by omega
    exact (Nat.pow_lt_pow_iff_right (by norm_num)).mp this
  have hlb24 : log2Floor b < 24 := by
    have : 2 ^ log2Floor b < 2 ^ 24 := by omega
    exact (Nat.pow_lt_pow_iff_right (by norm_num)).mp this
  obtain ⟨T, hT⟩ : ∃ T : Nat, T + log2Floor a = 23 + log2Floor b :=
    ⟨23 + log2Floor b - log2Floor a, by omega⟩
  have ht0 : (23 + (log2Floor b : Int) - (log2Floor a : Int)) = (T : Int) := by omega
  have hpow : 2 ^ T * 2 ^ log2Floor a = 2 ^ 23 * 2 ^ log2Floor b := by
    rw [← pow_add, ← pow_add, hT]
  have hlow : 2 ^ 23 * 2 ^ log2Floor b ≤ a * 2 ^ T := by
    rw [← hpow, Nat.mul_comm]
    exact Nat.mul_le_mul_right _ hla.1
  have hbup : 2 ^ 23 * b < 2 * (2 ^ 23 * 2 ^ log2Floor b) := by
    have := hlb.2
    rw [pow_succ] at this
    omega
  simp only [Float32.div, hb0, ha0, if_false, ht0, Int.toNat_ofNat, Int.toNat_neg_nat, pow_zero,
    mul_one, sub_self, zero_sub]
  by_cases hadj : a * 2 ^ T < 2 ^ 23 * b
  · simp only [hadj, if_true]
    have e : -((T : Int) + 1) = -(((T + 1 : Nat)) : Int) := by push_cast; ring
    have e2 : 2 * (a * 2 ^ T) = a * 2 ^ (T + 1) := by rw [pow_succ]; ring
    rw [e, e2, Float32.gt_half]
    congr 1
    apply propext
    apply roundHalfEven_half_iff a b (T + 1) (by omega) hb
    rw [← e2]
    omega
  · simp only [hadj, if_false]
    rw [Float32.gt_half]
    congr 1
    apply propext
    exact roundHalfEven_half_iff a b T (by omega) hb (by omega)

end Kratos

/-! ## Theorems: password validator -/

namespace Kratos.password

open Kratos

theorem toInt64_of_lt (u : Nat) (h : u < 2 ^ 63) : toInt64 u = (u : Int) := by
  unfold toInt64
  have h1 : u % 2 ^ 64 = u := Nat.mod_eq_of_lt (by omega)
  rw [h1, if_pos h]

theorem validateBreaches_error (env : Env) (cfg : PasswordPolicy)
    (s : DefaultPasswordValidator) (password : GoString) :
    (validateBreaches env cfg s password).1 = none ∨
      (∃ c, (validateBreaches env cfg s password).1 = some (.PasswordTooManyBreaches c)) ∨
      ∃ e, (validateBreaches env cfg s password).1 = some (.fetch e) := by
  unfold validateBreaches
  by_cases hE : cfg.HaveIBeenPwnedEnabled = true
  · simp only [hE, not_true_eq_false, if_false]
    cases s.hashes.get (b20 (sha1.Sum password)) with
    | some c => simp only; split_ifs <;> simp
    | none =>
      simp only
      rcases fetch env s (sha1.Sum password) cfg.HaveIBeenPwnedHost with ⟨r, s1⟩
      cases r with
      | error e => simp only; split_ifs <;> simp
      | ok c => simp only; split_ifs <;> simp
  · simp [hE]

/-- C8 (counterexample): with `MinPasswordLength = 2^63` the conversion
`int(MinPasswordLength)` is negative, so the empty password, although shorter than
the configured minimum, gets no minimum-length error (here: no error at all). -/
theorem validate_min_length_overflow :
    ((([] : GoString).length : Int) < ((localPolicy (2 ^ 63) false).MinPasswordLength : Int)) ∧
      (validate asciiEnv (localPolicy (2 ^ 63) false) NewDefaultPasswordValidatorStrategy
        [] []).1 = none := by
  decide

/-- C8 (amended): when the configured `MinPasswordLength` fits a signed 64-bit
integer, a password shorter than it makes `validate` return the minimum-length error
built from (configured minimum, length of the password), whatever the similarity and
breach settings, the identifier and the cache are; a password at least that long
never gets a minimum-length error. -/
theorem validate_min_length (env : Env) (cfg : PasswordPolicy) (s : DefaultPasswordValidator)
    (identifier password : GoString) (hfit : cfg.MinPasswordLength < 2 ^ 63) :
    (password.length < cfg.MinPasswordLength →
        validate env cfg s identifier password =
          (some (.PasswordMinLength cfg.MinPasswordLength password.length), s)) ∧
      (cfg.MinPasswordLength ≤ password.length →
        ∀ a b, (validate env cfg s identifier password).1 ≠ some (.PasswordMinLength a b)) := by
  have hconv := toInt64_of_lt _ hfit
  constructor
  · intro hlt
    have h : (password.length : Int) < toInt64 cfg.MinPasswordLength := by
      rw [hconv]; exact_mod_cast hlt
    unfold validate
    rw [if_pos h, hconv]
  · intro hge a b
    have h : ¬ (password.length : Int) < toInt64 cfg.MinPasswordLength := by
      rw [hconv]; omega
    unfold validate
    rw [if_neg h]
    split_ifs
    · simp
    · rcases validateBreaches_error env cfg s password with h0 | ⟨c, h0⟩ | ⟨e, h0⟩ <;>
        simp [h0]

theorem validate_min_length_witness :
    (localPolicy 8 true).MinPasswordLength < 2 ^ 63 ∧
      (ofString "pass").length < (localPolicy 8 true).MinPasswordLength ∧
      validate asciiEnv (localPolicy 8 true) NewDefaultPasswordValidatorStrategy
          (ofString "alice@example.com") (ofString "pass") =
        (some (.PasswordMinLength 8 4), NewDefaultPasswordValidatorStrategy) :=
  ⟨by decide, by decide,
    (validate_min_length asciiEnv (localPolicy 8 true) NewDefaultPasswordValidatorStrategy
      (ofString "alice@example.com") (ofString "pass") (by decide)).1 (by decide)⟩

set_option maxRecDepth 100000 in
/-- C9 (counterexample): identifier `kkkkkk` and the password made of six KELVIN
SIGN characters followed by `zzzzz` (23 bytes, lower-cased to the 11 bytes
`kkkkkkzzzzz`): the edit distance of the lower-cased strings is 5 and their common
substring has length 6, which is not more than half of the password length 23; yet
`validate` returns the too-similar error, because it divides by the length of the
lower-cased password. -/
theorem validate_similarity_password_length :
    ¬ (((ofString "\u212A\u212A\u212A\u212A\u212A\u212Azzzzz").length : Int) <
        toInt64 (localPolicy 8 true).MinPasswordLength) ∧
    (validate kelvinEnv (localPolicy 8 true) NewDefaultPasswordValidatorStrategy
        (ofString "kkkkkk") (ofString "\u212A\u212A\u212A\u212A\u212A\u212Azzzzz")).1 =
      some .PasswordIdentifierTooSimilar ∧
    ¬ (levenshtein.Distance (kelvinEnv.toLower (ofString "kkkkkk"))
          (kelvinEnv.toLower (ofString "\u212A\u212A\u212A\u212A\u212A\u212Azzzzz")) < 5 ∨
        ((Float32.ofNat (lcsLength (kelvinEnv.toLower (ofString "kkkkkk"))
            (kelvinEnv.toLower (ofString "\u212A\u212A\u212A\u212A\u212A\u212Azzzzz")))).div
          (Float32.ofNat
            (ofString "\u212A\u212A\u212A\u212A\u212A\u212Azzzzz").length)).gt Float32.half
          = true) := by
  decide

/-- C9 (amended): for a validator with the thresholds 5 and 0.5 and a password that
passes the minimum-length check: if the similarity check is enabled and the
identifier is non-empty, `validate` returns the identifier-too-similar error exactly
when the edit distance of the lower-cased identifier and password is below 5 or
`lcsLength` of the two lower-cased strings divided (in `float32`) by the length of
the lower-cased password exceeds 0.5; if the check is disabled or the identifier is
empty it never returns that error. As long as both numbers are below `2^24` the
`float32` quotient exceeds 0.5 exactly when twice the `lcsLength` exceeds the
length. -/
theorem validate_similarity (env : Env) (cfg : PasswordPolicy) (s : DefaultPasswordValidator)
    (identifier password : GoString) (hd : s.minIdentifierPasswordDist = 5)
    (ht : s.maxIdentifierPasswordSubstrThreshold = Float32.half)
    (hlen : ¬ (password.length : Int) < toInt64 cfg.MinPasswordLength) :
    (cfg.IdentifierSimilarityCheckEnabled = true → identifier ≠ [] →
      ((validate env cfg s identifier password).1 = some .PasswordIdentifierTooSimilar ↔
        (levenshtein.Distance (env.toLower identifier) (env.toLower password) < 5 ∨
          ((Float32.ofNat (lcsLength (env.toLower identifier) (env.toLower password))).div
            (Float32.ofNat (env.toLower password).length)).gt Float32.half = true))) ∧
      ((cfg.IdentifierSimilarityCheckEnabled = false ∨ identifier = []) →
        (validate env cfg s identifier password).1 ≠ some .PasswordIdentifierTooSimilar) ∧
      (lcsLength (env.toLower identifier) (env.toLower password) < 2 ^ 24 →
        (env.toLower password).length < 2 ^ 24 →
        (((Float32.ofNat (lcsLength (env.toLower identifier) (env.toLower password))).div
            (Float32.ofNat (env.toLower password).length)).gt Float32.half = true ↔
          (env.toLower password).length <
            2 * lcsLength (env.toLower identifier) (env.toLower password))) := by
  have hb : (validateBreaches env cfg s password).1 ≠ some .PasswordIdentifierTooSimilar := by
    rcases validateBreaches_error env cfg s password with h0 | ⟨c, h0⟩ | ⟨e, h0⟩ <;> simp [h0]
  have hsim : tooSimilar env s identifier password = true ↔
      (levenshtein.Distance (env.toLower identifier) (env.toLower password) < 5 ∨
        ((Float32.ofNat (lcsLength (env.toLower identifier) (env.toLower password))).div
          (Float32.ofNat (env.toLower password).length)).gt Float32.half = true) := by
    simp only [tooSimilar, hd, ht, Bool.or_eq_true, decide_eq_true_eq]
    constructor
    · rintro (h | h)
      · left; exact_mod_cast h
      · right; exact h
    · rintro (h | h)
      · left; exact_mod_cast h
      · right; exact h
  unfold validate
  rw [if_neg hlen]
  refine ⟨?_, ?_, ?_⟩
  · intro hen hid
    have hpos : identifier.length > 0 := List.length_pos.mpr hid
    rw [← hsim]
    by_cases hts : tooSimilar env s identifier password = true
    · simp [hen, hpos, hts]
    · simp only [hen, hpos, hts, and_false, and_true, if_false, true_and]
      simp only [Bool.false_eq_true, if_false, iff_false]
      exact hb
  · rintro (hdis | hid)
    · simp only [hdis, Bool.false_eq_true, false_and, if_false]
      exact hb
    · simp only [hid, List.length_nil, gt_iff_lt, lt_self_iff_false, false_and, and_false,
        if_false]
      exact hb
  · intro hl hp
    rw [Float32.ratio_gt_half _ _ hl hp, decide_eq_true_eq]

set_option maxRecDepth 100000 in
theorem validate_similarity_witness :
    NewDefaultPasswordValidatorStrategy.minIdentifierPasswordDist = 5 ∧
    NewDefaultPasswordValidatorStrategy.maxIdentifierPasswordSubstrThreshold = Float32.half ∧
    ¬ (((ofString "alice@example.com1").length : Int) <
        toInt64 (localPolicy 8 true).MinPasswordLength) ∧
    (validate asciiEnv (localPolicy 8 true) NewDefaultPasswordValidatorStrategy
        (ofString "alice@example.com") (ofString "alice@example.com1")).1 =
      some .PasswordIdentifierTooSimilar :=
  ⟨rfl, rfl, by decide,
    ((validate_similarity asciiEnv (localPolicy 8 true) NewDefaultPasswordValidatorStrategy
      (ofString "alice@example.com") (ofString "alice@example.com1") rfl rfl
      (by decide)).1 rfl (by decide)).2 (Or.inl (by decide))⟩

set_option maxRecDepth 100000 in
/-- The two examples of the specification: with the default thresholds the
identifier `alice@example.com` rejects the password `alice@example.com1` and accepts
`Tr0ub4dor&9Zq`. -/
theorem validate_similarity_examples :
    (validate asciiEnv (localPolicy 8 true) NewDefaultPasswordValidatorStrategy
        (ofString "alice@example.com") (ofString "alice@example.com1")).1 =
      some .PasswordIdentifierTooSimilar ∧
    (validate asciiEnv (localPolicy 8 true) NewDefaultPasswordValidatorStrategy
        (ofString "alice@example.com") (ofString "Tr0ub4dor&9Zq")).1 = none := by
  decide

set_option maxRecDepth 100000 in
/-- C10 (the code at the failing input): for `a = b = "éa"` (bytes `C3 A9 61`)
`lcsLength` returns 1, although the whole string, 3 bytes or 2 runes long, occurs
in both. On the ASCII strings `alice` and `malice` it returns 5, the length of
their longest common substring. -/
theorem lcsLength_non_ascii :
    lcsLength (ofString "éa") (ofString "éa") = 1 ∧
      longestCommonInfix (ofString "éa") (ofString "éa") = 3 ∧
      longestCommonInfix (runesOf (ofString "éa")) (runesOf (ofString "éa")) = 2 ∧
      lcsLength (ofString "alice") (ofString "malice") = 5 ∧
      longestCommonInfix (ofString "alice") (ofString "malice") = 5 := by
  decide

end Kratos.password

/-! ## Theorems: serialisation of `State` -/

namespace Kratos

theorem byte_val (n : Nat) : (byte n).val = n % 256 := rfl

theorem decodeRune_one (p0 : Byte) (rest : List Byte) (h : p0.val < 0x80) :
    decodeRune (p0 :: rest) = (p0.val, 1) := by
  simp only [decodeRune, h, if_true]

theorem decodeRune_two (p0 b1 : Byte) (rest : List Byte) (h0 : 0xC2 ≤ p0.val)
    (h0' : p0.val < 0xE0) (h1 : 0x80 ≤ b1.val) (h1' : b1.val ≤ 0xBF) :
    decodeRune (p0 :: b1 :: rest) = (p0.val % 32 * 64 + b1.val % 64, 2) := by
  have e1 : ¬ p0.val < 0x80 := by omega
  have e2 : ¬ (p0.val < 0xC2 ∨ 0xF4 < p0.val) := by omega
  have e3 : ¬ p0.val = 0xE0 := by omega
  have e4 : ¬ p0.val = 0xF0 := by omega
  have e5 : ¬ p0.val = 0xED := by omega
  have e6 : ¬ p0.val = 0xF4 := by omega
  have e7 : ¬ (b1.val < 0x80 ∨ 0xBF < b1.val) := by omega
  simp only [decodeRune, e1, e2, e3, e4, e5, e6, e7, h0', if_true, if_false]

theorem decodeRune_three (p0 b1 b2 : Byte) (rest : List Byte) (h0 : 0xE0 ≤ p0.val)
    (h0' : p0.val < 0xF0) (h1 : 0x80 ≤ b1.val) (h1' : b1.val ≤ 0xBF)
    (hlo : p0.val = 0xE0 → 0xA0 ≤ b1.val) (hhi : p0.val = 0xED → b1.val ≤ 0x9F)
    (h2 : 0x80 ≤ b2.val) (h2' : b2.val ≤ 0xBF) :
    decodeRune (p0 :: b1 :: b2 :: rest)
      = (p0.val % 16 * 4096 + b1.val % 64 * 64 + b2.val % 64, 3) := by
  have e1 : ¬ p0.val < 0x80 := by omega
  have e2 : ¬ (p0.val < 0xC2 ∨ 0xF4 < p0.val) := by omega
  have e3 : ¬ p0.val < 0xE0 := by omega
  have e4 : ¬ p0.val = 0xF0 := by omega
  have e6 : ¬ p0.val = 0xF4 := by omega
  have e7 : ¬ (b2.val < 0x80 ∨ 0xBF < b2.val) := by omega
  have e8 : ¬ (b1.val < (if p0.val = 0xE0 then 0xA0 else if p0.val = 0xF0 then 0x90 else 0x80) ∨
      (if p0.val = 0xED then 0x9F else if p0.val = 0xF4 then 0x8F else 0xBF) < b1.val) := by
    by_cases c1 : p0.val = 0xE0
    · have := hlo c1
      have c2 : ¬ p0.val = 0xED := by omega
      rw [c1]; norm_num; omega
    · by_cases c2 : p0.val = 0xED
      · have := hhi c2
        rw [c2]; norm_num; omega
      · simp only [c1, c2, e4, e6, if_false]; omega
  simp only [decodeRune, e1, e2, e3, e7, e8, h0', if_true, if_false]

theorem decodeRune_four (p0 b1 b2 b3 : Byte) (rest : List Byte) (h0 : 0xF0 ≤ p0.val)
    (h0' : p0.val ≤ 0xF4) (h1 : 0x80 ≤ b1.val) (h1' : b1.val ≤ 0xBF)
    (hlo : p0.val = 0xF0 → 0x90 ≤ b1.val) (hhi : p0.val = 0xF4 → b1.val ≤ 0x8F)
    (h2 : 0x80 ≤ b2.val) (h2' : b2.val ≤ 0xBF) (h3 : 0x80 ≤ b3.val) (h3' : b3.val ≤ 0xBF) :
    decodeRune (p0 :: b1 :: b2 :: b3 :: rest)
      = (p0.val % 8 * 262144 + b1.val % 64 * 4096 + b2.val % 64 * 64 + b3.val % 64, 4) := by
  have e1 : ¬ p0.val < 0x80 := by omega
  have e2 : ¬ (p0.val < 0xC2 ∨ 0xF4 < p0.val) := by omega
  have e3 : ¬ p0.val < 0xE0 := by omega
  have e3' : ¬ p0.val < 0xF0 := by omega
  have e4 : ¬ p0.val = 0xE0 := by omega
  have e6 : ¬ p0.val = 0xED := by omega
  have e7 : ¬ (b2.val < 0x80 ∨ 0xBF < b2.val) := by omega
  have e9 : ¬ (b3.val < 0x80 ∨ 0xBF < b3.val) := by omega
  have e8 : ¬ (b1.val < (if p0.val = 0xE0 then 0xA0 else if p0.val = 0xF0 then 0x90 else 0x80) ∨
      (if p0.val = 0xED then 0x9F else if p0.val = 0xF4 then 0x8F else 0xBF) < b1.val) := by
    by_cases c1 : p0.val = 0xF0
    · have := hlo c1
      have c2 : ¬ p0.val = 0xF4 := by omega
      rw [c1]; norm_num; omega
    · by_cases c2 : p0.val = 0xF4
      · have := hhi c2
        rw [c2]; norm_num; omega
      · simp only [c1, c2, e4, e6, if_false]; omega
  simp only [decodeRune, e1, e2, e3, e3', e7, e8, e9, if_true, if_false]

end Kratos

namespace Kratos

theorem scalar_char (c : Char) : Scalar c.val.toNat := c.valid

theorem decodeRune_take_four (l : List Byte) : decodeRune (l.take 4) = decodeRune l := by
  rcases l with _ | ⟨a, _ | ⟨b, _ | ⟨c, _ | ⟨d, l⟩⟩⟩⟩ <;> rfl

theorem encodeRune_ascii (v : Nat) (h : v < 0x80) : encodeRune v = [byte v] := by
  unfold encodeRune
  rw [if_pos (show v ≤ 0x7F by omega)]

theorem decodeRune_encodeRune (v : Nat) (h : Scalar v) (rest : List Byte) :
    decodeRune (encodeRune v ++ rest) = (v, (encodeRune v).length) := by
  unfold Scalar at h
  unfold encodeRune
  by_cases h1 : v ≤ 0x7F
  · rw [if_pos h1]
    rw [List.singleton_append, decodeRune_one _ _ (by rw [byte_val]; omega), byte_val]
    simp only [List.length_singleton, Prod.mk.injEq, and_true]; omega
  rw [if_neg h1]
  by_cases h2 : v ≤ 0x7FF
  · rw [if_pos h2]
    simp only [List.cons_append, List.nil_append]
    rw [decodeRune_two _ _ _ (by rw [byte_val]; omega) (by rw [byte_val]; omega)
      (by rw [byte_val]; omega) (by rw [byte_val]; omega)]
    simp only [byte_val, List.length_cons, List.length_nil, Prod.mk.injEq, and_true]; omega
  rw [if_neg h2, if_neg (show ¬ (v > 0x10FFFF ∨ (0xD800 ≤ v ∧ v ≤ 0xDFFF)) by omega)]
  by_cases h3 : v ≤ 0xFFFF
  · rw [if_pos h3]
    simp only [List.cons_append, List.nil_append]
    rw [decodeRune_three _ _ _ _ (by rw [byte_val]; omega) (by rw [byte_val]; omega)
      (by rw [byte_val]; omega) (by rw [byte_val]; omega)
      (by rw [byte_val, byte_val]; omega) (by rw [byte_val, byte_val]; omega)
      (by rw [byte_val]; omega) (by rw [byte_val]; omega)]
    simp only [byte_val, List.length_cons, List.length_nil, Prod.mk.injEq, and_true]; omega
  · rw [if_neg h3]
    simp only [List.cons_append, List.nil_append]
    rw [decodeRune_four _ _ _ _ _ (by rw [byte_val]; omega) (by rw [byte_val]; omega)
      (by rw [byte_val]; omega) (by rw [byte_val]; omega)
      (by rw [byte_val, byte_val]; omega) (by rw [byte_val, byte_val]; omega)
      (by rw [byte_val]; omega) (by rw [byte_val]; omega)
      (by rw [byte_val]; omega) (by rw [byte_val]; omega)]
    simp only [byte_val, List.length_cons, List.length_nil, Prod.mk.injEq, and_true]; omega

/-- The bytes of a rune from U+0080 on: at least two, none of them ASCII. -/
theorem encodeRune_multi (v : Nat) (h : 0x80 ≤ v) :
    2 ≤ (encodeRune v).length ∧ ∀ b ∈ encodeRune v, 0x80 ≤ b.val := by
  unfold encodeRune
  rw [if_neg (show ¬ v ≤ 0x7F by omega)]
  split_ifs <;> simp only [List.length_cons, List.length_nil, List.mem_cons,
    List.mem_singleton, List.not_mem_nil, or_false, forall_eq_or_imp, forall_eq, byte_val] <;>
    omega

end Kratos

namespace Kratos.json

open Kratos

theorem encodeRune_length_pos (v : Nat) : 1 ≤ (encodeRune v).length := by
  unfold encodeRune
  split_ifs <;> simp

theorem appendStringLoop_cons (f : Nat) (b : Byte) (rest : List Byte) :
    appendStringLoop (f + 1) (b :: rest) =
      if b.val < 0x80 then
        if htmlSafe b then b :: appendStringLoop f rest
        else escapeByte b ++ appendStringLoop f rest
      else
        if (decodeRune (b :: rest)).1 = RuneError ∧ (decodeRune (b :: rest)).2 = 1 then
          [byte 0x5C, byte 0x75, byte 0x66, byte 0x66, byte 0x66, byte 0x64]
            ++ appendStringLoop f rest
        else if (decodeRune (b :: rest)).1 = 0x2028 ∨ (decodeRune (b :: rest)).1 = 0x2029 then
          [byte 0x5C, byte 0x75, byte 0x32, byte 0x30, byte 0x32,
              hex ((decodeRune (b :: rest)).1 % 16)]
            ++ appendStringLoop f ((b :: rest).drop (decodeRune (b :: rest)).2)
        else (b :: rest).take (decodeRune (b :: rest)).2
          ++ appendStringLoop f ((b :: rest).drop (decodeRune (b :: rest)).2) := by
  simp only [appendStringLoop, decodeRune_take_four]

theorem appendStringLoop_step (v : Nat) (hs : Scalar v) (f : Nat) (rest : List Byte) :
    appendStringLoop (f + 1) (encodeRune v ++ rest) = chunk v ++ appendStringLoop f rest := by
  by_cases hv : v < 0x80
  · have hb : (byte v).val < 0x80 := by rw [byte_val]; omega
    rw [encodeRune_ascii v hv, List.singleton_append, appendStringLoop_cons]
    simp only [chunk, hv, hb, if_true]
    by_cases hsafe : htmlSafe (byte v) = true
    · simp only [hsafe, if_true, List.singleton_append]
    · simp only [hsafe, if_false, Bool.false_eq_true]
  · have hd := decodeRune_encodeRune v hs rest
    obtain ⟨hlen, hbytes⟩ := encodeRune_multi v (by omega)
    rcases hE : encodeRune v with _ | ⟨b0, tl⟩
    · rw [hE] at hlen; simp at hlen
    · have hb0 : ¬ b0.val < 0x80 := by
        have := hbytes b0 (by rw [hE]; exact List.mem_cons_self _ _)
        omega
      rw [hE] at hd hlen
      rw [List.cons_append, appendStringLoop_cons, if_neg hb0, ← List.cons_append, hd]
      have h1 : ¬ (v = RuneError ∧ (b0 :: tl).length = 1) := by omega
      have htake : List.take (b0 :: tl).length (b0 :: tl ++ rest) = b0 :: tl :=
        List.take_left' rfl
      have hdrop : List.drop (b0 :: tl).length (b0 :: tl ++ rest) = rest :=
        List.drop_left' rfl
      simp only [h1, if_false, chunk, hv, htake, hdrop, hE]
      by_cases h28 : v = 0x2028 ∨ v = 0x2029
      · simp only [h28, if_true]
      · simp only [h28, if_false]

theorem encodeRunes_length_cons (c : Char) (cs : List Char) :
    (encodeRunes (c :: cs)).length = (encodeRune c.val.toNat).length + (encodeRunes cs).length := by
  simp [encodeRunes]

theorem appendStringLoop_encodeRunes (cs : List Char) :
    ∀ f, (encodeRunes cs).length ≤ f → appendStringLoop f (encodeRunes cs) = chunks cs := by
  induction cs with
  | nil => intro f _; cases f <;> rfl
  | cons c cs ih =>
    intro f hf
    rw [encodeRunes_length_cons] at hf
    have := encodeRune_length_pos c.val.toNat
    obtain ⟨g, rfl⟩ : ∃ g, f = g + 1 := ⟨f - 1, by omega⟩
    show appendStringLoop (g + 1) (encodeRune c.val.toNat ++ encodeRunes cs) = _
    rw [appendStringLoop_step _ (scalar_char c), ih g (by omega)]
    rfl

end Kratos.json

namespace Kratos.json

open Kratos

theorem hex_props : ∀ n, n < 16 →
    isHex (hex n) = true ∧ hexValue (hex n) = some n ∧ (hex n).val ≠ 0x5C ∧
      (hex n).val ≠ 0x22 := by
  decide

/-- The three shapes of what `appendString` writes for one scalar value. -/
theorem chunk_shape (v : Nat) :
    (chunk v = encodeRune v ∧ (v < 0x80 → 0x20 ≤ v ∧ v ≠ 0x22 ∧ v ≠ 0x5C)) ∨
      (v < 0x80 ∧ ∃ e : Byte, chunk v = [byte 0x5C, e] ∧
        ((e.val = 0x22 ∧ v = 0x22) ∨ (e.val = 0x5C ∧ v = 0x5C) ∨ (e.val = 0x62 ∧ v = 0x08) ∨
          (e.val = 0x66 ∧ v = 0x0C) ∨ (e.val = 0x6E ∧ v = 0x0A) ∨ (e.val = 0x72 ∧ v = 0x0D) ∨
          (e.val = 0x74 ∧ v = 0x09))) ∨
      (∃ a b c d, a < 16 ∧ b < 16 ∧ c < 16 ∧ d < 16 ∧ ((a * 16 + b) * 16 + c) * 16 + d = v ∧
        chunk v = [byte 0x5C, byte 0x75, hex a, hex b, hex c, hex d]) := by
  unfold chunk
  by_cases hv : v < 0x80
  · have hb : (byte v).val = v := by rw [byte_val]; omega
    rw [if_pos hv]
    by_cases hsafe : htmlSafe (byte v) = true
    · left
      rw [if_pos hsafe, encodeRune_ascii v hv]
      refine ⟨rfl, fun _ => ?_⟩
      simp only [htmlSafe, hb, decide_eq_true_eq] at hsafe
      omega
    · rw [if_neg hsafe]
      unfold escapeByte
      rw [hb]
      by_cases c1 : v = 0x5C ∨ v = 0x22
      · right; left
        refine ⟨hv, byte v, by rw [if_pos c1], ?_⟩
        rw [hb]; omega
      rw [if_neg c1]
      by_cases c2 : v = 0x08
      · right; left; exact ⟨hv, byte 0x62, by rw [if_pos c2], by rw [byte_val]; omega⟩
      rw [if_neg c2]
      by_cases c3 : v = 0x0C
      · right; left; exact ⟨hv, byte 0x66, by rw [if_pos c3], by rw [byte_val]; omega⟩
      rw [if_neg c3]
      by_cases c4 : v = 0x0A
      · right; left; exact ⟨hv, byte 0x6E, by rw [if_pos c4], by rw [byte_val]; omega⟩
      rw [if_neg c4]
      by_cases c5 : v = 0x0D
      · right; left; exact ⟨hv, byte 0x72, by rw [if_pos c5], by rw [byte_val]; omega⟩
      rw [if_neg c5]
      by_cases c6 : v = 0x09
      · right; left; exact ⟨hv, byte 0x74, by rw [if_pos c6], by rw [byte_val]; omega⟩
      rw [if_neg c6]
      right; right
      exact ⟨0, 0, v / 16, v % 16, by omega, by omega, by omega, by omega, by omega, rfl⟩
  · rw [if_neg hv]
    by_cases h28 : v = 0x2028 ∨ v = 0x2029
    · rw [if_pos h28]
      right; right
      exact ⟨2, 0, 2, v % 16, by omega, by omega, by omega, by omega, by omega, rfl⟩
    · rw [if_neg h28]
      left
      exact ⟨rfl, fun h => absurd h hv⟩

/-- The bytes of a scalar value written unescaped pass through a string literal:
none is a quote, a backslash or a control character. -/
theorem plain_bytes (v : Nat) (h : v < 0x80 → 0x20 ≤ v ∧ v ≠ 0x22 ∧ v ≠ 0x5C) :
    ∀ b ∈ encodeRune v, 0x20 ≤ b.val ∧ b.val ≠ 0x22 ∧ b.val ≠ 0x5C := by
  intro b hb
  by_cases hv : v < 0x80
  · rw [encodeRune_ascii v hv, List.mem_singleton] at hb
    have := h hv
    rw [hb, byte_val]; omega
  · have := (encodeRune_multi v (by omega)).2 b hb
    omega

end Kratos.json

namespace Kratos.json

open Kratos

theorem next_inString_plain (s : Scanner) (hs : s.step = .inString) (b : Byte)
    (hb : 0x20 ≤ b.val ∧ b.val ≠ 0x22 ∧ b.val ≠ 0x5C) : s.next b = s := by
  unfold Scanner.next
  rw [hs]
  simp only [stateInString]
  rw [if_neg hb.2.1, if_neg hb.2.2, if_neg (by omega)]

theorem foldl_next_plain (l : List Byte)
    (hl : ∀ b ∈ l, 0x20 ≤ b.val ∧ b.val ≠ 0x22 ∧ b.val ≠ 0x5C) (s : Scanner)
    (hs : s.step = .inString) : l.foldl Scanner.next s = s := by
  induction l with
  | nil => rfl
  | cons b l ih =>
    rw [List.foldl_cons, next_inString_plain s hs b (hl b (List.mem_cons_self _ _))]
    exact ih fun x hx => hl x (List.mem_cons_of_mem _ hx)

theorem next_backslash (ps : List ParseState) (er et : Bool) :
    Scanner.next ⟨.inString, ps, er, et⟩ (byte 0x5C) = ⟨.inStringEsc, ps, er, et⟩ := rfl

theorem next_escape (ps : List ParseState) (er et : Bool) (e : Byte)
    (he : e.val = 0x62 ∨ e.val = 0x66 ∨ e.val = 0x6E ∨ e.val = 0x72 ∨ e.val = 0x74 ∨
      e.val = 0x5C ∨ e.val = 0x2F ∨ e.val = 0x22) :
    Scanner.next ⟨.inStringEsc, ps, er, et⟩ e = ⟨.inString, ps, er, et⟩ := by
  show stateInStringEsc _ e = _
  unfold stateInStringEsc
  rw [if_pos he]

theorem next_escape_u (ps : List ParseState) (er et : Bool) :
    Scanner.next ⟨.inStringEsc, ps, er, et⟩ (byte 0x75) = ⟨.inStringEscU, ps, er, et⟩ := rfl

theorem stateInStringEscHex_hex (next : Step) (st : Step) (ps : List ParseState) (er et : Bool)
    (n : Nat) (hn : n < 16) :
    stateInStringEscHex next ⟨st, ps, er, et⟩ (hex n) = ⟨next, ps, er, et⟩ := by
  unfold stateInStringEscHex
  rw [if_pos (hex_props n hn).1]

theorem next_hex_u (ps : List ParseState) (er et : Bool) (n : Nat) (hn : n < 16) :
    Scanner.next ⟨.inStringEscU, ps, er, et⟩ (hex n) = ⟨.inStringEscU1, ps, er, et⟩ :=
  stateInStringEscHex_hex _ _ _ _ _ n hn

theorem next_hex_u1 (ps : List ParseState) (er et : Bool) (n : Nat) (hn : n < 16) :
    Scanner.next ⟨.inStringEscU1, ps, er, et⟩ (hex n) = ⟨.inStringEscU12, ps, er, et⟩ :=
  stateInStringEscHex_hex _ _ _ _ _ n hn

theorem next_hex_u12 (ps : List ParseState) (er et : Bool) (n : Nat) (hn : n < 16) :
    Scanner.next ⟨.inStringEscU12, ps, er, et⟩ (hex n) = ⟨.inStringEscU123, ps, er, et⟩ :=
  stateInStringEscHex_hex _ _ _ _ _ n hn

theorem next_hex_u123 (ps : List ParseState) (er et : Bool) (n : Nat) (hn : n < 16) :
    Scanner.next ⟨.inStringEscU123, ps, er, et⟩ (hex n) = ⟨.inString, ps, er, et⟩ :=
  stateInStringEscHex_hex _ _ _ _ _ n hn

theorem foldl_next_chunk (v : Nat) (s : Scanner) (hs : s.step = .inString) :
    (chunk v).foldl Scanner.next s = s := by
  obtain ⟨st, ps, er, et⟩ := s
  simp only at hs
  subst hs
  rcases chunk_shape v with ⟨hc, hp⟩ | ⟨_, e, hc, he⟩ | ⟨a, b, c, d, ha, hb, hc', hd, _, hc⟩
  · rw [hc]
    exact foldl_next_plain _ (plain_bytes v hp) _ rfl
  · rw [hc]
    simp only [List.foldl_cons, List.foldl_nil]
    rw [next_backslash, next_escape _ _ _ _ (by omega)]
  · rw [hc]
    simp only [List.foldl_cons, List.foldl_nil]
    rw [next_backslash, next_escape_u, next_hex_u _ _ _ a ha, next_hex_u1 _ _ _ b hb,
      next_hex_u12 _ _ _ c hc', next_hex_u123 _ _ _ d hd]

theorem foldl_next_chunks (cs : List Char) (s : Scanner) (hs : s.step = .inString) :
    (chunks cs).foldl Scanner.next s = s := by
  induction cs with
  | nil => rfl
  | cons c cs ih =>
    show (chunk c.val.toNat ++ chunks cs).foldl Scanner.next s = s
    rw [List.foldl_append, foldl_next_chunk _ s hs, ih]

theorem checkValid_quoted_chunks (cs : List Char) :
    checkValid (byte 0x22 :: chunks cs ++ [byte 0x22]) = true := by
  unfold checkValid
  rw [List.cons_append, List.foldl_cons, List.foldl_append]
  have h0 : Scanner.reset.next (byte 0x22) =
      { step := .inString, parseState := [], err := false, endTop := false } := by decide
  rw [h0, foldl_next_chunks cs _ rfl]
  decide

theorem stringLiteralEnd_plain (l : List Byte)
    (hl : ∀ b ∈ l, 0x20 ≤ b.val ∧ b.val ≠ 0x22 ∧ b.val ≠ 0x5C) (rest : List Byte) :
    stringLiteralEnd false (l ++ rest) = l.length + stringLiteralEnd false rest := by
  induction l with
  | nil => simp
  | cons b l ih =>
    have hb := hl b (List.mem_cons_self _ _)
    rw [List.cons_append, stringLiteralEnd, if_neg hb.2.2, if_neg hb.2.1,
      ih fun x hx => hl x (List.mem_cons_of_mem _ hx), List.length_cons]
    omega

theorem stringLiteralEnd_backslash (b : Byte) (rest : List Byte) :
    stringLiteralEnd false (byte 0x5C :: b :: rest) = 2 + stringLiteralEnd false rest := by
  show 1 + (1 + stringLiteralEnd false rest) = _
  omega

theorem stringLiteralEnd_hex (n : Nat) (hn : n < 16) (rest : List Byte) :
    stringLiteralEnd false (hex n :: rest) = 1 + stringLiteralEnd false rest := by
  have h := hex_props n hn
  rw [stringLiteralEnd, if_neg h.2.2.1, if_neg h.2.2.2]

theorem stringLiteralEnd_quote (rest : List Byte) :
    stringLiteralEnd false (byte 0x22 :: rest) = 1 := rfl

theorem stringLiteralEnd_chunk (v : Nat) (rest : List Byte) :
    stringLiteralEnd false (chunk v ++ rest) = (chunk v).length + stringLiteralEnd false rest := by
  rcases chunk_shape v with ⟨hc, hp⟩ | ⟨_, e, hc, _⟩ | ⟨a, b, c, d, ha, hb, hc', hd, _, hc⟩
  · rw [hc]
    exact stringLiteralEnd_plain _ (plain_bytes v hp) rest
  · rw [hc]
    show stringLiteralEnd false (byte 0x5C :: e :: rest) = _
    rw [stringLiteralEnd_backslash]
    rfl
  · rw [hc]
    show stringLiteralEnd false (byte 0x5C :: byte 0x75 :: hex a :: hex b :: hex c :: hex d
      :: rest) = _
    rw [stringLiteralEnd_backslash, stringLiteralEnd_hex a ha, stringLiteralEnd_hex b hb,
      stringLiteralEnd_hex c hc', stringLiteralEnd_hex d hd]
    simp only [List.length_cons, List.length_nil]
    omega

theorem stringLiteralEnd_chunks (cs : List Char) (rest : List Byte) :
    stringLiteralEnd false (chunks cs ++ byte 0x22 :: rest) = (chunks cs).length + 1 := by
  induction cs with
  | nil =>
    show stringLiteralEnd false (byte 0x22 :: rest) = 0 + 1
    rw [stringLiteralEnd_quote]
  | cons c cs ih =>
    show stringLiteralEnd false ((chunk c.val.toNat ++ chunks cs) ++ byte 0x22 :: rest) = _
    rw [List.append_assoc, stringLiteralEnd_chunk, ih]
    simp only [chunks, List.length_append]
    omega

end Kratos.json

namespace Kratos.json

open Kratos

theorem plainPrefix_nil (f : Nat) : plainPrefix f [] = 0 := by
  cases f <;> rfl

theorem plainPrefix_backslash (f : Nat) (rest : List Byte) :
    plainPrefix f (byte 0x5C :: rest) = 0 := by
  cases f <;> rfl

theorem plainPrefix_plain (v : Nat) (hs : Scalar v)
    (hp : v < 0x80 → 0x20 ≤ v ∧ v ≠ 0x22 ∧ v ≠ 0x5C) (f : Nat) (rest : List Byte) :
    plainPrefix (f + 1) (encodeRune v ++ rest) = (encodeRune v).length + plainPrefix f rest := by
  by_cases hv : v < 0x80
  · have hb : (byte v).val = v := by rw [byte_val]; omega
    have := hp hv
    rw [encodeRune_ascii v hv, List.singleton_append, plainPrefix, hb,
      if_neg (show ¬ (v = 0x5C ∨ v = 0x22 ∨ v < 0x20) by omega), if_pos hv]
    rfl
  · have hd := decodeRune_encodeRune v hs rest
    obtain ⟨hlen, hbytes⟩ := encodeRune_multi v (by omega)
    rcases hE : encodeRune v with _ | ⟨b0, tl⟩
    · rw [hE] at hlen; simp at hlen
    · have hb0 : 0x80 ≤ b0.val := hbytes b0 (by rw [hE]; exact List.mem_cons_self _ _)
      rw [hE] at hd hlen
      rw [List.cons_append, plainPrefix,
        if_neg (show ¬ (b0.val = 0x5C ∨ b0.val = 0x22 ∨ b0.val < 0x20) by omega),
        if_neg (show ¬ b0.val < 0x80 by omega)]
      simp only []
      rw [← List.cons_append, hd]
      have h1 : ¬ (v = RuneError ∧ (b0 :: tl).length = 1) := by omega
      have hdrop : List.drop (b0 :: tl).length (b0 :: tl ++ rest) = rest :=
        List.drop_left' rfl
      simp only [h1, if_false, hdrop]

theorem unquoteLoop_cons_ne (f : Nat) (c : Byte) (rest : List Byte) (h : ¬ c.val = 0x5C) :
    unquoteLoop (f + 1) (c :: rest) =
      if c.val = 0x22 ∨ c.val < 0x20 then none
      else if c.val < 0x80 then (unquoteLoop f rest).map (c :: ·)
      else (unquoteLoop f ((c :: rest).drop (decodeRune (c :: rest)).2)).map
        (encodeRune (decodeRune (c :: rest)).1 ++ ·) := by
  rw [unquoteLoop.eq_def]
  simp only [h, if_false]

theorem unquoteLoop_cons_backslash (f : Nat) (e : Byte) (rest1 : List Byte) :
    unquoteLoop (f + 1) (byte 0x5C :: e :: rest1) =
        if e.val = 0x22 ∨ e.val = 0x5C ∨ e.val = 0x2F ∨ e.val = 0x27 then
          (unquoteLoop f rest1).map (e :: ·)
        else if e.val = 0x62 then (unquoteLoop f rest1).map (byte 0x08 :: ·)
        else if e.val = 0x66 then (unquoteLoop f rest1).map (byte 0x0C :: ·)
        else if e.val = 0x6E then (unquoteLoop f rest1).map (byte 0x0A :: ·)
        else if e.val = 0x72 then (unquoteLoop f rest1).map (byte 0x0D :: ·)
        else if e.val = 0x74 then (unquoteLoop f rest1).map (byte 0x09 :: ·)
        else if e.val = 0x75 then
          match getu4 (byte 0x5C :: e :: rest1) with
          | none => none
          | some rr =>
            if 0xD800 ≤ rr ∧ rr < 0xE000 then
              if utf16DecodeRune rr (getu4 ((e :: rest1).drop 5)) ≠ RuneError then
                (unquoteLoop f ((e :: rest1).drop 11)).map
                  (encodeRune (utf16DecodeRune rr (getu4 ((e :: rest1).drop 5))) ++ ·)
              else (unquoteLoop f ((e :: rest1).drop 5)).map (encodeRune RuneError ++ ·)
            else (unquoteLoop f ((e :: rest1).drop 5)).map (encodeRune rr ++ ·)
        else none := by
  have h1 : (byte 0x5C).val = 0x5C := by decide
  rw [unquoteLoop.eq_def]
  simp only [h1, if_true]
theorem unquoteLoop_plain (v : Nat) (hs : Scalar v)
    (hp : v < 0x80 → 0x20 ≤ v ∧ v ≠ 0x22 ∧ v ≠ 0x5C) (f : Nat) (rest : List Byte) :
    unquoteLoop (f + 1) (encodeRune v ++ rest) =
      (unquoteLoop f rest).map (encodeRune v ++ ·) := by
  by_cases hv : v < 0x80
  · have hb : (byte v).val = v := by rw [byte_val]; omega
    have := hp hv
    rw [encodeRune_ascii v hv, List.singleton_append,
      unquoteLoop_cons_ne _ _ _ (by rw [hb]; omega), hb,
      if_neg (show ¬ (v = 0x22 ∨ v < 0x20) by omega), if_pos hv]
    rfl
  · have hd := decodeRune_encodeRune v hs rest
    obtain ⟨hlen, hbytes⟩ := encodeRune_multi v (by omega)
    rcases hE : encodeRune v with _ | ⟨b0, tl⟩
    · rw [hE] at hlen; simp at hlen
    · have hb0 : 0x80 ≤ b0.val := hbytes b0 (by rw [hE]; exact List.mem_cons_self _ _)
      rw [hE] at hd hlen
      rw [List.cons_append, unquoteLoop_cons_ne _ _ _ (show ¬ b0.val = 0x5C by omega),
        if_neg (show ¬ (b0.val = 0x22 ∨ b0.val < 0x20) by omega),
        if_neg (show ¬ b0.val < 0x80 by omega)]
      rw [← List.cons_append, hd]
      have hdrop : List.drop (b0 :: tl).length (b0 :: tl ++ rest) = rest :=
        List.drop_left' rfl
      simp only [hdrop, hE]

theorem getu4_hex (a b c d : Nat) (ha : a < 16) (hb : b < 16) (hc : c < 16) (hd : d < 16)
    (rest : List Byte) :
    getu4 (byte 0x5C :: byte 0x75 :: hex a :: hex b :: hex c :: hex d :: rest) =
      some (((a * 16 + b) * 16 + c) * 16 + d) := by
  have h1 : (byte 0x5C).val = 0x5C ∧ (byte 0x75).val = 0x75 := by decide
  simp only [getu4, h1, and_self, if_true, (hex_props a ha).2.1, (hex_props b hb).2.1,
    (hex_props c hc).2.1, (hex_props d hd).2.1]

theorem unquoteLoop_escape_u (v a b c d : Nat) (hs : Scalar v) (ha : a < 16) (hb : b < 16)
    (hc : c < 16) (hd : d < 16) (hv : ((a * 16 + b) * 16 + c) * 16 + d = v) (f : Nat)
    (rest : List Byte) :
    unquoteLoop (f + 1) (byte 0x5C :: byte 0x75 :: hex a :: hex b :: hex c :: hex d :: rest) =
      (unquoteLoop f rest).map (encodeRune v ++ ·) := by
  have hg := getu4_hex a b c d ha hb hc hd rest
  rw [hv] at hg
  have hsur : ¬ (0xD800 ≤ v ∧ v < 0xE000) := by unfold Scalar at hs; omega
  have h2 : ¬ ((byte 0x75).val = 0x22 ∨ (byte 0x75).val = 0x5C ∨ (byte 0x75).val = 0x2F ∨
      (byte 0x75).val = 0x27) := by decide
  have h3 : ¬ (byte 0x75).val = 0x62 ∧ ¬ (byte 0x75).val = 0x66 ∧ ¬ (byte 0x75).val = 0x6E ∧
      ¬ (byte 0x75).val = 0x72 ∧ ¬ (byte 0x75).val = 0x74 ∧ (byte 0x75).val = 0x75 := by decide
  rw [unquoteLoop_cons_backslash, if_neg h2, if_neg h3.1, if_neg h3.2.1, if_neg h3.2.2.1, if_neg h3.2.2.2.1,
    if_neg h3.2.2.2.2.1, if_pos h3.2.2.2.2.2, hg]
  simp only [hsur, if_false]
  rfl

theorem unquoteLoop_escape (e : Byte) (v : Nat) (f : Nat) (rest : List Byte)
    (he : (e.val = 0x22 ∧ v = 0x22) ∨ (e.val = 0x5C ∧ v = 0x5C) ∨ (e.val = 0x62 ∧ v = 0x08) ∨
      (e.val = 0x66 ∧ v = 0x0C) ∨ (e.val = 0x6E ∧ v = 0x0A) ∨ (e.val = 0x72 ∧ v = 0x0D) ∨
      (e.val = 0x74 ∧ v = 0x09)) :
    unquoteLoop (f + 1) (byte 0x5C :: e :: rest) =
      (unquoteLoop f rest).map (encodeRune v ++ ·) := by
  rw [unquoteLoop_cons_backslash]
  rcases he with ⟨h, rfl⟩ | ⟨h, rfl⟩ | ⟨h, rfl⟩ | ⟨h, rfl⟩ | ⟨h, rfl⟩ | ⟨h, rfl⟩ | ⟨h, rfl⟩
  · have he : e = byte 0x22 := Fin.ext h
    subst he
    rfl
  · have he : e = byte 0x5C := Fin.ext h
    subst he
    rfl
  · have he : e = byte 0x62 := Fin.ext h
    subst he
    rfl
  · have he : e = byte 0x66 := Fin.ext h
    subst he
    rfl
  · have he : e = byte 0x6E := Fin.ext h
    subst he
    rfl
  · have he : e = byte 0x72 := Fin.ext h
    subst he
    rfl
  · have he : e = byte 0x74 := Fin.ext h
    subst he
    rfl

theorem unquoteLoop_chunk (v : Nat) (hs : Scalar v) (f : Nat) (rest : List Byte) :
    unquoteLoop (f + 1) (chunk v ++ rest) = (unquoteLoop f rest).map (encodeRune v ++ ·) := by
  rcases chunk_shape v with ⟨hc, hp⟩ | ⟨_, e, hc, he⟩ | ⟨a, b, c, d, ha, hb, hc', hd, hv, hc⟩
  · rw [hc]
    exact unquoteLoop_plain v hs hp f rest
  · rw [hc]
    exact unquoteLoop_escape e v f rest he
  · rw [hc]
    exact unquoteLoop_escape_u v a b c d hs ha hb hc' hd hv f rest

theorem chunk_length_pos (v : Nat) : 1 ≤ (chunk v).length := by
  rcases chunk_shape v with ⟨hc, _⟩ | ⟨_, e, hc, _⟩ | ⟨a, b, c, d, _, _, _, _, _, hc⟩
  · rw [hc]; exact encodeRune_length_pos v
  · rw [hc]; simp
  · rw [hc]; simp

theorem unquoteLoop_chunks (cs : List Char) :
    ∀ f, (chunks cs).length ≤ f → unquoteLoop f (chunks cs) = some (encodeRunes cs) := by
  induction cs with
  | nil => intro f _; cases f <;> rfl
  | cons c cs ih =>
    intro f hf
    have hpos := chunk_length_pos c.val.toNat
    have hlen : (chunks (c :: cs)).length = (chunk c.val.toNat).length + (chunks cs).length := by
      simp [chunks]
    rw [hlen] at hf
    obtain ⟨g, rfl⟩ : ∃ g, f = g + 1 := ⟨f - 1, by omega⟩
    show unquoteLoop (g + 1) (chunk c.val.toNat ++ chunks cs) = _
    rw [unquoteLoop_chunk _ (scalar_char c), ih g (by omega)]
    rfl

end Kratos.json

namespace Kratos.json

open Kratos

theorem chunks_append (ps qs : List Char) : chunks (ps ++ qs) = chunks ps ++ chunks qs := by
  induction ps with
  | nil => rfl
  | cons c ps ih =>
    show chunk c.val.toNat ++ chunks (ps ++ qs) = (chunk c.val.toNat ++ chunks ps) ++ chunks qs
    rw [ih, List.append_assoc]

theorem encodeRunes_append (ps qs : List Char) :
    encodeRunes (ps ++ qs) = encodeRunes ps ++ encodeRunes qs := by
  induction ps with
  | nil => rfl
  | cons c ps ih =>
    show encodeRune c.val.toNat ++ encodeRunes (ps ++ qs) =
      (encodeRune c.val.toNat ++ encodeRunes ps) ++ encodeRunes qs
    rw [ih, List.append_assoc]

/-- The first loop of `unquoteBytes` stops at the first escaped character: the
characters before it were written unescaped. -/
theorem plainPrefix_chunks (cs : List Char) :
    ∀ f, (chunks cs).length ≤ f → ∃ ps qs, cs = ps ++ qs ∧
      plainPrefix f (chunks cs) = (chunks ps).length ∧ chunks ps = encodeRunes ps := by
  induction cs with
  | nil =>
    intro f _
    exact ⟨[], [], rfl, plainPrefix_nil f, rfl⟩
  | cons c cs ih =>
    intro f hf
    have hpos := chunk_length_pos c.val.toNat
    have hlen : (chunks (c :: cs)).length = (chunk c.val.toNat).length + (chunks cs).length := by
      simp [chunks]
    rw [hlen] at hf
    obtain ⟨g, rfl⟩ : ∃ g, f = g + 1 := ⟨f - 1, by omega⟩
    rcases chunk_shape c.val.toNat with ⟨hc, hp⟩ | ⟨_, e, hc, _⟩ | ⟨a, b, c', d, _, _, _, _, _, hc⟩
    · obtain ⟨ps, qs, hcs, hpl, henc⟩ := ih g (by omega)
      refine ⟨c :: ps, qs, by rw [hcs]; rfl, ?_, ?_⟩
      · show plainPrefix (g + 1) (chunk c.val.toNat ++ chunks cs) = _
        rw [hc, plainPrefix_plain _ (scalar_char c) hp, hpl]
        simp [chunks, hc]
      · show chunk c.val.toNat ++ chunks ps = encodeRune c.val.toNat ++ encodeRunes ps
        rw [hc, henc]
    · refine ⟨[], c :: cs, rfl, ?_, rfl⟩
      show plainPrefix (g + 1) (chunk c.val.toNat ++ chunks cs) = _
      rw [hc]
      exact plainPrefix_backslash _ _
    · refine ⟨[], c :: cs, rfl, ?_, rfl⟩
      show plainPrefix (g + 1) (chunk c.val.toNat ++ chunks cs) = _
      rw [hc]
      exact plainPrefix_backslash _ _

theorem unquoteBytes_quoted_chunks (cs : List Char) :
    unquoteBytes (byte 0x22 :: chunks cs ++ [byte 0x22]) = some (encodeRunes cs) := by
  have hbody : (byte 0x22 :: chunks cs ++ [byte 0x22]).tail.dropLast = chunks cs := by
    simp
  have h1 : ¬ ((byte 0x22 :: chunks cs ++ [byte 0x22]).length < 2 ∨
      (byte 0x22 :: chunks cs ++ [byte 0x22]).head? ≠ some (byte 0x22) ∨
      (byte 0x22 :: chunks cs ++ [byte 0x22]).getLast? ≠ some (byte 0x22)) := by
    have hl : (byte 0x22 :: chunks cs ++ [byte 0x22]).getLast? = some (byte 0x22) := by
      rw [List.getLast?_append]
      rfl
    rw [hl]
    simp
  unfold unquoteBytes
  rw [if_neg h1]
  simp only [hbody]
  obtain ⟨ps, qs, hcs, hpl, henc⟩ := plainPrefix_chunks cs (chunks cs).length (le_refl _)
  have hq := unquoteLoop_chunks qs (chunks cs).length (by rw [hcs, chunks_append]; simp)
  rw [hpl]
  have hsplit : chunks cs = chunks ps ++ chunks qs := by rw [hcs, chunks_append]
  have htake : (chunks cs).take (chunks ps).length = chunks ps := by
    rw [hsplit]; exact List.take_left' rfl
  have hdrop : (chunks cs).drop (chunks ps).length = chunks qs := by
    rw [hsplit]; exact List.drop_left' rfl
  rw [htake, hdrop, hq]
  have hres : chunks ps ++ encodeRunes qs = encodeRunes cs := by
    rw [henc, hcs, encodeRunes_append]
  by_cases hr : (chunks ps).length = (chunks cs).length
  · rw [if_pos hr]
    have hqnil : chunks qs = [] := by
      have : (chunks cs).length = (chunks ps).length + (chunks qs).length := by
        rw [hsplit]; simp
      exact List.length_eq_zero.mp (by omega)
    have hq' := unquoteLoop_chunks qs 0 (by rw [hqnil]; simp)
    rw [hqnil] at hq'
    have hqe : encodeRunes qs = [] := by
      have : unquoteLoop 0 [] = some [] := rfl
      rw [this] at hq'
      exact (Option.some.inj hq').symm
    rw [hsplit, hqnil, List.append_nil, ← hres, hqe, List.append_nil]
  · rw [if_neg hr]
    simp only [Option.map_some', hres]

theorem marshalString_encodeRunes (cs : List Char) :
    marshalString (encodeRunes cs) = byte 0x22 :: chunks cs ++ [byte 0x22] := by
  unfold marshalString
  rw [appendStringLoop_encodeRunes cs _ (le_refl _)]

theorem unmarshalString_marshalString (cs : List Char) (cur : GoString) :
    unmarshalString (marshalString (encodeRunes cs)) cur = .ok (encodeRunes cs) := by
  rw [marshalString_encodeRunes]
  unfold unmarshalString
  rw [checkValid_quoted_chunks]
  have hq : isSpace (byte 0x22) = false := by decide
  have hdw : (byte 0x22 :: chunks cs ++ [byte 0x22]).dropWhile isSpace =
      byte 0x22 :: (chunks cs ++ [byte 0x22]) := by
    rw [List.cons_append, List.dropWhile_cons, hq]
    rfl
  simp only [not_true_eq_false, if_false, hdw]
  have hv : (byte 0x22).val = 0x22 := by decide
  rw [hv]
  simp only [Nat.reduceEqDiff, if_false, if_true, false_or]
  rw [stringLiteralEnd_chunks cs [], List.take_of_length_le (by simp), ← List.cons_append,
    unquoteBytes_quoted_chunks]

end Kratos.json

/-! ## Theorems: the scanner accepts well-formed documents only -/

namespace Kratos.json

open Kratos

theorem eq_byte (c : Byte) (n : Nat) (h : c.val = n) : c = byte n := by
  apply Fin.ext
  have hlt := c.isLt
  show c.val = n % 256
  omega

theorem isSpace_iff (c : Byte) :
    isSpace c = true ↔ (c.val = 0x20 ∨ c.val = 0x09 ∨ c.val = 0x0A ∨ c.val = 0x0D) := by
  unfold isSpace
  simp only [decide_eq_true_eq]
  constructor
  · rintro (h | h | h | h)
    · exact Or.inl h
    · exact Or.inr (Or.inl h)
    · exact Or.inr (Or.inr (Or.inr h))
    · exact Or.inr (Or.inr (Or.inl h))
  · rintro (h | h | h | h)
    · exact Or.inl h
    · exact Or.inr (Or.inl h)
    · exact Or.inr (Or.inr (Or.inr h))
    · exact Or.inr (Or.inr (Or.inl h))

theorem ws_nil : Ws [] := fun _ h => absurd h (List.not_mem_nil _)

theorem ws_cons (c : Byte) (w : List Byte) (hc : isSpace c = true) (hw : Ws w) :
    Ws (c :: w) := by
  intro x hx
  rcases List.mem_cons.1 hx with rfl | hx
  · exact (isSpace_iff _).1 hc
  · exact hw x hx

theorem digits_nil : Digits [] := fun _ h => absurd h (List.not_mem_nil _)

theorem digits_cons (c : Byte) (w : List Byte) (hc : IsDigit c) (hw : Digits w) :
    Digits (c :: w) := by
  intro x hx
  rcases List.mem_cons.1 hx with rfl | hx
  · exact hc
  · exact hw x hx

theorem afterObjectValue_cons_ws (K : List Byte → Prop) (c : Byte) (w : List Byte)
    (hc : isSpace c = true) (h : AfterObjectValue K w) : AfterObjectValue K (c :: w) := by
  obtain ⟨ws, more, tail, he, hws, hm, hk⟩ := h
  exact ⟨c :: ws, more, tail, by rw [he]; rfl, ws_cons c ws hc hws, hm, hk⟩

theorem after_cons_ws (stk : List ParseState) (c : Byte) (w : List Byte)
    (hc : isSpace c = true) (h : After stk w) : After stk (c :: w) := by
  cases stk with
  | nil => exact ws_cons c w hc h
  | cons ps stk =>
    cases ps with
    | arrayValue =>
      obtain ⟨ws, more, tail, he, hws, hm, hk⟩ := h
      exact ⟨c :: ws, more, tail, by rw [he]; rfl, ws_cons c ws hc hws, hm, hk⟩
    | objectValue => exact afterObjectValue_cons_ws _ c w hc h
    | objectKey =>
      obtain ⟨ws2, ws3, v, rest, he, h2, h3, hv, hk⟩ := h
      exact ⟨c :: ws2, ws3, v, rest, by rw [he]; rfl, ws_cons c ws2 hc h2, h3, hv, hk⟩

theorem begin_cons_ws (stk : List ParseState) (c : Byte) (w : List Byte)
    (hc : isSpace c = true) (h : Begin stk w) : Begin stk (c :: w) := by
  obtain ⟨ws, v, rest, he, hws, hv, hk⟩ := h
  exact ⟨c :: ws, v, rest, by rw [he]; rfl, ws_cons c ws hc hws, hv, hk⟩

theorem beginString_cons_ws (stk : List ParseState) (c : Byte) (w : List Byte)
    (hc : isSpace c = true) (h : BeginString stk w) : BeginString stk (c :: w) := by
  obtain ⟨ws, cs, rest, he, hws, hv, hk⟩ := h
  exact ⟨c :: ws, cs, rest, by rw [he]; rfl, ws_cons c ws hc hws, hv, hk⟩

/-- Elements followed by the tail of an array are elements. -/
theorem elements_of_tail (ws1 v ws2 more : List Byte) (h1 : Ws ws1) (hv : Json .value v)
    (h2 : Ws ws2) (hm : ArrTail more) : Json .elements (ws1 ++ (v ++ (ws2 ++ more))) := by
  rcases hm with rfl | ⟨es, rfl, hes⟩
  · rw [List.append_nil]
    exact Json.element ws1 v ws2 h1 hv h2
  · exact Json.elements ws1 v ws2 es h1 hv h2 hes

/-- A member followed by the tail of an object makes members. -/
theorem members_of_tail (ws1 k ws2 ws3 v ws4 more : List Byte) (h1 : Ws ws1) (hk : Chars k)
    (h2 : Ws ws2) (h3 : Ws ws3) (hv : Json .value v) (h4 : Ws ws4) (hm : ObjTail more) :
    Json .members
      (ws1 ++ (byte 0x22 :: (k ++ (byte 0x22 :: (ws2 ++ (byte 0x3A :: (ws3 ++ (v ++
        (ws4 ++ more))))))))) := by
  rcases hm with rfl | ⟨ms, rfl, hms⟩
  · rw [List.append_nil]
    exact Json.member ws1 k ws2 ws3 v ws4 h1 hk h2 h3 hv h4
  · exact Json.members ws1 k ws2 ws3 v ws4 ms h1 hk h2 h3 hv h4 hms

theorem popParseState_sound (s : Scanner) (w : List Byte)
    (h : Expected s.popParseState.step s.popParseState.parseState w) :
    After s.parseState.tail w := by
  unfold Scanner.popParseState at h
  by_cases hl : s.parseState.length - 1 = 0
  · rw [if_pos hl] at h
    have ht : s.parseState.tail = [] := by
      apply List.eq_nil_of_length_eq_zero
      rw [List.length_tail]
      exact hl
    rw [ht]
    exact h
  · rw [if_neg hl] at h
    exact h

theorem popParseState_err (s : Scanner) : s.popParseState.err = s.err := by
  unfold Scanner.popParseState
  split_ifs <;> rfl

theorem stateEndValue_sound (s : Scanner) (c : Byte) (w : List Byte)
    (herr : (stateEndValue s c).err = false)
    (h : Expected (stateEndValue s c).step (stateEndValue s c).parseState w) :
    After s.parseState (c :: w) := by
  unfold stateEndValue at herr h
  cases hstk : s.parseState with
  | nil =>
    rw [hstk] at herr h
    simp only [stateEndTop] at herr h
    by_cases hc : isSpace c = true
    · simp only [hc, not_true_eq_false, if_false] at h
      exact ws_cons c w hc h
    · simp only [hc, not_false_eq_true, if_true, Scanner.error] at herr
      cases herr
  | cons ps rest =>
    rw [hstk] at herr h
    simp only at herr h
    by_cases hc : isSpace c = true
    · simp only [hc, if_true] at h
      exact after_cons_ws _ c w hc (hstk ▸ h)
    · simp only [hc, Bool.false_eq_true, if_false] at herr h
      cases ps with
      | objectKey =>
        simp only at herr h
        by_cases h3 : c.val = 0x3A
        · simp only [h3, if_true] at h
          obtain ⟨ws, v, r, he, hws, hv, hk⟩ := h
          refine ⟨[], ws, v, r, ?_, ws_nil, hws, hv, hk⟩
          rw [he, eq_byte c _ h3]
          rfl
        · simp only [h3, if_false, Scanner.error] at herr
          cases herr
      | objectValue =>
        simp only at herr h
        by_cases h3 : c.val = 0x2C
        · simp only [h3, if_true] at h
          obtain ⟨ws, cs, r, he, hws, hcs, ws2, ws3, v, r2, he2, h2, h3', hv, ws4, more, tail,
            he3, h4, hm, hk⟩ := h
          refine ⟨[], byte 0x2C :: (ws ++ (byte 0x22 :: (cs ++ (byte 0x22 :: (ws2 ++
            (byte 0x3A :: (ws3 ++ (v ++ (ws4 ++ more))))))))), tail, ?_, ws_nil,
            Or.inr ⟨_, rfl, members_of_tail ws cs ws2 ws3 v ws4 more hws hcs h2 h3' hv h4 hm⟩,
            hk⟩
          rw [he, he2, he3, eq_byte c _ h3]
          simp
        · simp only [h3, if_false] at herr h
          by_cases h4 : c.val = 0x7D
          · simp only [h4, if_true] at h
            have hp := popParseState_sound s w h
            rw [hstk] at hp
            refine ⟨[], [], w, ?_, ws_nil, Or.inl rfl, hp⟩
            rw [eq_byte c _ h4]
            rfl
          · simp only [h4, if_false, Scanner.error] at herr
            cases herr
      | arrayValue =>
        simp only at herr h
        by_cases h3 : c.val = 0x2C
        · simp only [h3, if_true] at h
          obtain ⟨ws, v, r, he, hws, hv, ws2, more, tail, he2, h2, hm, hk⟩ := h
          refine ⟨[], byte 0x2C :: (ws ++ (v ++ (ws2 ++ more))), tail, ?_, ws_nil,
            Or.inr ⟨_, rfl, elements_of_tail ws v ws2 more hws hv h2 hm⟩, hk⟩
          rw [he, he2, eq_byte c _ h3]
          simp
        · simp only [h3, if_false] at herr h
          by_cases h4 : c.val = 0x5D
          · simp only [h4, if_true] at h
            have hp := popParseState_sound s w h
            rw [hstk] at hp
            refine ⟨[], [], w, ?_, ws_nil, Or.inl rfl, hp⟩
            rw [eq_byte c _ h4]
            rfl
          · simp only [h4, if_false, Scanner.error] at herr
            cases herr

end Kratos.json

namespace Kratos.json

open Kratos

theorem pushParseState_ok (s : Scanner) (ps : ParseState) (next : Step)
    (herr : (s.pushParseState ps next).err = false) :
    s.pushParseState ps next = { s with step := next, parseState := ps :: s.parseState } := by
  unfold Scanner.pushParseState at herr ⊢
  by_cases hd : s.parseState.length + 1 ≤ maxNestingDepth
  · rw [if_pos hd]
  · rw [if_neg hd] at herr
    cases herr

theorem number_neg (t : List Byte) (h : NumTail .neg t) : Number (byte 0x2D :: t) := by
  obtain ⟨i, f, e, rfl, hi, hf, he⟩ := h
  exact ⟨[byte 0x2D], i, f, e, rfl, Or.inr rfl, hi, hf, he⟩

theorem number_zero (t : List Byte) (h : NumTail .zero t) : Number (byte 0x30 :: t) := by
  obtain ⟨f, e, rfl, hf, he⟩ := h
  exact ⟨[], [byte 0x30], f, e, rfl, Or.inl rfl, Or.inl rfl, hf, he⟩

theorem number_one (d : Byte) (t : List Byte) (h1 : 0x31 ≤ d.val) (h2 : d.val ≤ 0x39)
    (h : NumTail .one t) : Number (d :: t) := by
  obtain ⟨ds, f, e, rfl, hds, hf, he⟩ := h
  exact ⟨[], d :: ds, f, e, rfl, Or.inl rfl, Or.inr ⟨d, ds, rfl, h1, h2, hds⟩, hf, he⟩

theorem begin_of_number (stk : List ParseState) (step : Step) (c : Byte) (w : List Byte)
    (h : InNumber step stk w) (hn : ∀ t, NumTail step t → Number (c :: t)) :
    Begin stk (c :: w) := by
  obtain ⟨t, rest, rfl, ht, hk⟩ := h
  exact ⟨[], c :: t, rest, rfl, ws_nil, Json.number _ (hn t ht), hk⟩

theorem stateBeginValue_sound (s : Scanner) (c : Byte) (w : List Byte)
    (hc : isSpace c = false) (herr : (stateBeginValue s c).err = false)
    (h : Expected (stateBeginValue s c).step (stateBeginValue s c).parseState w) :
    Begin s.parseState (c :: w) := by
  unfold stateBeginValue at herr h
  simp only [hc, Bool.false_eq_true, if_false] at herr h
  by_cases h1 : c.val = 0x7B
  · simp only [h1, if_true] at herr h
    rw [pushParseState_ok s _ _ herr] at h
    rw [eq_byte c _ h1]
    rcases h with ⟨ws, cs, r, he, hws, hcs, ws2, ws3, v, r2, he2, h2, h3, hv, ws4, more, tail,
      he3, h4, hm, hk⟩ | ⟨ws, tail, he, hws, hk⟩
    · refine ⟨[], byte 0x7B :: ((ws ++ (byte 0x22 :: (cs ++ (byte 0x22 :: (ws2 ++
        (byte 0x3A :: (ws3 ++ (v ++ (ws4 ++ more))))))))) ++ [byte 0x7D]), tail, ?_, ws_nil,
        Json.object _ (members_of_tail ws cs ws2 ws3 v ws4 more hws hcs h2 h3 hv h4 hm), hk⟩
      rw [he, he2, he3]
      simp
    · refine ⟨[], byte 0x7B :: (ws ++ [byte 0x7D]), tail, ?_, ws_nil,
        Json.emptyObject ws hws, hk⟩
      rw [he]
      simp
  · simp only [h1, if_false] at herr h
    by_cases h2 : c.val = 0x5B
    · simp only [h2, if_true] at herr h
      rw [pushParseState_ok s _ _ herr] at h
      rw [eq_byte c _ h2]
      rcases h with ⟨ws, v, r, he, hws, hv, ws2, more, tail, he2, hw2, hm, hk⟩ |
        ⟨stk1, ws, tail, hstk, he, hws, hk⟩
      · refine ⟨[], byte 0x5B :: ((ws ++ (v ++ (ws2 ++ more))) ++ [byte 0x5D]), tail, ?_,
          ws_nil, Json.array _ (elements_of_tail ws v ws2 more hws hv hw2 hm), hk⟩
        rw [he, he2]
        simp
      · have hs1 : s.parseState = stk1 := (List.cons.inj hstk).2
        refine ⟨[], byte 0x5B :: (ws ++ [byte 0x5D]), tail, ?_, ws_nil,
          Json.emptyArray ws hws, hs1 ▸ hk⟩
        rw [he]
        simp
    · simp only [h2, if_false] at herr h
      by_cases h3 : c.val = 0x22
      · simp only [h3, if_true] at h
        obtain ⟨hs, cs, rest, he, hl, _, hcs, hk⟩ := h
        have hnil : hs = [] := List.eq_nil_of_length_eq_zero hl
        subst hnil
        refine ⟨[], byte 0x22 :: (cs ++ [byte 0x22]), rest, ?_, ws_nil, Json.string cs hcs, hk⟩
        rw [he, eq_byte c _ h3]
        simp
      · simp only [h3, if_false] at herr h
        by_cases h4 : c.val = 0x2D
        · simp only [h4, if_true] at h
          rw [eq_byte c _ h4]
          exact begin_of_number _ .neg _ w h number_neg
        · simp only [h4, if_false] at herr h
          by_cases h5 : c.val = 0x30
          · simp only [h5, if_true] at h
            rw [eq_byte c _ h5]
            exact begin_of_number _ .zero _ w h number_zero
          · simp only [h5, if_false] at herr h
            by_cases h6 : c.val = 0x74
            · simp only [h6, if_true] at h
              obtain ⟨rest, rfl, hk⟩ := h
              rw [eq_byte c _ h6]
              exact ⟨[], _, rest, rfl, ws_nil, Json.litTrue, hk⟩
            · simp only [h6, if_false] at herr h
              by_cases h7 : c.val = 0x66
              · simp only [h7, if_true] at h
                obtain ⟨rest, rfl, hk⟩ := h
                rw [eq_byte c _ h7]
                exact ⟨[], _, rest, rfl, ws_nil, Json.litFalse, hk⟩
              · simp only [h7, if_false] at herr h
                by_cases h8 : c.val = 0x6E
                · simp only [h8, if_true] at h
                  obtain ⟨rest, rfl, hk⟩ := h
                  rw [eq_byte c _ h8]
                  exact ⟨[], _, rest, rfl, ws_nil, Json.litNull, hk⟩
                · simp only [h8, if_false] at herr h
                  by_cases h9 : 0x31 ≤ c.val ∧ c.val ≤ 0x39
                  · simp only [h9, and_self, if_true] at h
                    exact begin_of_number _ .one _ w h
                      (fun t ht => number_one c t h9.1 h9.2 ht)
                  · simp only [h9, if_false, Scanner.error] at herr
                    cases herr

end Kratos.json

namespace Kratos.json

open Kratos

theorem isDigit_iff (c : Byte) : isDigit c = true ↔ IsDigit c := by
  unfold isDigit IsDigit
  simp

theorem isHex_iff (c : Byte) : isHex c = true ↔ IsHexDigit c := by
  unfold isHex IsHexDigit
  simp only [decide_eq_true_eq]
  constructor
  · rintro (h | h | h)
    · exact Or.inl h
    · exact Or.inr (Or.inr h)
    · exact Or.inr (Or.inl h)
  · rintro (h | h | h)
    · exact Or.inl h
    · exact Or.inr (Or.inr h)
    · exact Or.inr (Or.inl h)

theorem stateEndValue_closeArray (s : Scanner) (c : Byte) (w : List Byte) (hc : c.val = 0x5D)
    (herr : (stateEndValue s c).err = false)
    (h : Expected (stateEndValue s c).step (stateEndValue s c).parseState w) :
    ∃ stk1, s.parseState = .arrayValue :: stk1 ∧ After stk1 w := by
  have hsp : isSpace c = false := by
    unfold isSpace
    simp [hc]
  unfold stateEndValue at herr h
  cases hstk : s.parseState with
  | nil =>
    rw [hstk] at herr
    simp only [stateEndTop, hsp, Bool.false_eq_true, not_false_eq_true, if_true,
      Scanner.error] at herr
    cases herr
  | cons ps rest =>
    rw [hstk] at herr h
    simp only [hsp, Bool.false_eq_true, if_false] at herr h
    cases ps with
    | objectKey =>
      simp only [hc, Nat.reduceEqDiff, if_false, Scanner.error] at herr
      cases herr
    | objectValue =>
      simp only [hc, Nat.reduceEqDiff, if_false, Scanner.error] at herr
      cases herr
    | arrayValue =>
      simp only [hc, Nat.reduceEqDiff, if_false, if_true] at herr h
      have hp := popParseState_sound s w h
      rw [hstk] at hp
      exact ⟨rest, rfl, hp⟩

theorem stateEndValue_closeObject (s : Scanner) (c : Byte) (w : List Byte)
    (tl : List ParseState) (hc : c.val = 0x7D)
    (h : Expected (stateEndValue { s with parseState := .objectValue :: tl } c).step
      (stateEndValue { s with parseState := .objectValue :: tl } c).parseState w) :
    After tl w := by
  have hsp : isSpace c = false := by
    unfold isSpace
    simp [hc]
  unfold stateEndValue at h
  simp only [hsp, Bool.false_eq_true, if_false, hc, Nat.reduceEqDiff, if_true] at h
  exact popParseState_sound _ w h

theorem hexThen_succ (n : Nat) (stk : List ParseState) (c : Byte) (w : List Byte)
    (hc : IsHexDigit c) (h : HexThen n stk w) : HexThen (n + 1) stk (c :: w) := by
  obtain ⟨hs, cs, rest, rfl, hl, hh, hcs, hk⟩ := h
  refine ⟨c :: hs, cs, rest, rfl, by simp [hl], ?_, hcs, hk⟩
  intro x hx
  rcases List.mem_cons.1 hx with rfl | hx
  · exact hc
  · exact hh x hx

theorem hexThen_unescaped (stk : List ParseState) (c : Byte) (w : List Byte)
    (h1 : 0x20 ≤ c.val) (h2 : c.val ≠ 0x22) (h3 : c.val ≠ 0x5C) (h : HexThen 0 stk w) :
    HexThen 0 stk (c :: w) := by
  obtain ⟨hs, cs, rest, rfl, hl, hh, hcs, hk⟩ := h
  have hnil : hs = [] := List.eq_nil_of_length_eq_zero hl
  subst hnil
  exact ⟨[], c :: cs, rest, rfl, rfl, hh, Chars.unescaped c cs h1 h2 h3 hcs, hk⟩

theorem hexThen_close (stk : List ParseState) (w : List Byte) (h : After stk w) :
    HexThen 0 stk (byte 0x22 :: w) :=
  ⟨[], [], w, rfl, rfl, fun _ hx => absurd hx (List.not_mem_nil _), Chars.nil, h⟩

theorem hexThen_escaped (stk : List ParseState) (w : List Byte)
    (h : Expected .inStringEsc stk w) : HexThen 0 stk (byte 0x5C :: w) := by
  obtain ⟨e, w1, rfl, ⟨he, hs, cs, rest, rfl, hl, hh, hcs, hk⟩ |
    ⟨he, hs, cs, rest, rfl, hl, hh, hcs, hk⟩⟩ := h
  · have hnil : hs = [] := List.eq_nil_of_length_eq_zero hl
    subst hnil
    exact ⟨[], byte 0x5C :: e :: cs, rest, rfl, rfl, hh, Chars.escape e cs he hcs, hk⟩
  · match hs, hl, hh with
    | [h1, h2, h3, h4], _, hh =>
      refine ⟨[], byte 0x5C :: byte 0x75 :: h1 :: h2 :: h3 :: h4 :: cs, rest, ?_, rfl,
        fun _ hx => absurd hx (List.not_mem_nil _),
        Chars.unicode h1 h2 h3 h4 cs (hh h1 (by simp)) (hh h2 (by simp)) (hh h3 (by simp))
          (hh h4 (by simp)) hcs, hk⟩
      rw [eq_byte e _ he]
      rfl

theorem inNumber_cons (a b : Step) (stk : List ParseState) (c : Byte) (w : List Byte)
    (hn : ∀ t, NumTail a t → NumTail b (c :: t)) (h : InNumber a stk w) :
    InNumber b stk (c :: w) := by
  obtain ⟨t, rest, rfl, ht, hk⟩ := h
  exact ⟨c :: t, rest, rfl, hn t ht, hk⟩

theorem inNumber_done (b : Step) (stk : List ParseState) (w : List Byte)
    (hn : NumTail b []) (h : After stk w) : InNumber b stk w :=
  ⟨[], w, rfl, hn, h⟩

theorem inLiteral_cons (rem : List Byte) (stk : List ParseState) (c : Byte) (n : Nat)
    (w : List Byte) (hc : c.val = n) (h : InLiteral rem stk w) :
    InLiteral (byte n :: rem) stk (c :: w) := by
  obtain ⟨rest, rfl, hk⟩ := h
  exact ⟨rest, by rw [eq_byte c n hc]; rfl, hk⟩

theorem inLiteral_last (stk : List ParseState) (c : Byte) (n : Nat) (w : List Byte)
    (hc : c.val = n) (h : After stk w) : InLiteral [byte n] stk (c :: w) :=
  ⟨w, by rw [eq_byte c n hc]; rfl, h⟩

theorem nt_zero_nil : NumTail .zero [] := ⟨[], [], rfl, Or.inl rfl, Or.inl rfl⟩

theorem nt_one_nil : NumTail .one [] :=
  ⟨[], [], [], rfl, digits_nil, Or.inl rfl, Or.inl rfl⟩

theorem nt_dot0_nil : NumTail .dot0 [] := ⟨[], [], rfl, digits_nil, Or.inl rfl⟩

theorem nt_e0_nil : NumTail .e0 [] := digits_nil

theorem nt_neg_zero (t : List Byte) (h : NumTail .zero t) : NumTail .neg (byte 0x30 :: t) := by
  obtain ⟨f, e, rfl, hf, he⟩ := h
  exact ⟨[byte 0x30], f, e, rfl, Or.inl rfl, hf, he⟩

theorem nt_neg_one (c : Byte) (t : List Byte) (h1 : 0x31 ≤ c.val) (h2 : c.val ≤ 0x39)
    (h : NumTail .one t) : NumTail .neg (c :: t) := by
  obtain ⟨ds, f, e, rfl, hds, hf, he⟩ := h
  exact ⟨c :: ds, f, e, rfl, Or.inr ⟨c, ds, rfl, h1, h2, hds⟩, hf, he⟩

theorem frac_of_dot (t : List Byte) (h : NumTail .dot t) :
    ∃ f e, byte 0x2E :: t = f ++ e ∧ FracPart f ∧ ExpPart e := by
  obtain ⟨d, ds, e, rfl, hd, hds, he⟩ := h
  exact ⟨byte 0x2E :: d :: ds, e, rfl, Or.inr ⟨d, ds, rfl, hd, hds⟩, he⟩

theorem exp_of_e (c : Byte) (t : List Byte) (hc : c.val = 0x65 ∨ c.val = 0x45)
    (h : NumTail .e t) : ExpPart (c :: t) := by
  obtain ⟨sign, d, ds, rfl, hs, hd, hds⟩ := h
  exact Or.inr ⟨c, sign, d, ds, rfl, hc, hs, hd, hds⟩

theorem nt_zero_dot (t : List Byte) (h : NumTail .dot t) : NumTail .zero (byte 0x2E :: t) :=
  frac_of_dot t h

theorem nt_zero_e (c : Byte) (t : List Byte) (hc : c.val = 0x65 ∨ c.val = 0x45)
    (h : NumTail .e t) : NumTail .zero (c :: t) :=
  ⟨[], c :: t, rfl, Or.inl rfl, exp_of_e c t hc h⟩

theorem nt_one_digit (c : Byte) (t : List Byte) (hc : IsDigit c) (h : NumTail .one t) :
    NumTail .one (c :: t) := by
  obtain ⟨ds, f, e, rfl, hds, hf, he⟩ := h
  exact ⟨c :: ds, f, e, rfl, digits_cons c ds hc hds, hf, he⟩

theorem nt_one_dot (t : List Byte) (h : NumTail .dot t) : NumTail .one (byte 0x2E :: t) := by
  obtain ⟨f, e, he, hf, hx⟩ := frac_of_dot t h
  exact ⟨[], f, e, he, digits_nil, hf, hx⟩

theorem nt_one_e (c : Byte) (t : List Byte) (hc : c.val = 0x65 ∨ c.val = 0x45)
    (h : NumTail .e t) : NumTail .one (c :: t) :=
  ⟨[], [], c :: t, rfl, digits_nil, Or.inl rfl, exp_of_e c t hc h⟩

theorem nt_dot_digit (c : Byte) (t : List Byte) (hc : IsDigit c) (h : NumTail .dot0 t) :
    NumTail .dot (c :: t) := by
  obtain ⟨ds, e, rfl, hds, he⟩ := h
  exact ⟨c, ds, e, rfl, hc, hds, he⟩

theorem nt_dot0_digit (c : Byte) (t : List Byte) (hc : IsDigit c) (h : NumTail .dot0 t) :
    NumTail .dot0 (c :: t) := by
  obtain ⟨ds, e, rfl, hds, he⟩ := h
  exact ⟨c :: ds, e, rfl, digits_cons c ds hc hds, he⟩

theorem nt_dot0_e (c : Byte) (t : List Byte) (hc : c.val = 0x65 ∨ c.val = 0x45)
    (h : NumTail .e t) : NumTail .dot0 (c :: t) :=
  ⟨[], c :: t, rfl, digits_nil, exp_of_e c t hc h⟩

theorem nt_e_sign (c : Byte) (t : List Byte) (hc : c.val = 0x2B ∨ c.val = 0x2D)
    (h : NumTail .eSign t) : NumTail .e (c :: t) := by
  obtain ⟨d, ds, rfl, hd, hds⟩ := h
  refine ⟨[c], d, ds, rfl, ?_, hd, hds⟩
  rcases hc with hc | hc
  · exact Or.inr (Or.inl (by rw [eq_byte c _ hc]))
  · exact Or.inr (Or.inr (by rw [eq_byte c _ hc]))

theorem nt_e_digit (c : Byte) (t : List Byte) (hc : IsDigit c) (h : NumTail .e0 t) :
    NumTail .e (c :: t) :=
  ⟨[], c, t, rfl, Or.inl rfl, hc, h⟩

theorem nt_eSign_digit (c : Byte) (t : List Byte) (hc : IsDigit c) (h : NumTail .e0 t) :
    NumTail .eSign (c :: t) :=
  ⟨c, t, rfl, hc, h⟩

theorem nt_e0_digit (c : Byte) (t : List Byte) (hc : IsDigit c) (h : NumTail .e0 t) :
    NumTail .e0 (c :: t) :=
  digits_cons c t hc h

end Kratos.json

namespace Kratos.json

open Kratos

theorem sound_beginValue (s : Scanner) (c : Byte) (w : List Byte)
    (hstep : s.step = .beginValue) (herr : (stateBeginValue s c).err = false)
    (h : Expected (stateBeginValue s c).step (stateBeginValue s c).parseState w) :
    Begin s.parseState (c :: w) := by
  by_cases hc : isSpace c = true
  · have hs : stateBeginValue s c = s := by
      unfold stateBeginValue
      simp only [hc, if_true]
    rw [hs, hstep] at h
    exact begin_cons_ws _ c w hc h
  · exact stateBeginValue_sound s c w (by simpa using hc) herr h

theorem sound_beginValueOrEmpty (s : Scanner) (c : Byte) (w : List Byte)
    (hstep : s.step = .beginValueOrEmpty) (herr : (stateBeginValueOrEmpty s c).err = false)
    (h : Expected (stateBeginValueOrEmpty s c).step (stateBeginValueOrEmpty s c).parseState w) :
    Expected .beginValueOrEmpty s.parseState (c :: w) := by
  unfold stateBeginValueOrEmpty at herr h
  by_cases hc : isSpace c = true
  · simp only [hc, if_true] at h
    rw [hstep] at h
    rcases h with h | ⟨stk1, ws, tail, hstk, he, hws, hk⟩
    · exact Or.inl (begin_cons_ws _ c w hc h)
    · exact Or.inr ⟨stk1, c :: ws, tail, hstk, by rw [he]; rfl, ws_cons c ws hc hws, hk⟩
  · simp only [hc, Bool.false_eq_true, if_false] at herr h
    by_cases h1 : c.val = 0x5D
    · simp only [h1, if_true] at herr h
      obtain ⟨stk1, hstk, hk⟩ := stateEndValue_closeArray s c w h1 herr h
      exact Or.inr ⟨stk1, [], w, hstk, by rw [eq_byte c _ h1]; rfl, ws_nil, hk⟩
    · simp only [h1, if_false] at herr h
      exact Or.inl (stateBeginValue_sound s c w (by simpa using hc) herr h)

theorem stateBeginString_sound (s : Scanner) (c : Byte) (w : List Byte)
    (hc : isSpace c = false) (herr : (stateBeginString s c).err = false)
    (h : Expected (stateBeginString s c).step (stateBeginString s c).parseState w) :
    BeginString s.parseState (c :: w) := by
  unfold stateBeginString at herr h
  simp only [hc, Bool.false_eq_true, if_false] at herr h
  by_cases h1 : c.val = 0x22
  · simp only [h1, if_true] at h
    obtain ⟨hs, cs, rest, he, hl, _, hcs, hk⟩ := h
    have hnil : hs = [] := List.eq_nil_of_length_eq_zero hl
    subst hnil
    exact ⟨[], cs, rest, by rw [he, eq_byte c _ h1]; rfl, ws_nil, hcs, hk⟩
  · simp only [h1, if_false, Scanner.error] at herr
    cases herr

theorem sound_beginString (s : Scanner) (c : Byte) (w : List Byte)
    (hstep : s.step = .beginString) (herr : (stateBeginString s c).err = false)
    (h : Expected (stateBeginString s c).step (stateBeginString s c).parseState w) :
    BeginString s.parseState (c :: w) := by
  by_cases hc : isSpace c = true
  · have hs : stateBeginString s c = s := by
      unfold stateBeginString
      simp only [hc, if_true]
    rw [hs, hstep] at h
    exact beginString_cons_ws _ c w hc h
  · exact stateBeginString_sound s c w (by simpa using hc) herr h

theorem sound_beginStringOrEmpty (s : Scanner) (c : Byte) (w : List Byte)
    (hstep : s.step = .beginStringOrEmpty) (herr : (stateBeginStringOrEmpty s c).err = false)
    (h : Expected (stateBeginStringOrEmpty s c).step
      (stateBeginStringOrEmpty s c).parseState w) :
    Expected .beginStringOrEmpty s.parseState (c :: w) := by
  unfold stateBeginStringOrEmpty at herr h
  by_cases hc : isSpace c = true
  · simp only [hc, if_true] at h
    rw [hstep] at h
    rcases h with h | ⟨ws, tail, he, hws, hk⟩
    · exact Or.inl (beginString_cons_ws _ c w hc h)
    · exact Or.inr ⟨c :: ws, tail, by rw [he]; rfl, ws_cons c ws hc hws, hk⟩
  · simp only [hc, Bool.false_eq_true, if_false] at herr h
    by_cases h1 : c.val = 0x7D
    · simp only [h1, if_true] at herr h
      have hk := stateEndValue_closeObject s c w s.parseState.tail h1 h
      exact Or.inr ⟨[], w, by rw [eq_byte c _ h1]; rfl, ws_nil, hk⟩
    · simp only [h1, if_false] at herr h
      exact Or.inl (stateBeginString_sound s c w (by simpa using hc) herr h)

theorem sound_endTop (s : Scanner) (c : Byte) (w : List Byte)
    (hstep : s.step = .endTop) (herr : (stateEndTop s c).err = false)
    (h : Expected (stateEndTop s c).step (stateEndTop s c).parseState w) : Ws (c :: w) := by
  unfold stateEndTop at herr h
  by_cases hc : isSpace c = true
  · simp only [hc, not_true_eq_false, if_false] at h
    rw [hstep] at h
    exact ws_cons c w hc h
  · simp only [hc, not_false_eq_true, if_true, Scanner.error] at herr
    cases herr

theorem sound_inString (s : Scanner) (c : Byte) (w : List Byte)
    (hstep : s.step = .inString) (herr : (stateInString s c).err = false)
    (h : Expected (stateInString s c).step (stateInString s c).parseState w) :
    HexThen 0 s.parseState (c :: w) := by
  unfold stateInString at herr h
  by_cases h1 : c.val = 0x22
  · simp only [h1, if_true] at h
    rw [eq_byte c _ h1]
    exact hexThen_close _ w h
  · simp only [h1, if_false] at herr h
    by_cases h2 : c.val = 0x5C
    · simp only [h2, if_true] at h
      rw [eq_byte c _ h2]
      exact hexThen_escaped _ w h
    · simp only [h2, if_false] at herr h
      by_cases h3 : c.val < 0x20
      · simp only [h3, if_true, Scanner.error] at herr
        cases herr
      · simp only [h3, if_false] at h
        rw [hstep] at h
        exact hexThen_unescaped _ c w (by omega) h1 h2 h

theorem sound_inStringEsc (s : Scanner) (c : Byte) (w : List Byte)
    (herr : (stateInStringEsc s c).err = false)
    (h : Expected (stateInStringEsc s c).step (stateInStringEsc s c).parseState w) :
    Expected .inStringEsc s.parseState (c :: w) := by
  unfold stateInStringEsc at herr h
  by_cases h1 : c.val = 0x62 ∨ c.val = 0x66 ∨ c.val = 0x6E ∨ c.val = 0x72 ∨ c.val = 0x74 ∨
      c.val = 0x5C ∨ c.val = 0x2F ∨ c.val = 0x22
  · rw [if_pos h1] at h
    refine ⟨c, w, rfl, Or.inl ⟨?_, h⟩⟩
    rcases h1 with h1 | h1 | h1 | h1 | h1 | h1 | h1 | h1 <;> simp [h1]
  · rw [if_neg h1] at herr h
    by_cases h2 : c.val = 0x75
    · rw [if_pos h2] at h
      exact ⟨c, w, rfl, Or.inr ⟨h2, h⟩⟩
    · rw [if_neg h2] at herr
      cases herr

theorem sound_hex (s : Scanner) (c : Byte) (w : List Byte) (next : Step) (n : Nat)
    (hnext : ∀ stk v, Expected next stk v = HexThen n stk v)
    (herr : (stateInStringEscHex next s c).err = false)
    (h : Expected (stateInStringEscHex next s c).step
      (stateInStringEscHex next s c).parseState w) :
    HexThen (n + 1) s.parseState (c :: w) := by
  unfold stateInStringEscHex at herr h
  by_cases h1 : isHex c = true
  · simp only [h1, if_true] at h
    rw [hnext] at h
    exact hexThen_succ n _ c w ((isHex_iff c).1 h1) h
  · simp only [h1, Bool.false_eq_true, if_false, Scanner.error] at herr
    cases herr

theorem sound_literal (s : Scanner) (c : Byte) (w : List Byte) (expected : Nat) (next : Step)
    (rem : List Byte)
    (hnext : ∀ stk v, Expected next stk v → InLiteral rem stk v ∨ (rem = [] ∧ After stk v))
    (herr : (stateLiteral expected next s c).err = false)
    (h : Expected (stateLiteral expected next s c).step
      (stateLiteral expected next s c).parseState w) :
    InLiteral (byte expected :: rem) s.parseState (c :: w) := by
  unfold stateLiteral at herr h
  by_cases h1 : c.val = expected
  · simp only [h1, if_true] at h
    rcases hnext _ _ h with h | ⟨hr, h⟩
    · exact inLiteral_cons rem _ c expected w h1 h
    · rw [hr]
      exact inLiteral_last _ c expected w h1 h
  · simp only [h1, if_false, Scanner.error] at herr
    cases herr

theorem sound_neg (s : Scanner) (c : Byte) (w : List Byte)
    (herr : (stateNeg s c).err = false)
    (h : Expected (stateNeg s c).step (stateNeg s c).parseState w) :
    InNumber .neg s.parseState (c :: w) := by
  unfold stateNeg at herr h
  by_cases h1 : c.val = 0x30
  · simp only [h1, if_true] at h
    rw [eq_byte c _ h1]
    exact inNumber_cons .zero .neg _ _ w nt_neg_zero h
  · simp only [h1, if_false] at herr h
    by_cases h2 : 0x31 ≤ c.val ∧ c.val ≤ 0x39
    · simp only [h2, and_self, if_true] at h
      exact inNumber_cons .one .neg _ c w (fun t ht => nt_neg_one c t h2.1 h2.2 ht) h
    · simp only [h2, if_false, Scanner.error] at herr
      cases herr

theorem sound_zero (s : Scanner) (c : Byte) (w : List Byte) (b : Step)
    (hdot : ∀ t, NumTail .dot t → NumTail b (byte 0x2E :: t))
    (he : ∀ t, c.val = 0x65 ∨ c.val = 0x45 → NumTail .e t → NumTail b (c :: t))
    (hnil : NumTail b [])
    (herr : (state0 s c).err = false)
    (h : Expected (state0 s c).step (state0 s c).parseState w) :
    InNumber b s.parseState (c :: w) := by
  unfold state0 at herr h
  by_cases h1 : c.val = 0x2E
  · simp only [h1, if_true] at h
    rw [eq_byte c _ h1]
    exact inNumber_cons .dot b _ _ w hdot h
  · simp only [h1, if_false] at herr h
    by_cases h2 : c.val = 0x65 ∨ c.val = 0x45
    · rw [if_pos h2] at h
      exact inNumber_cons .e b _ c w (fun t ht => he t h2 ht) h
    · rw [if_neg h2] at herr h
      exact inNumber_done b _ _ hnil (stateEndValue_sound s c w herr h)

theorem sound_one (s : Scanner) (c : Byte) (w : List Byte)
    (herr : (state1 s c).err = false)
    (h : Expected (state1 s c).step (state1 s c).parseState w) :
    InNumber .one s.parseState (c :: w) := by
  unfold state1 at herr h
  by_cases h1 : isDigit c = true
  · simp only [h1, if_true] at h
    exact inNumber_cons .one .one _ c w
      (fun t ht => nt_one_digit c t ((isDigit_iff c).1 h1) ht) h
  · simp only [h1, Bool.false_eq_true, if_false] at herr h
    exact sound_zero s c w .one nt_one_dot (fun t hc ht => nt_one_e c t hc ht) nt_one_nil
      herr h

theorem sound_dot (s : Scanner) (c : Byte) (w : List Byte)
    (herr : (stateDot s c).err = false)
    (h : Expected (stateDot s c).step (stateDot s c).parseState w) :
    InNumber .dot s.parseState (c :: w) := by
  unfold stateDot at herr h
  by_cases h1 : isDigit c = true
  · simp only [h1, if_true] at h
    exact inNumber_cons .dot0 .dot _ c w
      (fun t ht => nt_dot_digit c t ((isDigit_iff c).1 h1) ht) h
  · simp only [h1, Bool.false_eq_true, if_false, Scanner.error] at herr
    cases herr

theorem sound_dot0 (s : Scanner) (c : Byte) (w : List Byte)
    (hstep : s.step = .dot0) (herr : (stateDot0 s c).err = false)
    (h : Expected (stateDot0 s c).step (stateDot0 s c).parseState w) :
    InNumber .dot0 s.parseState (c :: w) := by
  unfold stateDot0 at herr h
  by_cases h1 : isDigit c = true
  · simp only [h1, if_true] at h
    rw [hstep] at h
    exact inNumber_cons .dot0 .dot0 _ c w
      (fun t ht => nt_dot0_digit c t ((isDigit_iff c).1 h1) ht) h
  · simp only [h1, Bool.false_eq_true, if_false] at herr h
    by_cases h2 : c.val = 0x65 ∨ c.val = 0x45
    · rw [if_pos h2] at h
      exact inNumber_cons .e .dot0 _ c w (fun t ht => nt_dot0_e c t h2 ht) h
    · rw [if_neg h2] at herr h
      exact inNumber_done .dot0 _ _ nt_dot0_nil (stateEndValue_sound s c w herr h)

theorem sound_eSign (s : Scanner) (c : Byte) (w : List Byte) (b : Step)
    (hb : ∀ t, IsDigit c → NumTail .e0 t → NumTail b (c :: t))
    (herr : (stateESign s c).err = false)
    (h : Expected (stateESign s c).step (stateESign s c).parseState w) :
    InNumber b s.parseState (c :: w) := by
  unfold stateESign at herr h
  by_cases h1 : isDigit c = true
  · simp only [h1, if_true] at h
    exact inNumber_cons .e0 b _ c w (fun t ht => hb t ((isDigit_iff c).1 h1) ht) h
  · simp only [h1, Bool.false_eq_true, if_false, Scanner.error] at herr
    cases herr

theorem sound_e (s : Scanner) (c : Byte) (w : List Byte)
    (herr : (stateE s c).err = false)
    (h : Expected (stateE s c).step (stateE s c).parseState w) :
    InNumber .e s.parseState (c :: w) := by
  unfold stateE at herr h
  by_cases h1 : c.val = 0x2B ∨ c.val = 0x2D
  · rw [if_pos h1] at h
    exact inNumber_cons .eSign .e _ c w (fun t ht => nt_e_sign c t h1 ht) h
  · rw [if_neg h1] at herr h
    exact sound_eSign s c w .e (fun t hc ht => nt_e_digit c t hc ht) herr h

theorem sound_e0 (s : Scanner) (c : Byte) (w : List Byte)
    (hstep : s.step = .e0) (herr : (stateE0 s c).err = false)
    (h : Expected (stateE0 s c).step (stateE0 s c).parseState w) :
    InNumber .e0 s.parseState (c :: w) := by
  unfold stateE0 at herr h
  by_cases h1 : isDigit c = true
  · simp only [h1, if_true] at h
    rw [hstep] at h
    exact inNumber_cons .e0 .e0 _ c w
      (fun t ht => nt_e0_digit c t ((isDigit_iff c).1 h1) ht) h
  · simp only [h1, Bool.false_eq_true, if_false] at herr h
    exact inNumber_done .e0 _ _ nt_e0_nil (stateEndValue_sound s c w herr h)

/-- One step of the scanner: what is expected after the byte, put after the byte, is
expected before it. -/
theorem Scanner.next_sound (s : Scanner) (c : Byte) (w : List Byte)
    (herr : (s.next c).err = false)
    (h : Expected (s.next c).step (s.next c).parseState w) :
    Expected s.step s.parseState (c :: w) := by
  unfold Scanner.next at herr h
  cases hstep : s.step <;> rw [hstep] at herr h <;> simp only at herr h
  · exact sound_beginValueOrEmpty s c w hstep herr h
  · exact sound_beginValue s c w hstep herr h
  · exact sound_beginStringOrEmpty s c w hstep herr h
  · exact sound_beginString s c w hstep herr h
  · exact stateEndValue_sound s c w herr h
  · exact sound_endTop s c w hstep herr h
  · exact sound_inString s c w hstep herr h
  · exact sound_inStringEsc s c w herr h
  · exact sound_hex s c w .inStringEscU1 3 (fun _ _ => rfl) herr h
  · exact sound_hex s c w .inStringEscU12 2 (fun _ _ => rfl) herr h
  · exact sound_hex s c w .inStringEscU123 1 (fun _ _ => rfl) herr h
  · exact sound_hex s c w .inString 0 (fun _ _ => rfl) herr h
  · exact sound_neg s c w herr h
  · exact sound_one s c w herr h
  · exact sound_zero s c w .zero nt_zero_dot (fun t hc ht => nt_zero_e c t hc ht) nt_zero_nil
      herr h
  · exact sound_dot s c w herr h
  · exact sound_dot0 s c w hstep herr h
  · exact sound_e s c w herr h
  · exact sound_eSign s c w .eSign (fun t hc ht => nt_eSign_digit c t hc ht) herr h
  · exact sound_e0 s c w hstep herr h
  · exact sound_literal s c w 0x72 .tr _ (fun _ _ hx => Or.inl hx) herr h
  · exact sound_literal s c w 0x75 .tru _ (fun _ _ hx => Or.inl hx) herr h
  · exact sound_literal s c w 0x65 .endValue [] (fun _ _ hx => Or.inr ⟨rfl, hx⟩) herr h
  · exact sound_literal s c w 0x61 .fa _ (fun _ _ hx => Or.inl hx) herr h
  · exact sound_literal s c w 0x6C .fal _ (fun _ _ hx => Or.inl hx) herr h
  · exact sound_literal s c w 0x73 .fals _ (fun _ _ hx => Or.inl hx) herr h
  · exact sound_literal s c w 0x65 .endValue [] (fun _ _ hx => Or.inr ⟨rfl, hx⟩) herr h
  · exact sound_literal s c w 0x75 .nu _ (fun _ _ hx => Or.inl hx) herr h
  · exact sound_literal s c w 0x6C .nul _ (fun _ _ hx => Or.inl hx) herr h
  · exact sound_literal s c w 0x6C .endValue [] (fun _ _ hx => Or.inr ⟨rfl, hx⟩) herr h
  · simp only [Scanner.error] at herr
    cases herr

end Kratos.json

namespace Kratos.json

open Kratos

theorem popParseState_endTop (s : Scanner) (h0 : s.endTop = false)
    (h : s.popParseState.endTop = true) : s.popParseState.step = .endTop := by
  unfold Scanner.popParseState at h ⊢
  by_cases hl : s.parseState.length - 1 = 0
  · rw [if_pos hl]
  · rw [if_neg hl] at h
    rw [h0] at h
    cases h

theorem stateEndValue_endTop (s : Scanner) (c : Byte) (h0 : s.endTop = false)
    (herr : (stateEndValue s c).err = false) (h : (stateEndValue s c).endTop = true) :
    (stateEndValue s c).step = .endTop := by
  unfold stateEndValue at herr h ⊢
  cases hstk : s.parseState with
  | nil =>
    rw [hstk] at herr
    simp only [stateEndTop] at herr ⊢
    by_cases hc : isSpace c = true
    · simp only [hc, not_true_eq_false, if_false]
    · simp only [hc, not_false_eq_true, if_true, Scanner.error] at herr
      cases herr
  | cons ps rest =>
    rw [hstk] at herr h
    simp only at herr h ⊢
    by_cases hc : isSpace c = true
    · simp only [hc, if_true] at h
      rw [h0] at h
      cases h
    · simp only [hc, Bool.false_eq_true, if_false] at herr h ⊢
      cases ps <;> simp only at herr h ⊢ <;> split_ifs at herr h ⊢ <;>
        first
        | exact popParseState_endTop s h0 h
        | (simp only [Scanner.error] at herr; cases herr)
        | (rw [h0] at h; cases h)

theorem pushParseState_endTop (s : Scanner) (ps : ParseState) (next : Step) :
    (s.pushParseState ps next).endTop = s.endTop := by
  unfold Scanner.pushParseState
  split_ifs <;> rfl

theorem stateBeginValue_endTop (s : Scanner) (c : Byte) :
    (stateBeginValue s c).endTop = s.endTop := by
  unfold stateBeginValue
  by_cases h1 : isSpace c = true
  · rw [if_pos h1]
  · rw [if_neg h1]
    by_cases h2 : c.val = 0x7B
    · rw [if_pos h2]
      exact pushParseState_endTop _ _ _
    · rw [if_neg h2]
      by_cases h3 : c.val = 0x5B
      · rw [if_pos h3]
        exact pushParseState_endTop _ _ _
      · rw [if_neg h3]
        by_cases h4 : c.val = 0x22
        · rw [if_pos h4]
        · rw [if_neg h4]
          by_cases h5 : c.val = 0x2D
          · rw [if_pos h5]
          · rw [if_neg h5]
            by_cases h6 : c.val = 0x30
            · rw [if_pos h6]
            · rw [if_neg h6]
              by_cases h7 : c.val = 0x74
              · rw [if_pos h7]
              · rw [if_neg h7]
                by_cases h8 : c.val = 0x66
                · rw [if_pos h8]
                · rw [if_neg h8]
                  by_cases h9 : c.val = 0x6E
                  · rw [if_pos h9]
                  · rw [if_neg h9]
                    by_cases h10 : 0x31 ≤ c.val ∧ c.val ≤ 0x39
                    · rw [if_pos h10]
                    · rw [if_neg h10]
                      rfl

theorem stateBeginString_endTop (s : Scanner) (c : Byte) :
    (stateBeginString s c).endTop = s.endTop := by
  unfold stateBeginString
  split_ifs <;> rfl

theorem stateEndTop_endTop (s : Scanner) (c : Byte) :
    (stateEndTop s c).endTop = s.endTop := by
  unfold stateEndTop
  split_ifs <;> rfl

theorem stateInString_endTop (s : Scanner) (c : Byte) :
    (stateInString s c).endTop = s.endTop := by
  unfold stateInString
  split_ifs <;> rfl

theorem stateInStringEsc_endTop (s : Scanner) (c : Byte) :
    (stateInStringEsc s c).endTop = s.endTop := by
  unfold stateInStringEsc
  split_ifs <;> rfl

theorem stateInStringEscHex_endTop (next : Step) (s : Scanner) (c : Byte) :
    (stateInStringEscHex next s c).endTop = s.endTop := by
  unfold stateInStringEscHex
  split_ifs <;> rfl

theorem stateNeg_endTop (s : Scanner) (c : Byte) : (stateNeg s c).endTop = s.endTop := by
  unfold stateNeg
  split_ifs <;> rfl

theorem stateDot_endTop (s : Scanner) (c : Byte) : (stateDot s c).endTop = s.endTop := by
  unfold stateDot
  split_ifs <;> rfl

theorem stateESign_endTop (s : Scanner) (c : Byte) : (stateESign s c).endTop = s.endTop := by
  unfold stateESign
  split_ifs <;> rfl

theorem stateE_endTop (s : Scanner) (c : Byte) : (stateE s c).endTop = s.endTop := by
  unfold stateE
  split_ifs
  · rfl
  · exact stateESign_endTop s c

theorem stateLiteral_endTop (expected : Nat) (next : Step) (s : Scanner) (c : Byte) :
    (stateLiteral expected next s c).endTop = s.endTop := by
  unfold stateLiteral
  split_ifs <;> rfl

theorem endTop_of_keep (s t : Scanner) (h0 : s.endTop = false) (hk : t.endTop = s.endTop)
    (h : t.endTop = true) : t.step = .endTop := by
  rw [hk, h0] at h
  cases h

theorem stateBeginValueOrEmpty_endTop (s : Scanner) (c : Byte) (h0 : s.endTop = false)
    (herr : (stateBeginValueOrEmpty s c).err = false)
    (h : (stateBeginValueOrEmpty s c).endTop = true) :
    (stateBeginValueOrEmpty s c).step = .endTop := by
  unfold stateBeginValueOrEmpty at herr h ⊢
  split_ifs at herr h ⊢
  · rw [h0] at h; cases h
  · exact stateEndValue_endTop s c h0 herr h
  · exact endTop_of_keep s _ h0 (stateBeginValue_endTop s c) h

theorem stateBeginStringOrEmpty_endTop (s : Scanner) (c : Byte) (h0 : s.endTop = false)
    (herr : (stateBeginStringOrEmpty s c).err = false)
    (h : (stateBeginStringOrEmpty s c).endTop = true) :
    (stateBeginStringOrEmpty s c).step = .endTop := by
  unfold stateBeginStringOrEmpty at herr h ⊢
  split_ifs at herr h ⊢
  · rw [h0] at h; cases h
  · exact stateEndValue_endTop _ c h0 herr h
  · exact endTop_of_keep s _ h0 (stateBeginString_endTop s c) h

theorem state0_endTop (s : Scanner) (c : Byte) (h0 : s.endTop = false)
    (herr : (state0 s c).err = false) (h : (state0 s c).endTop = true) :
    (state0 s c).step = .endTop := by
  unfold state0 at herr h ⊢
  split_ifs at herr h ⊢
  · rw [h0] at h; cases h
  · rw [h0] at h; cases h
  · exact stateEndValue_endTop s c h0 herr h

theorem state1_endTop (s : Scanner) (c : Byte) (h0 : s.endTop = false)
    (herr : (state1 s c).err = false) (h : (state1 s c).endTop = true) :
    (state1 s c).step = .endTop := by
  unfold state1 at herr h ⊢
  split_ifs at herr h ⊢
  · rw [h0] at h; cases h
  · exact state0_endTop s c h0 herr h

theorem stateDot0_endTop (s : Scanner) (c : Byte) (h0 : s.endTop = false)
    (herr : (stateDot0 s c).err = false) (h : (stateDot0 s c).endTop = true) :
    (stateDot0 s c).step = .endTop := by
  unfold stateDot0 at herr h ⊢
  split_ifs at herr h ⊢
  · rw [h0] at h; cases h
  · rw [h0] at h; cases h
  · exact stateEndValue_endTop s c h0 herr h

theorem stateE0_endTop (s : Scanner) (c : Byte) (h0 : s.endTop = false)
    (herr : (stateE0 s c).err = false) (h : (stateE0 s c).endTop = true) :
    (stateE0 s c).step = .endTop := by
  unfold stateE0 at herr h ⊢
  split_ifs at herr h ⊢
  · rw [h0] at h; cases h
  · exact stateEndValue_endTop s c h0 herr h

/-- The flag `endTop` is set only together with the step function `stateEndTop`. -/
theorem Scanner.next_endTop (s : Scanner) (c : Byte)
    (hinv : s.endTop = true → s.step = .endTop) (herr : (s.next c).err = false)
    (h : (s.next c).endTop = true) : (s.next c).step = .endTop := by
  by_cases h1 : s.endTop = true
  · have hstep := hinv h1
    unfold Scanner.next at herr ⊢
    rw [hstep] at herr ⊢
    simp only [stateEndTop] at herr ⊢
    by_cases hc : isSpace c = true
    · simp only [hc, not_true_eq_false, if_false]
      exact hstep
    · simp only [hc, not_false_eq_true, if_true, Scanner.error] at herr
      cases herr
  · have h0 : s.endTop = false := by simpa using h1
    unfold Scanner.next at herr h ⊢
    cases hstep : s.step <;> rw [hstep] at herr h <;> simp only at herr h ⊢
    · exact stateBeginValueOrEmpty_endTop s c h0 herr h
    · exact endTop_of_keep s _ h0 (stateBeginValue_endTop s c) h
    · exact stateBeginStringOrEmpty_endTop s c h0 herr h
    · exact endTop_of_keep s _ h0 (stateBeginString_endTop s c) h
    · exact stateEndValue_endTop s c h0 herr h
    · exact endTop_of_keep s _ h0 (stateEndTop_endTop s c) h
    · exact endTop_of_keep s _ h0 (stateInString_endTop s c) h
    · exact endTop_of_keep s _ h0 (stateInStringEsc_endTop s c) h
    · exact endTop_of_keep s _ h0 (stateInStringEscHex_endTop _ s c) h
    · exact endTop_of_keep s _ h0 (stateInStringEscHex_endTop _ s c) h
    · exact endTop_of_keep s _ h0 (stateInStringEscHex_endTop _ s c) h
    · exact endTop_of_keep s _ h0 (stateInStringEscHex_endTop _ s c) h
    · exact endTop_of_keep s _ h0 (stateNeg_endTop s c) h
    · exact state1_endTop s c h0 herr h
    · exact state0_endTop s c h0 herr h
    · exact endTop_of_keep s _ h0 (stateDot_endTop s c) h
    · exact stateDot0_endTop s c h0 herr h
    · exact endTop_of_keep s _ h0 (stateE_endTop s c) h
    · exact endTop_of_keep s _ h0 (stateESign_endTop s c) h
    · exact stateE0_endTop s c h0 herr h
    · exact endTop_of_keep s _ h0 (stateLiteral_endTop _ _ s c) h
    · exact endTop_of_keep s _ h0 (stateLiteral_endTop _ _ s c) h
    · exact endTop_of_keep s _ h0 (stateLiteral_endTop _ _ s c) h
    · exact endTop_of_keep s _ h0 (stateLiteral_endTop _ _ s c) h
    · exact endTop_of_keep s _ h0 (stateLiteral_endTop _ _ s c) h
    · exact endTop_of_keep s _ h0 (stateLiteral_endTop _ _ s c) h
    · exact endTop_of_keep s _ h0 (stateLiteral_endTop _ _ s c) h
    · exact endTop_of_keep s _ h0 (stateLiteral_endTop _ _ s c) h
    · exact endTop_of_keep s _ h0 (stateLiteral_endTop _ _ s c) h
    · exact endTop_of_keep s _ h0 (stateLiteral_endTop _ _ s c) h
    · simp only [Scanner.error] at herr
      cases herr

end Kratos.json

namespace Kratos.json

open Kratos

theorem pushParseState_err (s : Scanner) (ps : ParseState) (next : Step)
    (h : s.err = true) : (s.pushParseState ps next).err = true := by
  unfold Scanner.pushParseState
  split_ifs
  · exact h
  · rfl

theorem stateEndTop_err (s : Scanner) (c : Byte) (h : s.err = true) :
    (stateEndTop s c).err = true := by
  unfold stateEndTop
  split_ifs <;> first | exact h | rfl

theorem stateEndValue_err (s : Scanner) (c : Byte) (h : s.err = true) :
    (stateEndValue s c).err = true := by
  unfold stateEndValue
  cases s.parseState with
  | nil => exact stateEndTop_err _ c h
  | cons ps rest =>
    cases ps <;> simp only <;> split_ifs <;>
      first
      | exact h
      | rfl
      | (rw [popParseState_err]; exact h)

theorem stateBeginValue_err (s : Scanner) (c : Byte) (h : s.err = true) :
    (stateBeginValue s c).err = true := by
  unfold stateBeginValue
  by_cases h1 : isSpace c = true
  · rw [if_pos h1]; exact h
  · rw [if_neg h1]
    by_cases h2 : c.val = 0x7B
    · rw [if_pos h2]; exact pushParseState_err _ _ _ h
    · rw [if_neg h2]
      by_cases h3 : c.val = 0x5B
      · rw [if_pos h3]; exact pushParseState_err _ _ _ h
      · rw [if_neg h3]
        by_cases h4 : c.val = 0x22
        · rw [if_pos h4]; exact h
        · rw [if_neg h4]
          by_cases h5 : c.val = 0x2D
          · rw [if_pos h5]; exact h
          · rw [if_neg h5]
            by_cases h6 : c.val = 0x30
            · rw [if_pos h6]; exact h
            · rw [if_neg h6]
              by_cases h7 : c.val = 0x74
              · rw [if_pos h7]; exact h
              · rw [if_neg h7]
                by_cases h8 : c.val = 0x66
                · rw [if_pos h8]; exact h
                · rw [if_neg h8]
                  by_cases h9 : c.val = 0x6E
                  · rw [if_pos h9]; exact h
                  · rw [if_neg h9]
                    by_cases h10 : 0x31 ≤ c.val ∧ c.val ≤ 0x39
                    · rw [if_pos h10]; exact h
                    · rw [if_neg h10]; rfl

theorem stateBeginString_err (s : Scanner) (c : Byte) (h : s.err = true) :
    (stateBeginString s c).err = true := by
  unfold stateBeginString
  split_ifs <;> first | exact h | rfl

theorem state0_err (s : Scanner) (c : Byte) (h : s.err = true) : (state0 s c).err = true := by
  unfold state0
  split_ifs <;> first | exact h | exact stateEndValue_err s c h

theorem stateESign_err (s : Scanner) (c : Byte) (h : s.err = true) :
    (stateESign s c).err = true := by
  unfold stateESign
  split_ifs <;> first | exact h | rfl

/-- An error recorded by the scanner stays recorded. -/
theorem Scanner.next_err (s : Scanner) (c : Byte) (h : s.err = true) :
    (s.next c).err = true := by
  unfold Scanner.next
  cases s.step <;> simp only
  · unfold stateBeginValueOrEmpty
    split_ifs <;>
      first | exact h | exact stateEndValue_err s c h | exact stateBeginValue_err s c h
  · exact stateBeginValue_err s c h
  · unfold stateBeginStringOrEmpty
    split_ifs <;>
      first | exact h | exact stateEndValue_err _ c h | exact stateBeginString_err s c h
  · exact stateBeginString_err s c h
  · exact stateEndValue_err s c h
  · exact stateEndTop_err s c h
  · unfold stateInString
    split_ifs <;> first | exact h | rfl
  · unfold stateInStringEsc
    split_ifs <;> first | exact h | rfl
  · unfold stateInStringEscHex
    split_ifs <;> first | exact h | rfl
  · unfold stateInStringEscHex
    split_ifs <;> first | exact h | rfl
  · unfold stateInStringEscHex
    split_ifs <;> first | exact h | rfl
  · unfold stateInStringEscHex
    split_ifs <;> first | exact h | rfl
  · unfold stateNeg
    split_ifs <;> first | exact h | rfl
  · unfold state1
    split_ifs <;> first | exact h | exact state0_err s c h
  · exact state0_err s c h
  · unfold stateDot
    split_ifs <;> first | exact h | rfl
  · unfold stateDot0
    split_ifs <;> first | exact h | exact stateEndValue_err s c h
  · unfold stateE
    split_ifs <;> first | exact h | exact stateESign_err s c h
  · exact stateESign_err s c h
  · unfold stateE0
    split_ifs <;> first | exact h | exact stateEndValue_err s c h
  all_goals
    first
    | rfl
    | (unfold stateLiteral
       split_ifs <;> first | exact h | rfl)

theorem foldl_next_err (w : List Byte) :
    ∀ s : Scanner, s.err = true → (w.foldl Scanner.next s).err = true := by
  induction w with
  | nil => intro s h; exact h
  | cons c w ih => intro s h; exact ih _ (Scanner.next_err s c h)

theorem stateEndValue_space (s : Scanner) (h0 : s.endTop = false)
    (h : (stateEndValue s (byte 0x20)).endTop = true) : s.parseState = [] := by
  unfold stateEndValue at h
  cases hstk : s.parseState with
  | nil => rfl
  | cons ps rest =>
    rw [hstk] at h
    have hsp : isSpace (byte 0x20) = true := by decide
    simp only [hsp, if_true] at h
    rw [h0] at h
    cases h

theorem state0_space (s : Scanner) (h0 : s.endTop = false)
    (h : (state0 s (byte 0x20)).endTop = true) : s.parseState = [] := by
  unfold state0 at h
  have h1 : ¬ (byte 0x20).val = 0x2E := by decide
  have h2 : ¬ ((byte 0x20).val = 0x65 ∨ (byte 0x20).val = 0x45) := by decide
  rw [if_neg h1, if_neg h2] at h
  exact stateEndValue_space s h0 h

/-- At the end of the input: a scanner that reports the end of the top-level value
when it is fed a space is in a state whose expectations the empty input meets. -/
theorem eof_space (s : Scanner) (h0 : s.endTop = false)
    (h : (s.next (byte 0x20)).endTop = true) : Expected s.step s.parseState [] := by
  have hsp : isSpace (byte 0x20) = true := by decide
  have hd : isDigit (byte 0x20) = false := by decide
  have keep : ∀ t : Scanner, t.endTop = s.endTop → t.endTop = true → False := by
    intro t hk ht
    rw [hk, h0] at ht
    cases ht
  unfold Scanner.next at h
  cases hstep : s.step <;> rw [hstep] at h <;> simp only at h
  · unfold stateBeginValueOrEmpty at h
    rw [if_pos hsp] at h
    exact (keep s rfl h).elim
  · exact (keep _ (stateBeginValue_endTop s _) h).elim
  · unfold stateBeginStringOrEmpty at h
    rw [if_pos hsp] at h
    exact (keep s rfl h).elim
  · exact (keep _ (stateBeginString_endTop s _) h).elim
  · rw [stateEndValue_space s h0 h]
    exact ws_nil
  · exact (keep _ (stateEndTop_endTop s _) h).elim
  · exact (keep _ (stateInString_endTop s _) h).elim
  · exact (keep _ (stateInStringEsc_endTop s _) h).elim
  · exact (keep _ (stateInStringEscHex_endTop _ s _) h).elim
  · exact (keep _ (stateInStringEscHex_endTop _ s _) h).elim
  · exact (keep _ (stateInStringEscHex_endTop _ s _) h).elim
  · exact (keep _ (stateInStringEscHex_endTop _ s _) h).elim
  · exact (keep _ (stateNeg_endTop s _) h).elim
  · unfold state1 at h
    simp only [hd, Bool.false_eq_true, if_false] at h
    rw [state0_space s h0 h]
    exact inNumber_done .one _ _ nt_one_nil ws_nil
  · rw [state0_space s h0 h]
    exact inNumber_done .zero _ _ nt_zero_nil ws_nil
  · exact (keep _ (stateDot_endTop s _) h).elim
  · unfold stateDot0 at h
    have h2 : ¬ ((byte 0x20).val = 0x65 ∨ (byte 0x20).val = 0x45) := by decide
    simp only [hd, Bool.false_eq_true, if_false] at h
    rw [if_neg h2] at h
    rw [stateEndValue_space s h0 h]
    exact inNumber_done .dot0 _ _ nt_dot0_nil ws_nil
  · exact (keep _ (stateE_endTop s _) h).elim
  · exact (keep _ (stateESign_endTop s _) h).elim
  · unfold stateE0 at h
    simp only [hd, Bool.false_eq_true, if_false] at h
    rw [stateEndValue_space s h0 h]
    exact inNumber_done .e0 _ _ nt_e0_nil ws_nil
  all_goals
    first
    | exact (keep _ (stateLiteral_endTop _ _ s _) h).elim
    | exact (keep _ rfl h).elim

/-- The scanner run from a state: when it ends on a complete value, the input is what
was expected in that state. -/
theorem scan_sound (w : List Byte) :
    ∀ s : Scanner, (s.endTop = true → s.step = .endTop) →
      (w.foldl Scanner.next s).eof = true → Expected s.step s.parseState w := by
  induction w with
  | nil =>
    intro s hinv h
    unfold Scanner.eof at h
    simp only [List.foldl_nil] at h
    by_cases he : s.err = true
    · rw [if_pos he] at h
      cases h
    · rw [if_neg he] at h
      by_cases ht : s.endTop = true
      · rw [hinv ht]
        exact ws_nil
      · rw [if_neg ht] at h
        exact eof_space s (by simpa using ht) h
  | cons c w ih =>
    intro s hinv h
    rw [List.foldl_cons] at h
    have herr : (s.next c).err = false := by
      cases he : (s.next c).err with
      | false => rfl
      | true =>
        have := foldl_next_err w _ he
        unfold Scanner.eof at h
        rw [if_pos this] at h
        cases h
    exact Scanner.next_sound s c w herr
      (ih _ (Scanner.next_endTop s c hinv herr) h)

/-- What `checkValid` accepts is a well-formed JSON document. -/
theorem checkValid_sound (data : List Byte) (h : checkValid data = true) : Document data :=
  scan_sound data Scanner.reset (fun h0 => by cases h0) h

end Kratos.json

namespace Kratos.json

open Kratos

/-- The first byte of a value: a quotation mark, a minus, a digit, the first letter
of a literal name, or an opening bracket or brace. -/
theorem Json.value_head (v : List Byte) (h : Json .value v) :
    ∃ c rest, v = c :: rest ∧
      (c.val = 0x22 ∨ c.val = 0x2D ∨ IsDigit c ∨ c.val = 0x74 ∨ c.val = 0x66 ∨
        c.val = 0x6E ∨ c.val = 0x5B ∨ c.val = 0x7B) := by
  cases h with
  | string cs _ => exact ⟨_, _, rfl, Or.inl (by decide)⟩
  | number w hn =>
    obtain ⟨minus, i, f, e, rfl, hm, hi, _, _⟩ := hn
    rcases hm with rfl | rfl
    · rcases hi with rfl | ⟨d, ds, rfl, h1, h2, _⟩
      · exact ⟨_, _, rfl, Or.inr (Or.inr (Or.inl (by decide)))⟩
      · exact ⟨d, _, rfl, Or.inr (Or.inr (Or.inl ⟨by omega, h2⟩))⟩
    · exact ⟨_, _, rfl, Or.inr (Or.inl (by decide))⟩
  | litTrue => exact ⟨_, _, rfl, by decide⟩
  | litFalse => exact ⟨_, _, rfl, by decide⟩
  | litNull => exact ⟨_, _, rfl, by decide⟩
  | emptyArray ws _ => exact ⟨_, _, rfl, by decide⟩
  | array es _ => exact ⟨_, _, rfl, by decide⟩
  | emptyObject ws _ => exact ⟨_, _, rfl, by decide⟩
  | object ms _ => exact ⟨_, _, rfl, by decide⟩

/-- The empty input is not a document. -/
theorem not_document_nil : ¬ Document [] := by
  rintro ⟨ws1, v, ws2, he, _, hv, _⟩
  obtain ⟨c, rest, rfl, _⟩ := Json.value_head v hv
  cases ws1 <;> cases he

/-- An input whose first byte is neither white space nor the first byte of a value
is not a document. -/
theorem not_document_of_head (c : Byte) (w : List Byte)
    (hws : ¬ (c.val = 0x20 ∨ c.val = 0x09 ∨ c.val = 0x0A ∨ c.val = 0x0D))
    (hv : ¬ (c.val = 0x22 ∨ c.val = 0x2D ∨ IsDigit c ∨ c.val = 0x74 ∨ c.val = 0x66 ∨
      c.val = 0x6E ∨ c.val = 0x5B ∨ c.val = 0x7B)) :
    ¬ Document (c :: w) := by
  rintro ⟨ws1, v, ws2, he, h1, hval, _⟩
  obtain ⟨d, rest, rfl, hd⟩ := Json.value_head v hval
  cases ws1 with
  | nil =>
    have hcd : c = d := (List.cons.inj he).1
    exact hv (hcd ▸ hd)
  | cons x xs =>
    have hcx : c = x := (List.cons.inj he).1
    exact hws (hcx ▸ h1 x (List.mem_cons_self _ _))

end Kratos.json

namespace Kratos.json

open Kratos

theorem digits_last (ds : List Byte) :
    ∀ d : Byte, IsDigit d → Digits ds → ∃ init c, d :: ds = init ++ [c] ∧ IsDigit c := by
  induction ds with
  | nil => intro d hd _; exact ⟨[], d, rfl, hd⟩
  | cons x xs ih =>
    intro d _ hds
    obtain ⟨init, c, he, hc⟩ := ih x (hds x (List.mem_cons_self _ _))
      (fun y hy => hds y (List.mem_cons_of_mem _ hy))
    exact ⟨d :: init, c, by rw [he]; rfl, hc⟩

theorem number_last (w : List Byte) (h : Number w) :
    ∃ init c, w = init ++ [c] ∧ IsDigit c := by
  obtain ⟨minus, i, f, e, rfl, _, hi, hf, he⟩ := h
  rcases he with rfl | ⟨x, sign, d, ds, rfl, _, _, hd, hds⟩
  · rcases hf with rfl | ⟨d, ds, rfl, hd, hds⟩
    · rcases hi with rfl | ⟨d, ds, rfl, h1, h2, hds⟩
      · exact ⟨minus, byte 0x30, by simp, by decide⟩
      · obtain ⟨init, c, he, hc⟩ := digits_last ds d ⟨by omega, h2⟩ hds
        exact ⟨minus ++ init, c, by rw [he]; simp, hc⟩
    · obtain ⟨init, c, he, hc⟩ := digits_last ds d hd hds
      exact ⟨minus ++ (i ++ (byte 0x2E :: init)), c, by rw [he]; simp, hc⟩
  · obtain ⟨init, c, he, hc⟩ := digits_last ds d hd hds
    exact ⟨minus ++ (i ++ (f ++ (x :: (sign ++ init)))), c, by rw [he]; simp, hc⟩

/-- The last byte of a value: a quotation mark, a digit, the last letter of a literal
name, or a closing bracket or brace. -/
theorem Json.value_last (v : List Byte) (h : Json .value v) :
    ∃ init c, v = init ++ [c] ∧
      (c.val = 0x22 ∨ IsDigit c ∨ c.val = 0x65 ∨ c.val = 0x6C ∨ c.val = 0x5D ∨
        c.val = 0x7D) := by
  cases h with
  | string cs _ => exact ⟨byte 0x22 :: cs, _, rfl, by decide⟩
  | number _ hn =>
    obtain ⟨init, c, he, hc⟩ := number_last _ hn
    exact ⟨init, c, he, Or.inr (Or.inl hc)⟩
  | litTrue => exact ⟨[byte 0x74, byte 0x72, byte 0x75], _, rfl, by decide⟩
  | litFalse => exact ⟨[byte 0x66, byte 0x61, byte 0x6C, byte 0x73], _, rfl, by decide⟩
  | litNull => exact ⟨[byte 0x6E, byte 0x75, byte 0x6C], _, rfl, by decide⟩
  | emptyArray ws _ => exact ⟨byte 0x5B :: ws, _, rfl, by decide⟩
  | array es _ => exact ⟨byte 0x5B :: es, _, rfl, by decide⟩
  | emptyObject ws _ => exact ⟨byte 0x7B :: ws, _, rfl, by decide⟩
  | object ms _ => exact ⟨byte 0x7B :: ms, _, rfl, by decide⟩

/-- An input whose last byte is neither white space nor the last byte of a value is
not a document. -/
theorem not_document_of_last (w : List Byte) (c : Byte)
    (hws : ¬ (c.val = 0x20 ∨ c.val = 0x09 ∨ c.val = 0x0A ∨ c.val = 0x0D))
    (hv : ¬ (c.val = 0x22 ∨ IsDigit c ∨ c.val = 0x65 ∨ c.val = 0x6C ∨ c.val = 0x5D ∨
      c.val = 0x7D)) :
    ¬ Document (w ++ [c]) := by
  rintro ⟨ws1, v, ws2, he, _, hval, h2⟩
  obtain ⟨init, d, rfl, hd⟩ := Json.value_last v hval
  rcases List.eq_nil_or_concat ws2 with rfl | ⟨init2, x, rfl⟩
  · have he2 : w ++ [c] = (ws1 ++ init) ++ [d] := by rw [he]; simp
    have := List.append_inj_right' he2 rfl
    have hcd : c = d := by simpa using this
    exact hv (hcd ▸ hd)
  · have he2 : w ++ [c] = (ws1 ++ ((init ++ [d]) ++ init2)) ++ [x] := by rw [he]; simp
    have := List.append_inj_right' he2 rfl
    have hcx : c = x := by simpa using this
    exact hws (hcx ▸ h2 x (by simp))

end Kratos.json

namespace Kratos.flow

open Kratos

/-- C5 (counterexample): the state consisting of the single byte `FF`, which is not
valid UTF-8, is encoded as the JSON string `"\\ufffd"` and decoded to the three bytes
`EF BF BD` of U+FFFD, not to itself. -/
theorem jsonRoundTrip_invalid_utf8 :
    State.MarshalJSON [byte 0xFF] = .ok (ofString "\"\\ufffd\"") ∧
      State.jsonRoundTrip [byte 0xFF] [] = .ok [byte 0xEF, byte 0xBF, byte 0xBD] ∧
      State.jsonRoundTrip [byte 0xFF] [] ≠ .ok [byte 0xFF] := by
  decide

/-- C5 (amended): for every state that is valid UTF-8 (the encoding of a sequence of
Unicode scalar values), encoding it with `MarshalJSON` and decoding the bytes with
`UnmarshalJSON` succeeds and yields the same state, whatever the receiver held. -/
theorem jsonRoundTrip_valid_utf8 (cs : List Char) (cur : State) :
    State.jsonRoundTrip (encodeRunes cs) cur = .ok (encodeRunes cs) := by
  have hne : ¬ (json.marshalString (encodeRunes cs)).length = 0 := by
    rw [json.marshalString_encodeRunes]; simp
  simp only [State.jsonRoundTrip, State.MarshalJSON, State.UnmarshalJSON, hne, if_false]
  exact json.unmarshalString_marshalString cs cur

/-- C6: `Value` gives SQL NULL for the empty state and the string otherwise; `Scan`
of `Value s` succeeds and yields `s`; `Scan` of NULL succeeds and yields the empty
state. -/
theorem value_scan_roundTrip (s : State) :
    State.Value s = (if s = [] then sql.DriverValue.null else sql.DriverValue.string s) ∧
      State.Scan (State.Value s) = some s ∧ State.Scan sql.DriverValue.null = some [] := by
  cases s with
  | nil => exact ⟨rfl, rfl, rfl⟩
  | cons b l => exact ⟨rfl, rfl, rfl⟩

/-- C7 (counterexample): the empty input is not a well-formed JSON document (the
scanner rejects it and the grammar has no empty value), yet `UnmarshalJSON` returns
no error on it and leaves the state as it was. -/
theorem unmarshalJSON_empty_input :
    json.checkValid [] = false ∧
      State.UnmarshalJSON (some StateChooseMethod) [] = .ok StateChooseMethod ∧
      ¬ json.Document [] :=
  ⟨by decide, by decide, json.not_document_nil⟩

/-- C7 (amended): for every non-empty input that is not a well-formed JSON document
(by the grammar of RFC 8259, read over bytes) `UnmarshalJSON` returns a decoding
error (the syntax error of `json.Unmarshal`) and sets no state; on the empty input it
returns no error and leaves the state unchanged. -/
theorem unmarshalJSON_malformed (cur : State) (data : List Byte) (hne : data ≠ [])
    (hbad : ¬ json.Document data) :
    State.UnmarshalJSON (some cur) data = .error .syntaxError ∧
      State.UnmarshalJSON (some cur) [] = .ok cur := by
  have hlen : ¬ data.length = 0 := fun h => hne (List.length_eq_zero.mp h)
  have hcv : json.checkValid data = false := by
    cases h : json.checkValid data with
    | false => rfl
    | true => exact absurd (json.checkValid_sound data h) hbad
  constructor
  · simp only [State.UnmarshalJSON, hlen, if_false, json.unmarshalString, hcv,
      Bool.false_eq_true, not_false_eq_true, if_true]
  · rfl

theorem unmarshalJSON_malformed_witness :
    ofString "\"abc" ≠ [] ∧ ¬ json.Document (ofString "\"abc") ∧
      (State.UnmarshalJSON (some StateChooseMethod) (ofString "\"abc") = .error .syntaxError ∧
        State.UnmarshalJSON (some StateChooseMethod) [] = .ok StateChooseMethod) :=
  ⟨by decide,
    json.not_document_of_last [byte 0x22, byte 0x61, byte 0x62] (byte 0x63) (by decide)
      (by decide),
    unmarshalJSON_malformed StateChooseMethod (ofString "\"abc") (by decide)
      (json.not_document_of_last [byte 0x22, byte 0x61, byte 0x62] (byte 0x63) (by decide)
        (by decide))⟩

/-- The malformed inputs named by the specification besides the empty one are not
documents of the grammar: a truncated string literal ends in a byte that ends no
value, and bare text starts with a byte that starts no value. -/
theorem malformed_examples_not_documents :
    ¬ json.Document (ofString "\"sent_em") ∧ ¬ json.Document (ofString "sent_email") :=
  ⟨json.not_document_of_last (ofString "\"sent_e") (byte 0x6D) (by decide) (by decide),
    json.not_document_of_head (byte 0x73) (ofString "ent_email") (by decide) (by decide)⟩

/-- The malformed inputs named by the specification besides the empty one, a
truncated string literal and bare text, are rejected. -/
theorem unmarshalJSON_malformed_examples :
    State.UnmarshalJSON (some StateChooseMethod) (ofString "\"sent_em") = .error .syntaxError ∧
      State.UnmarshalJSON (some StateChooseMethod) (ofString "sent_email") = .error .syntaxError ∧
      State.UnmarshalJSON (some StateChooseMethod) (ofString "\"sent_email\"") =
        .ok StateEmailSent := by
  decide

end Kratos.flow

/-! ## Theorems: breach check -/

namespace Kratos.password

open Kratos

theorem find_append_snd (st : List (GoString × Int)) (k k' : GoString) (v : Int) :
    ((st ++ [(k', v)]).find? fun e => e.1 = k).map Prod.snd =
      match (st.find? fun e => e.1 = k).map Prod.snd with
      | some x => some x
      | none => if k' = k then some v else none := by
  rw [List.find?_append]
  cases h : st.find? fun e => decide (e.1 = k) with
  | some x => rfl
  | none =>
    by_cases hk : k' = k
    · simp [hk]
    · simp [hk]

theorem firstNew_cons (i : Item) (buf : List Item) (k : GoString) :
    firstNew (i :: buf) k =
      if i.isUpdate = false ∧ i.Key = k then some i.Value else firstNew buf k := by
  unfold firstNew
  by_cases h : i.isUpdate = false ∧ i.Key = k
  · rw [List.find?_cons_of_pos _ (by simpa using h), if_pos h]
    rfl
  · rw [List.find?_cons_of_neg _ (by simpa using h), if_neg h]

theorem firstNew_append (a b : List Item) (k : GoString) :
    firstNew (a ++ b) k =
      match firstNew a k with
      | some x => some x
      | none => firstNew b k := by
  induction a with
  | nil => rfl
  | cons i a ih =>
    rw [List.cons_append, firstNew_cons, firstNew_cons]
    by_cases h : i.isUpdate = false ∧ i.Key = k
    · rw [if_pos h, if_pos h]
    · rw [if_neg h, if_neg h, ih]

theorem applyItem_find (st : List (GoString × Int)) (i : Item) (k : GoString) :
    ((Cache.applyItem st i).find? fun e => e.1 = k).map Prod.snd =
      match (st.find? fun e => e.1 = k).map Prod.snd with
      | some x => some x
      | none => if i.isUpdate = false ∧ i.Key = k then some i.Value else none := by
  unfold Cache.applyItem
  by_cases hu : i.isUpdate = true
  · rw [if_pos hu]
    have hn : ¬ (i.isUpdate = false ∧ i.Key = k) := by simp [hu]
    rw [if_neg hn]
    cases (st.find? fun e => decide (e.1 = k)).map Prod.snd <;> rfl
  · rw [if_neg hu]
    have hf : i.isUpdate = false := by simpa using hu
    by_cases hs : (st.find? fun e => decide (e.1 = i.Key)).isSome = true
    · rw [if_pos hs]
      cases h : (st.find? fun e => decide (e.1 = k)).map Prod.snd with
      | some x => rfl
      | none =>
        have hne : ¬ i.Key = k := by
          intro e
          rw [e] at hs
          cases h2 : st.find? fun e => decide (e.1 = k) with
          | none => rw [h2] at hs; simp at hs
          | some y => rw [h2] at h; simp at h
        simp [hne]
    · rw [if_neg hs, find_append_snd]
      simp only [hf, true_and]

theorem foldl_applyItem_find (k : GoString) :
    ∀ (buf : List Item) (st : List (GoString × Int)),
      ((buf.foldl Cache.applyItem st).find? fun e => e.1 = k).map Prod.snd =
        match (st.find? fun e => e.1 = k).map Prod.snd with
        | some x => some x
        | none => firstNew buf k := by
  intro buf
  induction buf with
  | nil =>
    intro st
    rw [List.foldl_nil]
    cases (st.find? fun e => decide (e.1 = k)).map Prod.snd <;> rfl
  | cons i buf ih =>
    intro st
    rw [List.foldl_cons, ih, applyItem_find, firstNew_cons]
    cases (st.find? fun e => decide (e.1 = k)).map Prod.snd with
    | some x => rfl
    | none =>
      by_cases h : i.isUpdate = false ∧ i.Key = k
      · simp only [if_pos h]
      · simp only [if_neg h]

theorem Cache.get_processItems (c : Cache) (n : Nat) (k : GoString) :
    (c.processItems n).get k =
      match c.get k with
      | some x => some x
      | none => firstNew (c.setBuf.take n) k :=
  foldl_applyItem_find k (c.setBuf.take n) c.storedItems

theorem Cache.get_wait (c : Cache) (k : GoString) :
    c.Wait.get k =
      match c.get k with
      | some x => some x
      | none => firstNew c.setBuf k := by
  unfold Cache.Wait
  rw [Cache.get_processItems, List.take_length]

theorem Cache.wait_processItems (c : Cache) (n : Nat) (k : GoString) :
    (c.processItems n).Wait.get k = c.Wait.get k := by
  rw [Cache.get_wait, Cache.get_wait, Cache.get_processItems]
  have hb : (c.processItems n).setBuf = c.setBuf.drop n := rfl
  have hs : firstNew c.setBuf k =
      match firstNew (c.setBuf.take n) k with
      | some x => some x
      | none => firstNew (c.setBuf.drop n) k := by
    rw [← firstNew_append, List.take_append_drop]
  rw [hb, hs]
  cases c.get k with
  | some x => rfl
  | none =>
    cases firstNew (c.setBuf.take n) k <;> rfl

theorem find_map_update (st : List (GoString × Int)) (k k' : GoString) (v : Int) :
    ((st.map fun e => if e.1 = k then (k, v) else e).find? fun e => e.1 = k').map Prod.snd =
      if k' = k then ((st.find? fun e => e.1 = k).map fun _ => v)
      else (st.find? fun e => e.1 = k').map Prod.snd := by
  induction st with
  | nil => by_cases h : k' = k <;> simp [h]
  | cons e st ih =>
    rw [List.map_cons]
    by_cases he : e.1 = k
    · rw [if_pos he]
      by_cases hk : k' = k
      · subst hk
        rw [if_pos rfl, List.find?_cons_of_pos _ (by simp),
          List.find?_cons_of_pos _ (by simpa using he)]
        rfl
      · have h1 : ¬ k = k' := fun h => hk h.symm
        have h2 : ¬ e.1 = k' := by rw [he]; exact h1
        rw [if_neg hk, List.find?_cons_of_neg _ (by simpa using h1),
          List.find?_cons_of_neg _ (by simpa using h2), ih, if_neg hk]
    · rw [if_neg he]
      by_cases hk : k' = k
      · subst hk
        rw [if_pos rfl, List.find?_cons_of_neg _ (by simpa using he),
          List.find?_cons_of_neg _ (by simpa using he), ih, if_pos rfl]
      · rw [if_neg hk]
        by_cases h2 : e.1 = k'
        · rw [List.find?_cons_of_pos _ (by simpa using h2),
            List.find?_cons_of_pos _ (by simpa using h2)]
        · rw [List.find?_cons_of_neg _ (by simpa using h2),
            List.find?_cons_of_neg _ (by simpa using h2), ih, if_neg hk]

theorem Cache.get_setWithTTL (c : Cache) (k k' : GoString) (v : Int) :
    (c.SetWithTTL k v).get k' =
      if k' = k then (c.get k).map fun _ => v else c.get k' := by
  unfold Cache.SetWithTTL
  by_cases h : c.get k ≠ none
  · rw [if_pos h]
    show ((c.storedItems.map _).find? _).map Prod.snd = _
    rw [find_map_update]
    by_cases hk : k' = k
    · rw [if_pos hk, if_pos hk]
      unfold Cache.get
      cases c.storedItems.find? fun e => decide (e.1 = k) <;> rfl
    · rw [if_neg hk, if_neg hk]
      rfl
  · rw [if_neg h]
    have hn : c.get k = none := by simpa using h
    by_cases hk : k' = k
    · subst hk
      rw [if_pos rfl, hn]
      exact hn
    · rw [if_neg hk]
      rfl

theorem Cache.wait_setWithTTL (c : Cache) (k k' : GoString) (v : Int) :
    (c.SetWithTTL k v).Wait.get k' =
      if k' = k then
        match c.get k with
        | some _ => some v
        | none =>
          match firstNew c.setBuf k with
          | some x => some x
          | none => some v
      else c.Wait.get k' := by
  rw [Cache.get_wait, Cache.get_setWithTTL, Cache.get_wait]
  by_cases h : c.get k ≠ none
  · have hb : (c.SetWithTTL k v).setBuf =
        c.setBuf ++ [{ isUpdate := true, Key := k, Value := v }] := by
      unfold Cache.SetWithTTL
      rw [if_pos h]
    rw [hb, firstNew_append]
    have hl : firstNew [({ isUpdate := true, Key := k, Value := v } : Item)] k' = none := by
      rw [firstNew_cons]
      simp [firstNew]
    rw [hl]
    by_cases hk : k' = k
    · subst hk
      rw [if_pos rfl, if_pos rfl]
      cases hg : c.get k' with
      | none => exact absurd hg h
      | some x => rfl
    · rw [if_neg hk, if_neg hk]
      cases c.get k' with
      | some x => rfl
      | none => cases firstNew c.setBuf k' <;> rfl
  · have hn : c.get k = none := by simpa using h
    have hb : (c.SetWithTTL k v).setBuf =
        c.setBuf ++ [{ isUpdate := false, Key := k, Value := v }] := by
      unfold Cache.SetWithTTL
      rw [if_neg h]
    rw [hb, firstNew_append]
    have hl : firstNew [({ isUpdate := false, Key := k, Value := v } : Item)] k' =
        if k = k' then some v else none := by
      rw [firstNew_cons]
      simp [firstNew]
    rw [hl]
    by_cases hk : k' = k
    · subst hk
      rw [if_pos rfl, if_pos rfl, hn]
      simp only [Option.map_none', if_true]
    · have hk2 : ¬ k = k' := fun e => hk e.symm
      rw [if_neg hk, if_neg hk, if_neg hk2]
      cases c.get k' with
      | some x => rfl
      | none => cases firstNew c.setBuf k' <;> rfl

end Kratos.password

namespace Kratos.password

open Kratos

theorem Cache.setBuf_setWithTTL (c : Cache) (k : GoString) (v : Int) :
    (c.SetWithTTL k v).setBuf =
      c.setBuf ++ [{ isUpdate := decide (c.get k ≠ none), Key := k, Value := v }] := by
  unfold Cache.SetWithTTL
  by_cases h : c.get k ≠ none
  · rw [if_pos h]
    simp [h]
  · rw [if_neg h]
    simp [h]

theorem firstNew_take_drop (buf : List Item) (n : Nat) (k : GoString)
    (h : firstNew buf k = none) :
    firstNew (buf.take n) k = none ∧ firstNew (buf.drop n) k = none := by
  have hs : firstNew (buf.take n ++ buf.drop n) k = none := by
    rw [List.take_append_drop]
    exact h
  rw [firstNew_append] at hs
  cases ht : firstNew (buf.take n) k with
  | some x => rw [ht] at hs; cases hs
  | none => rw [ht] at hs; exact ⟨rfl, hs⟩

/-- No new item for `k` waits in the buffer of `c` unless `k` is stored already. -/
theorem unbuffered_processItems (c : Cache) (n : Nat) (k : GoString)
    (h : c.get k ≠ none ∨ firstNew c.setBuf k = none) :
    (c.processItems n).get k ≠ none ∨ firstNew (c.processItems n).setBuf k = none := by
  rw [Cache.get_processItems]
  rcases h with h | h
  · left
    cases hg : c.get k with
    | none => exact absurd hg h
    | some x => simp
  · right
    exact (firstNew_take_drop c.setBuf n k h).2

theorem unbuffered_setWithTTL (c : Cache) (k k' : GoString) (v : Int) (hk : k ≠ k')
    (h : c.get k ≠ none ∨ firstNew c.setBuf k = none) :
    (c.SetWithTTL k' v).get k ≠ none ∨ firstNew (c.SetWithTTL k' v).setBuf k = none := by
  rw [Cache.get_setWithTTL, if_neg hk, Cache.setBuf_setWithTTL, firstNew_append]
  rcases h with h | h
  · exact Or.inl h
  · right
    rw [h, firstNew_cons]
    have hk2 : ¬ k' = k := fun e => hk e.symm
    simp [hk2, firstNew]

theorem wait_set_of_unbuffered (c : Cache) (k : GoString) (v : Int)
    (h : c.get k ≠ none ∨ firstNew c.setBuf k = none) :
    (c.SetWithTTL k v).Wait.get k = some v := by
  rw [Cache.wait_setWithTTL, if_pos rfl]
  cases hg : c.get k with
  | some x => rfl
  | none =>
    rcases h with h | h
    · exact absurd hg h
    · rw [h]

theorem wait_set_same (c : Cache) (k : GoString) (v : Int) (h : c.Wait.get k = some v) :
    (c.SetWithTTL k v).Wait.get k = some v := by
  rw [Cache.wait_setWithTTL, if_pos rfl]
  rw [Cache.get_wait] at h
  cases hg : c.get k with
  | some x => rfl
  | none =>
    rw [hg] at h
    simp only at h
    rw [h]

theorem wait_set_ne_none (c : Cache) (k : GoString) (v : Int) :
    (c.SetWithTTL k v).Wait.get k ≠ none := by
  rw [Cache.wait_setWithTTL, if_pos rfl]
  cases c.get k with
  | some x => simp
  | none => cases firstNew c.setBuf k <;> simp

theorem storeAll_append_one (prefix5 : GoString) :
    ∀ (es : List (GoString × Int)) (applied : List Nat) (c : Cache) (e : GoString × Int),
      storeAll prefix5 applied c (es ++ [e]) =
        ((storeAll prefix5 applied c es).processItems (applied.getD es.length 0)).SetWithTTL
          (prefix5 ++ e.1) e.2 := by
  intro es
  induction es with
  | nil =>
    intro applied c e
    cases applied <;> rfl
  | cons x es ih =>
    intro applied c e
    show storeAll prefix5 applied.tail _ (es ++ [e]) = _
    rw [ih]
    cases applied with
    | nil => rfl
    | cons a as => rfl

theorem storeAll_wait_same (prefix5 k : GoString) (v : Int) :
    ∀ (es : List (GoString × Int)) (applied : List Nat) (c : Cache),
      c.Wait.get k = some v → (∀ e ∈ es, prefix5 ++ e.1 = k → e.2 = v) →
      (storeAll prefix5 applied c es).Wait.get k = some v := by
  intro es
  induction es with
  | nil => intro applied c h _; exact h
  | cons e es ih =>
    intro applied c h hv
    show (storeAll prefix5 applied.tail _ es).Wait.get k = some v
    apply ih
    · by_cases hk : prefix5 ++ e.1 = k
      · have hev := hv e (List.mem_cons_self _ _) hk
        rw [hk, hev]
        apply wait_set_same
        rw [Cache.wait_processItems]
        exact h
      · have hk2 : ¬ k = prefix5 ++ e.1 := fun x => hk x.symm
        rw [Cache.wait_setWithTTL, if_neg hk2, Cache.wait_processItems]
        exact h
    · intro x hx
      exact hv x (List.mem_cons_of_mem _ hx)

theorem storeAll_wait_of_unbuffered (prefix5 k : GoString) (v : Int) :
    ∀ (es : List (GoString × Int)) (applied : List Nat) (c : Cache),
      (c.get k ≠ none ∨ firstNew c.setBuf k = none) →
      (∀ e ∈ es, prefix5 ++ e.1 = k → e.2 = v) → (∃ e ∈ es, prefix5 ++ e.1 = k) →
      (storeAll prefix5 applied c es).Wait.get k = some v := by
  intro es
  induction es with
  | nil =>
    intro applied c _ _ hex
    obtain ⟨e, he, _⟩ := hex
    cases he
  | cons e es ih =>
    intro applied c h hv hex
    show (storeAll prefix5 applied.tail _ es).Wait.get k = some v
    have hp := unbuffered_processItems c (applied.headD 0) k h
    have hv2 : ∀ x ∈ es, prefix5 ++ x.1 = k → x.2 = v :=
      fun x hx => hv x (List.mem_cons_of_mem _ hx)
    by_cases hk : prefix5 ++ e.1 = k
    · have hev := hv e (List.mem_cons_self _ _) hk
      apply storeAll_wait_same prefix5 k v es _ _ _ hv2
      rw [hk, hev]
      exact wait_set_of_unbuffered _ k v hp
    · have hk2 : k ≠ prefix5 ++ e.1 := fun x => hk x.symm
      apply ih _ _ (unbuffered_setWithTTL _ k _ _ hk2 hp) hv2
      obtain ⟨x, hx, hxk⟩ := hex
      rcases List.mem_cons.1 hx with rfl | hx
      · exact absurd hxk hk
      · exact ⟨x, hx, hxk⟩

theorem storeAll_wait_ne_none (prefix5 k : GoString) :
    ∀ (es : List (GoString × Int)) (applied : List Nat) (c : Cache),
      (c.Wait.get k ≠ none ∨ ∃ e ∈ es, prefix5 ++ e.1 = k) →
      (storeAll prefix5 applied c es).Wait.get k ≠ none := by
  intro es
  induction es with
  | nil =>
    intro applied c h
    rcases h with h | ⟨e, he, _⟩
    · exact h
    · cases he
  | cons e es ih =>
    intro applied c h
    show (storeAll prefix5 applied.tail _ es).Wait.get k ≠ none
    by_cases hk : prefix5 ++ e.1 = k
    · apply ih
      left
      rw [hk]
      exact wait_set_ne_none _ k _
    · have hk2 : ¬ k = prefix5 ++ e.1 := fun x => hk x.symm
      apply ih
      rcases h with h | ⟨x, hx, hxk⟩
      · left
        rw [Cache.wait_setWithTTL, if_neg hk2, Cache.wait_processItems]
        exact h
      · rcases List.mem_cons.1 hx with rfl | hx
        · exact absurd hxk hk
        · exact Or.inr ⟨x, hx, hxk⟩

theorem storeAll_wait_other (prefix5 k : GoString) :
    ∀ (es : List (GoString × Int)) (applied : List Nat) (c : Cache),
      (∀ e ∈ es, prefix5 ++ e.1 ≠ k) →
      (storeAll prefix5 applied c es).Wait.get k = c.Wait.get k := by
  intro es
  induction es with
  | nil => intro applied c _; rfl
  | cons e es ih =>
    intro applied c h
    show (storeAll prefix5 applied.tail _ es).Wait.get k = _
    have hk2 : ¬ k = prefix5 ++ e.1 := fun x => h e (List.mem_cons_self _ _) x.symm
    rw [ih _ _ (fun x hx => h x (List.mem_cons_of_mem _ hx)), Cache.wait_setWithTTL,
      if_neg hk2, Cache.wait_processItems]

end Kratos.password

namespace Kratos.password

open Kratos

theorem validate_eq_validateBreaches (env : Env) (cfg : PasswordPolicy)
    (s : DefaultPasswordValidator) (identifier password : GoString)
    (hlen : ¬ (password.length : Int) < toInt64 cfg.MinPasswordLength)
    (hsim : ¬ (cfg.IdentifierSimilarityCheckEnabled = true ∧ identifier.length > 0 ∧
      tooSimilar env s identifier password = true)) :
    validate env cfg s identifier password = validateBreaches env cfg s password := by
  unfold validate
  rw [if_neg hlen, if_neg hsim]

theorem validateBreaches_cached (env : Env) (cfg : PasswordPolicy)
    (s : DefaultPasswordValidator) (password : GoString) (c : Int)
    (hen : cfg.HaveIBeenPwnedEnabled = true)
    (hc : s.hashes.get (b20 (sha1.Sum password)) = some c) :
    validateBreaches env cfg s password =
      if c > toInt64 cfg.MaxBreaches then (some (.PasswordTooManyBreaches c), s) else (none, s) := by
  unfold validateBreaches
  simp only [hen, not_true_eq_false, if_false, hc]

theorem validateBreaches_fetched (env : Env) (cfg : PasswordPolicy)
    (s s1 : DefaultPasswordValidator) (password : GoString) (r : Except FetchError Int)
    (hen : cfg.HaveIBeenPwnedEnabled = true)
    (hc : s.hashes.get (b20 (sha1.Sum password)) = none)
    (hf : fetch env s (sha1.Sum password) cfg.HaveIBeenPwnedHost = (r, s1)) :
    validateBreaches env cfg s password =
      match r with
      | .error e =>
        if (e.isNetworkFailure ∨ e.isUnexpectedStatusCode) ∧ cfg.IgnoreNetworkErrors then
          (none, s1)
        else (some (.fetch e), s1)
      | .ok c =>
        if c > toInt64 cfg.MaxBreaches then (some (.PasswordTooManyBreaches c), s1)
        else (none, s1) := by
  unfold validateBreaches
  simp only [hen, not_true_eq_false, if_false, hc, hf]
  cases r <;> rfl

set_option maxRecDepth 1000000 in
/-- C11 (counterexample): with `MaxBreaches = 2^63` the conversion
`int64(MaxBreaches)` is negative, so a cached leak count of 0, although not greater
than the configured maximum, gets the too-many-breaches error. -/
theorem validate_max_breaches_overflow :
    (cachedValidator (ofString "password") 0).hashes.get
        (b20 (sha1.Sum (ofString "password"))) = some 0 ∧
      ¬ ((0 : Int) > ((breachPolicy (2 ^ 63) false).MaxBreaches : Int)) ∧
      (validate asciiEnv (breachPolicy (2 ^ 63) false)
        (cachedValidator (ofString "password") 0) [] (ofString "password")).1 =
        some (.PasswordTooManyBreaches 0) := by
  decide

/-- C11 (amended): when the configured `MaxBreaches` fits a signed 64-bit integer,
the breach check is enabled, the password passes the length and similarity checks
and a leak count `c` is obtained for the hash of the password (from the cache, or on
a cache miss from a successful `fetch`), `validate` returns the too-many-breaches
error carrying `c` exactly when `c` is greater than `MaxBreaches`, and no error
otherwise. -/
theorem validate_breach_count (env : Env) (cfg : PasswordPolicy)
    (s : DefaultPasswordValidator) (identifier password : GoString) (c : Int)
    (hmax : cfg.MaxBreaches < 2 ^ 63) (hen : cfg.HaveIBeenPwnedEnabled = true)
    (hlen : ¬ (password.length : Int) < toInt64 cfg.MinPasswordLength)
    (hsim : ¬ (cfg.IdentifierSimilarityCheckEnabled = true ∧ identifier.length > 0 ∧
      tooSimilar env s identifier password = true))
    (hc : s.hashes.get (b20 (sha1.Sum password)) = some c ∨
      (s.hashes.get (b20 (sha1.Sum password)) = none ∧
        (fetch env s (sha1.Sum password) cfg.HaveIBeenPwnedHost).1 = .ok c)) :
    ((validate env cfg s identifier password).1 = some (.PasswordTooManyBreaches c) ↔
        c > (cfg.MaxBreaches : Int)) ∧
      (¬ c > (cfg.MaxBreaches : Int) → (validate env cfg s identifier password).1 = none) := by
  rw [validate_eq_validateBreaches env cfg s identifier password hlen hsim]
  have hconv := toInt64_of_lt _ hmax
  have key : (validateBreaches env cfg s password).1 =
      if c > (cfg.MaxBreaches : Int) then some (.PasswordTooManyBreaches c) else none := by
    rcases hc with hc | ⟨hc, hf⟩
    · rw [validateBreaches_cached env cfg s password c hen hc, hconv]
      split_ifs <;> rfl
    · have hf' : fetch env s (sha1.Sum password) cfg.HaveIBeenPwnedHost =
          (.ok c, (fetch env s (sha1.Sum password) cfg.HaveIBeenPwnedHost).2) := by
        rw [← hf]
      rw [validateBreaches_fetched env cfg s _ password _ hen hc hf', hconv]
      simp only
      split_ifs <;> rfl
  rw [key]
  by_cases h : c > (cfg.MaxBreaches : Int)
  · simp [h]
  · simp [h]

set_option maxRecDepth 1000000 in
theorem validate_breach_count_witness :
    (breachPolicy 3 false).MaxBreaches < 2 ^ 63 ∧
      (cachedValidator (ofString "password") 5).hashes.get
        (b20 (sha1.Sum (ofString "password"))) = some 5 ∧
      (validate asciiEnv (breachPolicy 3 false) (cachedValidator (ofString "password") 5)
        (ofString "alice@example.com") (ofString "password")).1 =
        some (.PasswordTooManyBreaches 5) :=
  ⟨by decide, by decide,
    ((validate_breach_count asciiEnv (breachPolicy 3 false)
      (cachedValidator (ofString "password") 5) (ofString "alice@example.com")
      (ofString "password") 5 (by decide) rfl (by decide) (by decide)
      (Or.inl (by decide))).1).2 (by decide)⟩

end Kratos.password

namespace Kratos.password

open Kratos

theorem validateBreaches_cached_any (env : Env) (cfg : PasswordPolicy)
    (s : DefaultPasswordValidator) (password : GoString) (c : Int)
    (hc : s.hashes.get (b20 (sha1.Sum password)) = some c) :
    validateBreaches env cfg s password =
      if cfg.HaveIBeenPwnedEnabled = true ∧ c > toInt64 cfg.MaxBreaches then
        (some (.PasswordTooManyBreaches c), s)
      else (none, s) := by
  by_cases hen : cfg.HaveIBeenPwnedEnabled = true
  · rw [validateBreaches_cached env cfg s password c hen hc]
    simp only [hen, true_and]
  · unfold validateBreaches
    simp [hen]

/-- C12: when the cache holds a count for the hash of the password, `validate`
leaves the validator as it was (no request is sent through the client, the cache is
unchanged), its outcome does not depend on what the endpoint would answer, and once
the length and similarity checks are passed and the breach check is enabled the
outcome is decided by the cached count alone; a cached count of 0 gives no breach
error when `MaxBreaches` fits a signed 64-bit integer. -/
theorem validate_cached_no_request (env : Env) (cfg : PasswordPolicy)
    (s : DefaultPasswordValidator) (identifier password : GoString) (c : Int)
    (hc : s.hashes.get (b20 (sha1.Sum password)) = some c) :
    (validate env cfg s identifier password).2 = s ∧
      (validate env cfg s identifier password).2.Client = s.Client ∧
      (validate env cfg s identifier password).2.hashes = s.hashes ∧
      (∀ httpDo, validate { env with httpDo := httpDo } cfg s identifier password =
        validate env cfg s identifier password) ∧
      (cfg.HaveIBeenPwnedEnabled = true →
        ¬ (password.length : Int) < toInt64 cfg.MinPasswordLength →
        ¬ (cfg.IdentifierSimilarityCheckEnabled = true ∧ identifier.length > 0 ∧
          tooSimilar env s identifier password = true) →
        (validate env cfg s identifier password).1 =
          if c > toInt64 cfg.MaxBreaches then some (.PasswordTooManyBreaches c) else none) ∧
      (cfg.MaxBreaches < 2 ^ 63 → c = 0 →
        ∀ n, (validate env cfg s identifier password).1 ≠ some (.PasswordTooManyBreaches n)) := by
  have hv : ∀ e : Env, e.toLower = env.toLower →
      validate e cfg s identifier password =
        if (password.length : Int) < toInt64 cfg.MinPasswordLength then
          (some (.PasswordMinLength (toInt64 cfg.MinPasswordLength) password.length), s)
        else if cfg.IdentifierSimilarityCheckEnabled ∧ identifier.length > 0 ∧
            tooSimilar env s identifier password then
          (some .PasswordIdentifierTooSimilar, s)
        else if cfg.HaveIBeenPwnedEnabled = true ∧ c > toInt64 cfg.MaxBreaches then
          (some (.PasswordTooManyBreaches c), s)
        else (none, s) := by
    intro e he
    have ht : tooSimilar e s identifier password = tooSimilar env s identifier password := by
      unfold tooSimilar
      rw [he]
    unfold validate
    rw [validateBreaches_cached_any e cfg s password c hc, ht]
  have h0 := hv env rfl
  have hs : (validate env cfg s identifier password).2 = s := by
    rw [h0]
    split_ifs <;> rfl
  refine ⟨hs, by rw [hs], by rw [hs], ?_, ?_, ?_⟩
  · intro httpDo
    rw [hv { env with httpDo := httpDo } rfl, h0]
  · intro hen hlen hsim
    rw [h0, if_neg hlen, if_neg hsim]
    simp only [hen, true_and]
    split_ifs <;> rfl
  · intro hmax hzero n
    rw [h0]
    have hconv := toInt64_of_lt _ hmax
    have hno : ¬ (cfg.HaveIBeenPwnedEnabled = true ∧ c > toInt64 cfg.MaxBreaches) := by
      rw [hconv, hzero]
      intro h
      have := h.2
      omega
    rw [if_neg hno]
    split_ifs <;> simp

set_option maxRecDepth 1000000 in
theorem validate_cached_no_request_witness :
    (cachedValidator (ofString "password") 0).hashes.get
        (b20 (sha1.Sum (ofString "password"))) = some 0 ∧
      validate asciiEnv (breachPolicy 0 false) (cachedValidator (ofString "password") 0)
        (ofString "alice@example.com") (ofString "password") =
        (none, cachedValidator (ofString "password") 0) ∧
      (validate asciiEnv (breachPolicy 0 false) (cachedValidator (ofString "password") 0)
        (ofString "alice@example.com") (ofString "password")).2 =
        cachedValidator (ofString "password") 0 :=
  ⟨by decide, by decide,
    (validate_cached_no_request asciiEnv (breachPolicy 0 false)
      (cachedValidator (ofString "password") 0) (ofString "alice@example.com")
      (ofString "password") 0 (by decide)).1⟩

/-- C13: on a cache miss, with the breach check enabled and the earlier checks
passed: when `Client.Do` fails (transport level) `validate` returns no error if
`IgnoreNetworkErrors` is set and otherwise an error that is `ErrNetworkFailure`;
when the response has a status other than 200 (in particular any non-2xx status)
it returns no error if `IgnoreNetworkErrors` is set and otherwise an error that is
`ErrUnexpectedStatusCode`. -/
theorem validate_network_failure (env : Env) (cfg : PasswordPolicy)
    (s : DefaultPasswordValidator) (identifier password : GoString)
    (hen : cfg.HaveIBeenPwnedEnabled = true)
    (hlen : ¬ (password.length : Int) < toInt64 cfg.MinPasswordLength)
    (hsim : ¬ (cfg.IdentifierSimilarityCheckEnabled = true ∧ identifier.length > 0 ∧
      tooSimilar env s identifier password = true))
    (hmiss : s.hashes.get (b20 (sha1.Sum password)) = none) :
    (env.httpDo (rangeURL (sha1.Sum password) cfg.HaveIBeenPwnedHost) = .transportError →
        (cfg.IgnoreNetworkErrors = true →
          (validate env cfg s identifier password).1 = none) ∧
        (cfg.IgnoreNetworkErrors = false →
          ∃ e, (validate env cfg s identifier password).1 = some (.fetch e) ∧
            e.isNetworkFailure = true)) ∧
      (∀ status body readError,
        env.httpDo (rangeURL (sha1.Sum password) cfg.HaveIBeenPwnedHost) =
          .response status body readError →
        status ≠ 200 →
        (cfg.IgnoreNetworkErrors = true →
          (validate env cfg s identifier password).1 = none) ∧
        (cfg.IgnoreNetworkErrors = false →
          ∃ e, (validate env cfg s identifier password).1 = some (.fetch e) ∧
            e.isUnexpectedStatusCode = true)) := by
  rw [validate_eq_validateBreaches env cfg s identifier password hlen hsim]
  constructor
  · intro hdo
    have hf : fetch env s (sha1.Sum password) cfg.HaveIBeenPwnedHost =
        (.error .networkFailure,
          { s with Client := s.Client ++ [rangeURL (sha1.Sum password) cfg.HaveIBeenPwnedHost] }) := by
      unfold fetch
      simp only [hdo]
    rw [validateBreaches_fetched env cfg s _ password _ hen hmiss hf]
    constructor
    · intro hig
      simp [hig, FetchError.isNetworkFailure]
    · intro hig
      exact ⟨.networkFailure, by simp [hig], rfl⟩
  · intro status body readError hdo hst
    have hf : fetch env s (sha1.Sum password) cfg.HaveIBeenPwnedHost =
        (.error (.unexpectedStatusCode status),
          { s with Client := s.Client ++ [rangeURL (sha1.Sum password) cfg.HaveIBeenPwnedHost] }) := by
      unfold fetch
      simp only [hdo, hst, ne_eq, not_false_eq_true, if_true]
    rw [validateBreaches_fetched env cfg s _ password _ hen hmiss hf]
    constructor
    · intro hig
      simp [hig, FetchError.isUnexpectedStatusCode]
    · intro hig
      exact ⟨.unexpectedStatusCode status, by simp [hig], rfl⟩

set_option maxRecDepth 1000000 in
theorem validate_network_failure_witness :
    (validate asciiEnv (breachPolicy 3 true) NewDefaultPasswordValidatorStrategy
        (ofString "alice@example.com") (ofString "password")).1 = none :=
  ((validate_network_failure asciiEnv (breachPolicy 3 true) NewDefaultPasswordValidatorStrategy
    (ofString "alice@example.com") (ofString "password") rfl (by decide) (by decide)
    rfl).1 rfl).1 rfl

set_option maxRecDepth 1000000 in
/-- The second half of the example of the specification: without
`IgnoreNetworkErrors` the transport failure comes back as `ErrNetworkFailure`, and a
response with status 404 as `ErrUnexpectedStatusCode`; in both cases the request was
sent once. -/
theorem validate_network_failure_examples :
    validate asciiEnv (breachPolicy 3 false) NewDefaultPasswordValidatorStrategy
        (ofString "alice@example.com") (ofString "password") =
      (some (.fetch .networkFailure),
        { NewDefaultPasswordValidatorStrategy with
          Client := [ofString "https://api.pwnedpasswords.com/range/5BAA6"] }) ∧
    validate (respondingEnv 404 []) (breachPolicy 3 false) NewDefaultPasswordValidatorStrategy
        (ofString "alice@example.com") (ofString "password") =
      (some (.fetch (.unexpectedStatusCode 404)),
        { NewDefaultPasswordValidatorStrategy with
          Client := [ofString "https://api.pwnedpasswords.com/range/5BAA6"] }) := by
  decide

end Kratos.password

namespace Kratos.password

open Kratos

theorem fetchRows_cons (prefix5 full : GoString) (row : List Byte) (rows : List (List Byte))
    (applied : List Nat) (st : FetchState) (e : GoString × Int) (he : rowEntry row = some e) :
    fetchRows prefix5 full (row :: rows) applied st =
      fetchRows prefix5 full rows applied.tail
        { hashes := (st.hashes.processItems (applied.headD 0)).SetWithTTL (prefix5 ++ e.1) e.2,
          thisCount := if prefix5 ++ e.1 = full then e.2 else st.thisCount } := by
  unfold rowEntry at he
  rw [fetchRows]
  by_cases h2 : (splitColon (trimSpace row)).length = 2
  · simp only [h2, if_true] at he ⊢
    cases hp : parseInt (removeCommas ((splitColon (trimSpace row)).getD 1 [])) with
    | none => rw [hp] at he; simp at he
    | some c =>
      rw [hp] at he
      simp only [Option.map_some', Option.some.injEq] at he
      subst he
      rfl
  · simp only [h2, if_false, Option.some.injEq] at he ⊢
    subst he
    rfl

theorem fetchRows_entries (prefix5 full : GoString) :
    ∀ (rows : List (List Byte)) (entries : List (GoString × Int)) (applied : List Nat)
      (st : FetchState),
      rows.map rowEntry = entries.map some →
      fetchRows prefix5 full rows applied st =
        (.ok { hashes := storeAll prefix5 applied st.hashes entries,
               thisCount := (lastCount prefix5 full entries).getD st.thisCount },
          storeAll prefix5 applied st.hashes entries) := by
  intro rows
  induction rows with
  | nil =>
    intro entries applied st h
    cases entries with
    | nil => cases applied <;> rfl
    | cons e es => simp at h
  | cons row rows ih =>
    intro entries applied st h
    cases entries with
    | nil => simp at h
    | cons e es =>
      simp only [List.map_cons, List.cons.injEq] at h
      rw [fetchRows_cons prefix5 full row rows applied st e h.1, ih es _ _ h.2]
      simp only [storeAll, lastCount]
      cases lastCount prefix5 full es with
      | some c => rfl
      | none =>
        by_cases hk : prefix5 ++ e.1 = full
        · simp [hk]
        · simp [hk]

theorem lastCount_some_mem (prefix5 k : GoString) :
    ∀ (entries : List (GoString × Int)) (v : Int), lastCount prefix5 k entries = some v →
      ∃ x ∈ entries, prefix5 ++ x.1 = k := by
  intro entries
  induction entries with
  | nil => intro v h; simp [lastCount] at h
  | cons e es ih =>
    intro v h
    simp only [lastCount] at h
    cases hl : lastCount prefix5 k es with
    | some c =>
      obtain ⟨x, hx, hk⟩ := ih c hl
      exact ⟨x, List.mem_cons_of_mem _ hx, hk⟩
    | none =>
      rw [hl] at h
      by_cases hk : prefix5 ++ e.1 = k
      · exact ⟨e, List.mem_cons_self _ _, hk⟩
      · simp [hk] at h

theorem lastCount_none (prefix5 k : GoString) (entries : List (GoString × Int))
    (h : ∀ e ∈ entries, prefix5 ++ e.1 ≠ k) : lastCount prefix5 k entries = none := by
  cases hl : lastCount prefix5 k entries with
  | none => rfl
  | some v =>
    obtain ⟨x, hx, hk⟩ := lastCount_some_mem prefix5 k entries v hl
    exact absurd hk (h x hx)

theorem lastCount_mem_nodup (prefix5 : GoString) :
    ∀ entries : List (GoString × Int), (entries.map Prod.fst).Nodup →
      ∀ e ∈ entries, lastCount prefix5 (prefix5 ++ e.1) entries = some e.2 := by
  intro entries
  induction entries with
  | nil => intro _ e he; simp at he
  | cons e' es ih =>
    intro hnd e he
    simp only [List.map_cons, List.nodup_cons] at hnd
    simp only [lastCount]
    rcases List.mem_cons.mp he with rfl | hmem
    · cases hl : lastCount prefix5 (prefix5 ++ e.1) es with
      | some c =>
        obtain ⟨x, hx, hk⟩ := lastCount_some_mem prefix5 _ es c hl
        have hx1 : x.1 = e.1 := List.append_cancel_left hk
        exact absurd (List.mem_map.mpr ⟨x, hx, hx1⟩) hnd.1
      | none => simp
    · rw [ih hnd.2 e hmem]

theorem lastCount_append (prefix5 k : GoString) (xs ys : List (GoString × Int)) :
    lastCount prefix5 k (xs ++ ys) =
      match lastCount prefix5 k ys with
      | some c => some c
      | none => lastCount prefix5 k xs := by
  induction xs with
  | nil =>
    show lastCount prefix5 k ys = _
    cases lastCount prefix5 k ys <;> rfl
  | cons e xs ih =>
    show lastCount prefix5 k (e :: (xs ++ ys)) = _
    simp only [lastCount, ih]
    cases lastCount prefix5 k ys with
    | some c => rfl
    | none => rfl

theorem splitColon_no_colon (s : GoString) (h : byte 0x3A ∉ s) : splitColon s = [s] := by
  induction s with
  | nil => rfl
  | cons c s ih =>
    have hc : ¬ c = byte 0x3A := fun e => h (e ▸ List.mem_cons_self _ _)
    have hs : byte 0x3A ∉ s := fun m => h (List.mem_cons_of_mem _ m)
    rw [splitColon, if_neg hc, ih hs]

theorem fetch_ok_eq (env : Env) (s : DefaultPasswordValidator) (hpw : List Byte)
    (host : GoString) (body : List Byte) (entries : List (GoString × Int))
    (hdo : env.httpDo (rangeURL hpw host) = .response 200 body false)
    (hscan : (scanLines body.length body).2 = false)
    (hrows : (scanLines body.length body).1.map rowEntry = entries.map some) :
    fetch env s hpw host =
      (.ok ((lastCount ((b20 hpw).take 5) (b20 hpw) entries).getD 0),
        { s with
          Client := s.Client ++ [rangeURL hpw host],
          hashes := storeAll ((b20 hpw).take 5) env.applied s.hashes
            (entries ++ [((b20 hpw).drop 5,
              (lastCount ((b20 hpw).take 5) (b20 hpw) entries).getD 0)]) }) := by
  have hl : (scanLines body.length body).1.length = entries.length := by
    have := congrArg List.length hrows
    simpa using this
  unfold fetch
  simp only [hdo, ne_eq, not_true_eq_false, if_false]
  rw [fetchRows_entries _ _ _ entries _ _ hrows]
  simp only [hscan, Bool.false_eq_true, or_self, if_false]
  rw [storeAll_append_one, hl, List.take_append_drop]

/-- The keys of the full list of calls: the rows, then the full hash. -/
theorem storeAll_fetch_values (prefix5 full : GoString) (entries : List (GoString × Int))
    (hnd : (entries.map Prod.fst).Nodup) (k : GoString) (v : Int)
    (hk : (∃ e ∈ entries, prefix5 ++ e.1 = k ∧ e.2 = v) ∨
      (k = full ∧ v = (lastCount prefix5 full entries).getD 0)) :
    ∀ x ∈ entries ++ [(full.drop 5, (lastCount prefix5 full entries).getD 0)],
      prefix5 ++ x.1 = k → prefix5 ++ full.drop 5 = full → x.2 = v := by
  intro x hx hxk hfull
  have hrow : ∀ y ∈ entries, prefix5 ++ y.1 = full →
      (lastCount prefix5 full entries).getD 0 = y.2 := by
    intro y hy hyk
    have := lastCount_mem_nodup prefix5 entries hnd y hy
    rw [hyk] at this
    rw [this]
    rfl
  rcases List.mem_append.1 hx with hx | hx
  · rcases hk with ⟨e, he, hek, hev⟩ | ⟨hkf, hv⟩
    · have h1 : x.1 = e.1 := List.append_cancel_left (hxk.trans hek.symm)
      have h2 : x = e := List.inj_on_of_nodup_map hnd hx he h1
      rw [h2, hev]
    · rw [hv, hrow x hx (hxk.trans hkf)]
  · have hx2 : x = (full.drop 5, (lastCount prefix5 full entries).getD 0) := by
      simpa using hx
    subst hx2
    rcases hk with ⟨e, he, hek, hev⟩ | ⟨_, hv⟩
    · show (lastCount prefix5 full entries).getD 0 = v
      rw [hrow e he (hek.trans (hxk.symm.trans hfull)), hev]
    · exact hv.symm

end Kratos.password

namespace Kratos.password

open Kratos

set_option maxRecDepth 1000000 in
/-- C14 (counterexample): the response to the range request for the 20-byte hash of
`password` holds two rows that parse, both with the suffix of that hash, with the
counts 2 and 7. `fetch` returns 7. Right after it the cache has no entry for the
full hash (the sets are still buffered), and once the cache has applied its buffered
sets it maps the full hash to 2, the count of the first row, not to the returned
count: the later sets for the key were dropped. -/
theorem fetch_repeated_suffix_keeps_first :
    (sha1.Sum (ofString "password")).length = 20 ∧
      (scanLines 76 (ofString
          "1E4C9B93F3F0682250B6CF8331B7EE68FD8:2\n1E4C9B93F3F0682250B6CF8331B7EE68FD8:7\n")).1.map
          rowEntry =
        [some (ofString "1E4C9B93F3F0682250B6CF8331B7EE68FD8", 2),
          some (ofString "1E4C9B93F3F0682250B6CF8331B7EE68FD8", 7)] ∧
      (fetch (respondingEnv 200 (ofString
          "1E4C9B93F3F0682250B6CF8331B7EE68FD8:2\n1E4C9B93F3F0682250B6CF8331B7EE68FD8:7\n"))
        NewDefaultPasswordValidatorStrategy (sha1.Sum (ofString "password"))
        (ofString "api.pwnedpasswords.com")).1 = .ok 7 ∧
      (fetch (respondingEnv 200 (ofString
          "1E4C9B93F3F0682250B6CF8331B7EE68FD8:2\n1E4C9B93F3F0682250B6CF8331B7EE68FD8:7\n"))
        NewDefaultPasswordValidatorStrategy (sha1.Sum (ofString "password"))
        (ofString "api.pwnedpasswords.com")).2.hashes.get
          (b20 (sha1.Sum (ofString "password"))) = none ∧
      (fetch (respondingEnv 200 (ofString
          "1E4C9B93F3F0682250B6CF8331B7EE68FD8:2\n1E4C9B93F3F0682250B6CF8331B7EE68FD8:7\n"))
        NewDefaultPasswordValidatorStrategy (sha1.Sum (ofString "password"))
        (ofString "api.pwnedpasswords.com")).2.hashes.Wait.get
          (b20 (sha1.Sum (ofString "password"))) = some 2 := by
  decide

/-- C14 (amended): for a 20-byte hash `hpw` with prefix `p` and a response with
status 200 that is read without error and whose rows all parse into pairs (suffix,
count): `fetch` sends one request and returns the count of the last row whose key
`p ++ suffix` is the full upper-case hex of the hash (of the one such row when no
suffix occurs twice), and 0 when there is none. It hands to the cache, by
`SetWithTTL`, every pair in turn under the key `p ++ suffix` (rows unrelated to the
hash included) and then the full hex with the returned count. Once the cache has
applied its buffered sets, every one of these keys has an entry; and when no suffix
occurs twice and no new item for these keys was waiting in the buffer, the cache
then maps the key of every row to the count of that row and the full hex to the
returned count. All this holds however far the cache gets with its buffer while
`fetch` runs. -/
theorem fetch_stores_rows (env : Env) (s : DefaultPasswordValidator) (hpw : List Byte)
    (host : GoString) (body : List Byte) (entries : List (GoString × Int))
    (hlen : hpw.length = 20)
    (hdo : env.httpDo (rangeURL hpw host) = .response 200 body false)
    (hscan : (scanLines body.length body).2 = false)
    (hrows : (scanLines body.length body).1.map rowEntry = entries.map some) :
    (fetch env s hpw host).1 = .ok ((lastCount ((b20 hpw).take 5) (b20 hpw) entries).getD 0) ∧
      ((entries.map Prod.fst).Nodup → ∀ e ∈ entries, (b20 hpw).take 5 ++ e.1 = b20 hpw →
        (fetch env s hpw host).1 = .ok e.2) ∧
      ((∀ e ∈ entries, (b20 hpw).take 5 ++ e.1 ≠ b20 hpw) → (fetch env s hpw host).1 = .ok 0) ∧
      (fetch env s hpw host).2.Client = s.Client ++ [rangeURL hpw host] ∧
      (fetch env s hpw host).2.hashes =
        storeAll ((b20 hpw).take 5) env.applied s.hashes
          (entries ++ [((b20 hpw).drop 5,
            (lastCount ((b20 hpw).take 5) (b20 hpw) entries).getD 0)]) ∧
      (∀ e ∈ entries,
        (fetch env s hpw host).2.hashes.Wait.get ((b20 hpw).take 5 ++ e.1) ≠ none) ∧
      (fetch env s hpw host).2.hashes.Wait.get (b20 hpw) ≠ none ∧
      ((entries.map Prod.fst).Nodup →
        (∀ e ∈ entries, firstNew s.hashes.setBuf ((b20 hpw).take 5 ++ e.1) = none) →
        firstNew s.hashes.setBuf (b20 hpw) = none →
        (∀ e ∈ entries,
          (fetch env s hpw host).2.hashes.Wait.get ((b20 hpw).take 5 ++ e.1) = some e.2) ∧
        (fetch env s hpw host).2.hashes.Wait.get (b20 hpw) =
          some ((lastCount ((b20 hpw).take 5) (b20 hpw) entries).getD 0)) := by
  have _ := hlen
  have hf := fetch_ok_eq env s hpw host body entries hdo hscan hrows
  have hfull : (b20 hpw).take 5 ++ (b20 hpw).drop 5 = b20 hpw := List.take_append_drop _ _
  rw [hf]
  refine ⟨rfl, ?_, ?_, rfl, rfl, ?_, ?_, ?_⟩
  · intro hnd e he hk
    have := lastCount_mem_nodup ((b20 hpw).take 5) entries hnd e he
    rw [hk] at this
    show Except.ok _ = _
    rw [this]
    rfl
  · intro hno
    show Except.ok _ = _
    rw [lastCount_none _ _ entries hno]
    rfl
  · intro e he
    exact storeAll_wait_ne_none _ _ _ _ _
      (Or.inr ⟨e, List.mem_append_left _ he, rfl⟩)
  · exact storeAll_wait_ne_none _ _ _ _ _
      (Or.inr ⟨_, List.mem_append_right _ (List.mem_singleton_self _), hfull⟩)
  · intro hnd hbuf hbufFull
    constructor
    · intro e he
      apply storeAll_wait_of_unbuffered _ _ _ _ _ _ (Or.inr (hbuf e he))
      · intro x hx hxk
        exact storeAll_fetch_values _ _ entries hnd _ _ (Or.inl ⟨e, he, rfl, rfl⟩) x hx hxk hfull
      · exact ⟨e, List.mem_append_left _ he, rfl⟩
    · apply storeAll_wait_of_unbuffered _ _ _ _ _ _ (Or.inr hbufFull)
      · intro x hx hxk
        exact storeAll_fetch_values _ _ entries hnd _ _ (Or.inr ⟨rfl, rfl⟩) x hx hxk hfull
      · exact ⟨_, List.mem_append_right _ (List.mem_singleton_self _), hfull⟩

set_option maxRecDepth 1000000 in
theorem fetch_stores_rows_witness :
    (fetch (scheduledEnv 200 (ofString
          "1E4C9B93F3F0682250B6CF8331B7EE68FD8:3,730\r\n0018A45C4D1DEF81644B54AB7F969B88D65:10")
          [0, 1])
        NewDefaultPasswordValidatorStrategy (sha1.Sum (ofString "password"))
        (ofString "api.pwnedpasswords.com")).1 = .ok 3730 ∧
      (fetch (scheduledEnv 200 (ofString
          "1E4C9B93F3F0682250B6CF8331B7EE68FD8:3,730\r\n0018A45C4D1DEF81644B54AB7F969B88D65:10")
          [0, 1])
        NewDefaultPasswordValidatorStrategy (sha1.Sum (ofString "password"))
        (ofString "api.pwnedpasswords.com")).2.hashes.Wait.get
          (ofString "5BAA60018A45C4D1DEF81644B54AB7F969B88D65") = some 10 :=
  ⟨(fetch_stores_rows (scheduledEnv 200 (ofString
        "1E4C9B93F3F0682250B6CF8331B7EE68FD8:3,730\r\n0018A45C4D1DEF81644B54AB7F969B88D65:10")
        [0, 1])
      NewDefaultPasswordValidatorStrategy (sha1.Sum (ofString "password"))
      (ofString "api.pwnedpasswords.com") _
      [(ofString "1E4C9B93F3F0682250B6CF8331B7EE68FD8", 3730),
        (ofString "0018A45C4D1DEF81644B54AB7F969B88D65", 10)]
      (by decide) rfl (by decide) (by decide)).2.1 (by decide)
      (ofString "1E4C9B93F3F0682250B6CF8331B7EE68FD8", 3730) (by decide) (by decide),
    ((fetch_stores_rows (scheduledEnv 200 (ofString
        "1E4C9B93F3F0682250B6CF8331B7EE68FD8:3,730\r\n0018A45C4D1DEF81644B54AB7F969B88D65:10")
        [0, 1])
      NewDefaultPasswordValidatorStrategy (sha1.Sum (ofString "password"))
      (ofString "api.pwnedpasswords.com") _
      [(ofString "1E4C9B93F3F0682250B6CF8331B7EE68FD8", 3730),
        (ofString "0018A45C4D1DEF81644B54AB7F969B88D65", 10)]
      (by decide) rfl (by decide) (by decide)).2.2.2.2.2.2.2 (by decide)
      (fun _ _ => rfl) rfl).1
      (ofString "0018A45C4D1DEF81644B54AB7F969B88D65", 10) (by decide)⟩

set_option maxRecDepth 1000000 in
/-- The state of the cache on this response when it applies nothing while `fetch`
runs: three sets are buffered and nothing is stored yet; after `Wait` the two rows
are stored with their counts. -/
theorem fetch_stores_rows_example :
    (fetch (respondingEnv 200 (ofString
          "1E4C9B93F3F0682250B6CF8331B7EE68FD8:3,730\r\n0018A45C4D1DEF81644B54AB7F969B88D65:10"))
        NewDefaultPasswordValidatorStrategy (sha1.Sum (ofString "password"))
        (ofString "api.pwnedpasswords.com")).2.hashes =
      { storedItems := [],
        setBuf := [
          { isUpdate := false, Key := ofString "5BAA61E4C9B93F3F0682250B6CF8331B7EE68FD8",
            Value := 3730 },
          { isUpdate := false, Key := ofString "5BAA60018A45C4D1DEF81644B54AB7F969B88D65",
            Value := 10 },
          { isUpdate := false, Key := ofString "5BAA61E4C9B93F3F0682250B6CF8331B7EE68FD8",
            Value := 3730 }] } ∧
      (fetch (respondingEnv 200 (ofString
          "1E4C9B93F3F0682250B6CF8331B7EE68FD8:3,730\r\n0018A45C4D1DEF81644B54AB7F969B88D65:10"))
        NewDefaultPasswordValidatorStrategy (sha1.Sum (ofString "password"))
        (ofString "api.pwnedpasswords.com")).2.hashes.Wait =
      { storedItems := [(ofString "5BAA61E4C9B93F3F0682250B6CF8331B7EE68FD8", 3730),
          (ofString "5BAA60018A45C4D1DEF81644B54AB7F969B88D65", 10)],
        setBuf := [] } := by
  decide

end Kratos.password

namespace Kratos.password

open Kratos

set_option maxRecDepth 1000000 in
/-- C15 (counterexample): the response to the range request for the hash of
`password` holds the suffix of that hash without a colon and then the same suffix
with the count 7. The first row does not have the two-field format and its key is
the full hash of the password, yet `fetch` returns 7, not 1. With the rows
`suffix:5` and then the bare suffix, `fetch` returns 1 and the cache, once it has
applied its buffered sets, maps the key to 5, not to 1. -/
theorem fetch_row_without_count_overridden :
    (splitColon (trimSpace (ofString "1E4C9B93F3F0682250B6CF8331B7EE68FD8"))).length ≠ 2 ∧
      ofString "5BAA6" ++
          (splitColon (trimSpace (ofString "1E4C9B93F3F0682250B6CF8331B7EE68FD8"))).headD [] =
        b20 (sha1.Sum (ofString "password")) ∧
      (fetch (respondingEnv 200 (ofString
          "1E4C9B93F3F0682250B6CF8331B7EE68FD8\n1E4C9B93F3F0682250B6CF8331B7EE68FD8:7\n"))
        NewDefaultPasswordValidatorStrategy (sha1.Sum (ofString "password"))
        (ofString "api.pwnedpasswords.com")).1 = .ok 7 ∧
      (fetch (respondingEnv 200 (ofString
          "1E4C9B93F3F0682250B6CF8331B7EE68FD8:5\n1E4C9B93F3F0682250B6CF8331B7EE68FD8\n"))
        NewDefaultPasswordValidatorStrategy (sha1.Sum (ofString "password"))
        (ofString "api.pwnedpasswords.com")).1 = .ok 1 ∧
      (fetch (respondingEnv 200 (ofString
          "1E4C9B93F3F0682250B6CF8331B7EE68FD8:5\n1E4C9B93F3F0682250B6CF8331B7EE68FD8\n"))
        NewDefaultPasswordValidatorStrategy (sha1.Sum (ofString "password"))
        (ofString "api.pwnedpasswords.com")).2.hashes.Wait.get
          (b20 (sha1.Sum (ofString "password"))) = some 5 := by
  decide

/-- C15 (amended): in a response with status 200 that is read without error, a row
that does not split into exactly two fields at `:` (a row without a colon is one,
its only field being the trimmed row) is treated as the pair (first field, 1), the
other rows parsing into pairs: `fetch` sends one request, hands to the cache every
pair in turn, this row as `p ++ first field` with count 1, then the full hash with
the returned count, and returns the count of the last row whose key is the full
hash. So it returns 1 when the key of this row is the full hash and no later row has
that key. Once the cache has applied its buffered sets the key of this row has an
entry, and the entry is 1 when no other row has that key and no new item for it was
waiting in the buffer. -/
theorem fetch_row_without_count (env : Env) (s : DefaultPasswordValidator) (hpw : List Byte)
    (host : GoString) (body : List Byte) (before after : List (List Byte)) (row : List Byte)
    (entriesB entriesA : List (GoString × Int))
    (hdo : env.httpDo (rangeURL hpw host) = .response 200 body false)
    (hscan : scanLines body.length body = (before ++ row :: after, false))
    (hrow : (splitColon (trimSpace row)).length ≠ 2)
    (hB : before.map rowEntry = entriesB.map some)
    (hA : after.map rowEntry = entriesA.map some) :
    fetch env s hpw host =
        (.ok ((lastCount ((b20 hpw).take 5) (b20 hpw)
            (entriesB ++ ((splitColon (trimSpace row)).headD [], 1) :: entriesA)).getD 0),
          { s with
            Client := s.Client ++ [rangeURL hpw host],
            hashes := storeAll ((b20 hpw).take 5) env.applied s.hashes
              ((entriesB ++ ((splitColon (trimSpace row)).headD [], 1) :: entriesA) ++
                [((b20 hpw).drop 5, (lastCount ((b20 hpw).take 5) (b20 hpw)
                  (entriesB ++ ((splitColon (trimSpace row)).headD [], 1) :: entriesA)).getD
                    0)]) }) ∧
      (byte 0x3A ∉ trimSpace row → (splitColon (trimSpace row)).headD [] = trimSpace row) ∧
      ((b20 hpw).take 5 ++ (splitColon (trimSpace row)).headD [] = b20 hpw →
        (∀ e ∈ entriesA, (b20 hpw).take 5 ++ e.1 ≠ b20 hpw) →
        (fetch env s hpw host).1 = .ok 1) ∧
      (fetch env s hpw host).2.hashes.Wait.get
          ((b20 hpw).take 5 ++ (splitColon (trimSpace row)).headD []) ≠ none ∧
      ((∀ e ∈ entriesB ++ entriesA,
          (b20 hpw).take 5 ++ e.1 ≠ (b20 hpw).take 5 ++ (splitColon (trimSpace row)).headD []) →
        firstNew s.hashes.setBuf
          ((b20 hpw).take 5 ++ (splitColon (trimSpace row)).headD []) = none →
        (fetch env s hpw host).2.hashes.Wait.get
          ((b20 hpw).take 5 ++ (splitColon (trimSpace row)).headD []) = some 1) := by
  have hentry : rowEntry row = some ((splitColon (trimSpace row)).headD [], 1) := by
    unfold rowEntry
    simp only [hrow, if_false]
  have hrows : (scanLines body.length body).1.map rowEntry =
      (entriesB ++ ((splitColon (trimSpace row)).headD [], 1) :: entriesA).map some := by
    rw [hscan]
    simp only [List.map_append, List.map_cons, hB, hA, hentry]
  have hsc : (scanLines body.length body).2 = false := by rw [hscan]
  have hf := fetch_ok_eq env s hpw host body _ hdo hsc hrows
  have hfull : (b20 hpw).take 5 ++ (b20 hpw).drop 5 = b20 hpw := List.take_append_drop _ _
  have hcount : (b20 hpw).take 5 ++ (splitColon (trimSpace row)).headD [] = b20 hpw →
      (∀ e ∈ entriesA, (b20 hpw).take 5 ++ e.1 ≠ b20 hpw) →
      lastCount ((b20 hpw).take 5) (b20 hpw)
        (entriesB ++ ((splitColon (trimSpace row)).headD [], 1) :: entriesA) = some 1 := by
    intro hkey hlater
    rw [lastCount_append]
    simp only [lastCount, lastCount_none _ _ entriesA hlater, hkey, if_true]
  refine ⟨hf, ?_, ?_, ?_, ?_⟩
  · intro hno
    rw [splitColon_no_colon _ hno]
    rfl
  · intro hkey hlater
    rw [hf, hcount hkey hlater]
    rfl
  · rw [hf]
    exact storeAll_wait_ne_none _ _ _ _ _
      (Or.inr ⟨_, List.mem_append_left _
        (List.mem_append_right _ (List.mem_cons_self _ _)), rfl⟩)
  · intro hothers hbuf
    rw [hf]
    apply storeAll_wait_of_unbuffered _ _ _ _ _ _ (Or.inr hbuf)
    · intro x hx hxk
      rcases List.mem_append.1 hx with hx | hx
      · rcases List.mem_append.1 hx with hx | hx
        · exact absurd hxk (hothers x (List.mem_append_left _ hx))
        · rcases List.mem_cons.1 hx with rfl | hx
          · rfl
          · exact absurd hxk (hothers x (List.mem_append_right _ hx))
      · have hx2 : x = ((b20 hpw).drop 5, (lastCount ((b20 hpw).take 5) (b20 hpw)
            (entriesB ++ ((splitColon (trimSpace row)).headD [], 1) :: entriesA)).getD 0) := by
          simpa using hx
        subst hx2
        have hkey : (b20 hpw).take 5 ++ (splitColon (trimSpace row)).headD [] = b20 hpw :=
          hxk.symm.trans hfull
        have hlater : ∀ e ∈ entriesA, (b20 hpw).take 5 ++ e.1 ≠ b20 hpw := by
          intro e he hk
          exact hothers e (List.mem_append_right _ he) (hk.trans hkey.symm)
        show (lastCount _ _ _).getD 0 = 1
        rw [hcount hkey hlater]
        rfl
    · exact ⟨_, List.mem_append_left _
        (List.mem_append_right _ (List.mem_cons_self _ _)), rfl⟩

set_option maxRecDepth 1000000 in
theorem fetch_row_without_count_witness :
    (fetch (respondingEnv 200 (ofString
          "0018A45C4D1DEF81644B54AB7F969B88D65:10\n1E4C9B93F3F0682250B6CF8331B7EE68FD8\n"))
        NewDefaultPasswordValidatorStrategy (sha1.Sum (ofString "password"))
        (ofString "api.pwnedpasswords.com")).1 = .ok 1 ∧
      (fetch (respondingEnv 200 (ofString
          "0018A45C4D1DEF81644B54AB7F969B88D65:10\n1E4C9B93F3F0682250B6CF8331B7EE68FD8\n"))
        NewDefaultPasswordValidatorStrategy (sha1.Sum (ofString "password"))
        (ofString "api.pwnedpasswords.com")).2.hashes.Wait.get
          (ofString "5BAA61E4C9B93F3F0682250B6CF8331B7EE68FD8") = some 1 :=
  ⟨(fetch_row_without_count (respondingEnv 200 (ofString
        "0018A45C4D1DEF81644B54AB7F969B88D65:10\n1E4C9B93F3F0682250B6CF8331B7EE68FD8\n"))
      NewDefaultPasswordValidatorStrategy (sha1.Sum (ofString "password"))
      (ofString "api.pwnedpasswords.com") _
      [ofString "0018A45C4D1DEF81644B54AB7F969B88D65:10"] []
      (ofString "1E4C9B93F3F0682250B6CF8331B7EE68FD8")
      [(ofString "0018A45C4D1DEF81644B54AB7F969B88D65", 10)] []
      rfl (by decide) (by decide) (by decide) rfl).2.2.1 (by decide) (by decide),
    (fetch_row_without_count (respondingEnv 200 (ofString
        "0018A45C4D1DEF81644B54AB7F969B88D65:10\n1E4C9B93F3F0682250B6CF8331B7EE68FD8\n"))
      NewDefaultPasswordValidatorStrategy (sha1.Sum (ofString "password"))
      (ofString "api.pwnedpasswords.com") _
      [ofString "0018A45C4D1DEF81644B54AB7F969B88D65:10"] []
      (ofString "1E4C9B93F3F0682250B6CF8331B7EE68FD8")
      [(ofString "0018A45C4D1DEF81644B54AB7F969B88D65", 10)] []
      rfl (by decide) (by decide) (by decide) rfl).2.2.2.2 (by decide) rfl⟩

set_option maxRecDepth 1000000 in
/-- The upstream quirk end to end: the endpoint answers the range request for the
hash of `password` with one unrelated row and the bare suffix of that hash; `fetch`
sends the request, buffers the three sets and returns 1, and `validate` with
`MaxBreaches = 0` rejects the password with one breach. -/
theorem fetch_row_without_count_example :
    fetch (respondingEnv 200 (ofString
          "0018A45C4D1DEF81644B54AB7F969B88D65:10\n1E4C9B93F3F0682250B6CF8331B7EE68FD8\n"))
        NewDefaultPasswordValidatorStrategy (sha1.Sum (ofString "password"))
        (ofString "api.pwnedpasswords.com") =
      (.ok 1,
        { NewDefaultPasswordValidatorStrategy with
          Client := [ofString "https://api.pwnedpasswords.com/range/5BAA6"],
          hashes :=
            { storedItems := [],
              setBuf := [
                { isUpdate := false,
                  Key := ofString "5BAA60018A45C4D1DEF81644B54AB7F969B88D65", Value := 10 },
                { isUpdate := false,
                  Key := ofString "5BAA61E4C9B93F3F0682250B6CF8331B7EE68FD8", Value := 1 },
                { isUpdate := false,
                  Key := ofString "5BAA61E4C9B93F3F0682250B6CF8331B7EE68FD8",
                  Value := 1 }] } }) ∧
      (validate (respondingEnv 200 (ofString
          "0018A45C4D1DEF81644B54AB7F969B88D65:10\n1E4C9B93F3F0682250B6CF8331B7EE68FD8\n"))
        (breachPolicy 0 false) NewDefaultPasswordValidatorStrategy
        (ofString "alice@example.com") (ofString "password")).1 =
        some (.PasswordTooManyBreaches 1) := by
  decide

end Kratos.password

/-! ## Theorems: settings strategies -/

namespace Kratos.password

open Kratos Kratos.settings

/-- C16: a submission that has passed method authorization and the CSRF check, on a
session whose `AuthenticatedAt` plus `PrivilegedSessionMaxAge` lies before the
current time, makes `continueSettingsFlow` return `FlowNeedsReAuth` whatever the
submitted password and whatever the hasher, the identity pool and the validation
would answer; no call was made to any of them (the log of calls is empty) and the
update context is unchanged. -/
theorem continueSettingsFlow_needs_reauth (d : SettingsDeps) (ctxUpdate : UpdateContext)
    (p : updateSettingsFlowWithPasswordMethod) (f : Flow)
    (hflow : ctxUpdate.Flow = some f)
    (hmethod : d.MethodEnabledAndAllowed p.Method = none)
    (hcsrf : d.EnsureCSRF f.Type_ p.CSRFToken = none)
    (hold : ctxUpdate.Session.AuthenticatedAt + d.PrivilegedSessionMaxAge < d.Now) :
    continueSettingsFlow d ctxUpdate p =
      some { ctx := ctxUpdate, err := some .FlowNeedsReAuth, events := [] } := by
  unfold continueSettingsFlow
  simp only [hmethod, hflow, hcsrf, hold, if_true]

theorem continueSettingsFlow_needs_reauth_witness :
    continueSettingsFlow (exampleDeps none (some (.other 2)) (.error (.other 1)))
        { Session := sessionAt 0, Flow := some (pendingFlow .TypeBrowser), toUpdate := none }
        { examplePayload with Password := [] } =
      some { ctx := { Session := sessionAt 0, Flow := some (pendingFlow .TypeBrowser),
                      toUpdate := none },
             err := some .FlowNeedsReAuth, events := [] } :=
  continueSettingsFlow_needs_reauth (exampleDeps none (some (.other 2)) (.error (.other 1)))
    { Session := sessionAt 0, Flow := some (pendingFlow .TypeBrowser), toUpdate := none }
    { examplePayload with Password := [] } (pendingFlow .TypeBrowser) rfl rfl rfl (by decide)

/-- C17: `handleSettingsError` of the password strategy calls `Pause` exactly once
(and makes no other call) when the error is `FlowNeedsReAuth` and the flow is a
browser flow; it makes no call at all when the flow is an API flow, when the flow is
absent, or when the error is any other error. -/
theorem handleSettingsError_pause_once (d : SettingsDeps) (ctxUpdate : UpdateContext)
    (p : updateSettingsFlowWithPasswordMethod) (err : Error) :
    (∀ f, err = .FlowNeedsReAuth → ctxUpdate.Flow = some f → f.Type_ = .TypeBrowser →
        (handleSettingsError d ctxUpdate p err).events = [Event.Pause SettingsStrategyID]) ∧
      (∀ f, ctxUpdate.Flow = some f → f.Type_ = .TypeAPI →
        (handleSettingsError d ctxUpdate p err).events = []) ∧
      (ctxUpdate.Flow = none → (handleSettingsError d ctxUpdate p err).events = []) ∧
      (err ≠ .FlowNeedsReAuth → (handleSettingsError d ctxUpdate p err).events = []) := by
  refine ⟨?_, ?_, ?_, ?_⟩
  · intro f herr hflow htype
    subst herr
    unfold handleSettingsError
    simp only [hflow, htype, Error.isFlowNeedsReAuth, Option.map_some', and_self, if_true]
    cases d.Pause p ctxUpdate.GetSessionIdentity <;> rfl
  · intro f hflow htype
    unfold handleSettingsError
    simp [hflow, htype]
  · intro hflow
    unfold handleSettingsError
    simp [hflow]
  · intro herr
    have h : err.isFlowNeedsReAuth = false := by
      cases err <;> simp_all [Error.isFlowNeedsReAuth]
    unfold handleSettingsError
    simp [h]

theorem handleSettingsError_pause_once_witness :
    (handleSettingsError (exampleDeps none none (.ok [])) 
        { Session := sessionAt 0, Flow := some (pendingFlow .TypeBrowser), toUpdate := none }
        examplePayload .FlowNeedsReAuth).events = [Event.Pause SettingsStrategyID] ∧
      (handleSettingsError (exampleDeps none none (.ok []))
        { Session := sessionAt 0, Flow := some (pendingFlow .TypeAPI), toUpdate := none }
        examplePayload .FlowNeedsReAuth).events = [] :=
  ⟨(handleSettingsError_pause_once (exampleDeps none none (.ok []))
      { Session := sessionAt 0, Flow := some (pendingFlow .TypeBrowser), toUpdate := none }
      examplePayload .FlowNeedsReAuth).1 (pendingFlow .TypeBrowser) rfl rfl rfl,
   (handleSettingsError_pause_once (exampleDeps none none (.ok []))
      { Session := sessionAt 0, Flow := some (pendingFlow .TypeAPI), toUpdate := none }
      examplePayload .FlowNeedsReAuth).2.1 (pendingFlow .TypeAPI) rfl rfl⟩

end Kratos.password

namespace Kratos.profile

open Kratos Kratos.settings

/-- C18 (divergence): `handleSettingsError` of the profile strategy calls `Pause` for
a `FlowNeedsReAuth` error on every update context, an API flow included: on the API
flow of the example the log holds the one call to `Pause`, and the same holds for
every collaborator, context, traits and payload. -/
theorem handleSettingsError_pauses_api_flow :
    (pendingFlow .TypeAPI).Type_ = .TypeAPI ∧
      (handleSettingsError exampleDeps
        { Session := sessionAt 0, Flow := some (pendingFlow .TypeAPI), toUpdate := none }
        none examplePayload .FlowNeedsReAuth).events = [Event.Pause SettingsStrategyID] ∧
      ∀ (d : Deps) (puc : UpdateContext) (traits : Option (List Byte))
        (p : updateSettingsFlowWithProfileMethod),
        (handleSettingsError d puc traits p .FlowNeedsReAuth).events =
          [Event.Pause SettingsStrategyID] := by
  refine ⟨rfl, by decide, ?_⟩
  intro d puc traits p
  unfold handleSettingsError
  simp only [Error.isFlowNeedsReAuth, if_true]
  cases d.Pause p puc.GetSessionIdentity <;> rfl

end Kratos.profile

namespace Kratos.password

open Kratos Kratos.settings

theorem continueSettingsFlow_error_ctx (d : SettingsDeps) (ctxUpdate : UpdateContext)
    (p : updateSettingsFlowWithPasswordMethod) (out : Outcome) (e : Error)
    (h : continueSettingsFlow d ctxUpdate p = some out) (he : out.err = some e) :
    out.ctx = ctxUpdate := by
  unfold continueSettingsFlow at h
  split at h
  · cases h; rfl
  · split at h
    · cases h
    · split at h
      · cases h; rfl
      · split_ifs at h
        · cases h; rfl
        · cases h; rfl
        · split at h
          · cases h; rfl
          · simp only at h
            split at h
            · cases h; rfl
            · split at h
              · cases h; rfl
              · cases h; simp at he

theorem handleSettingsError_recovered (d : SettingsDeps) (ctxUpdate : UpdateContext)
    (p : updateSettingsFlowWithPasswordMethod) (e : Error) (fl : Flow)
    (hflow : ctxUpdate.Flow = some fl) :
    if e = .FlowNeedsReAuth ∧ fl.Type_ = .TypeBrowser ∧
        d.Pause p ctxUpdate.GetSessionIdentity ≠ none then
      (handleSettingsError d ctxUpdate p e).err = d.Pause p ctxUpdate.GetSessionIdentity ∧
        (handleSettingsError d ctxUpdate p e).ctx.Flow = some fl
    else
      (handleSettingsError d ctxUpdate p e).err = some e ∧
        (handleSettingsError d ctxUpdate p e).ctx.Flow =
          some { fl with UI := { fl.UI with Messages := [], CSRF := d.GenerateCSRFToken } } := by
  unfold handleSettingsError
  by_cases he : e = .FlowNeedsReAuth
  · subst he
    by_cases ht : fl.Type_ = .TypeBrowser
    · cases hp : d.Pause p ctxUpdate.GetSessionIdentity with
      | none =>
        simp [hflow, ht, hp, Error.isFlowNeedsReAuth, Container.ResetMessages,
          Container.SetCSRF]
      | some perr => simp [hflow, ht, hp, Error.isFlowNeedsReAuth]
    · simp [hflow, ht, Error.isFlowNeedsReAuth, Container.ResetMessages, Container.SetCSRF]
  · have h : e.isFlowNeedsReAuth = false := by
      cases e <;> simp_all [Error.isFlowNeedsReAuth]
    simp [hflow, he, h, Container.ResetMessages, Container.SetCSRF]

/-- C19 (counterexample): a submission resumed from a paused action
(`PrepareUpdate` answers `ErrContinuePreviousAction`) on a session that is too old
ends with the error of the re-authentication enforcement, and on return the flow
still holds its message and its old CSRF token, not the fresh one. -/
theorem settings_resumed_keeps_ui :
    Settings (exampleDeps (some .ErrContinuePreviousAction) none (.ok []))
        (some (pendingFlow .TypeBrowser)) (sessionAt 0) =
      some { ctx := { Session := sessionAt 0, Flow := some (pendingFlow .TypeBrowser),
                      toUpdate := none },
             err := some .FlowNeedsReAuth, events := [] } ∧
      (pendingFlow .TypeBrowser).UI.Messages ≠ [] ∧
      (pendingFlow .TypeBrowser).UI.CSRF ≠
        (exampleDeps (some .ErrContinuePreviousAction) none (.ok [])).GenerateCSRFToken := by
  decide

/-- C19 (amended): for a submission with a non-nil flow `fl`. Resumed from a paused
action, `Settings` is `continueSettingsFlow`: its error is returned untouched and the
flow is left as it was. Not resumed, and ending with the error `e` of the method
authorization of the request or of `continueSettingsFlow` (method authorization,
CSRF enforcement, re-authentication enforcement, validation): `Settings` returns `e`
untouched with the messages of the flow reset and its CSRF token replaced by the
freshly generated one, except when `e` is `FlowNeedsReAuth` on a browser flow and
`Pause` fails, where the error of `Pause` is returned and the flow is left as it
was. -/
theorem settings_error_recovery (d : SettingsDeps) (f : Option Flow) (ss : Session)
    (ctxUpdate : UpdateContext) (perr : Option Error)
    (p : updateSettingsFlowWithPasswordMethod) (fl : Flow) (e : Error)
    (hprep : d.PrepareUpdate f ss = (ctxUpdate, perr, p))
    (hflow : ctxUpdate.Flow = some fl) :
    (perr = some .ErrContinuePreviousAction →
        Settings d f ss = continueSettingsFlow d ctxUpdate p ∧
        ∀ out, Settings d f ss = some out → out.err = some e → out.ctx.Flow = some fl) ∧
      (perr = none → d.MethodEnabledAndAllowedFromRequest = some e →
        ∃ out, Settings d f ss = some out ∧
          if e = .FlowNeedsReAuth ∧ fl.Type_ = .TypeBrowser ∧
              d.Pause p ctxUpdate.GetSessionIdentity ≠ none then
            out.err = d.Pause p ctxUpdate.GetSessionIdentity ∧ out.ctx.Flow = some fl
          else
            out.err = some e ∧
              out.ctx.Flow = some { fl with
                UI := { fl.UI with Messages := [], CSRF := d.GenerateCSRFToken } }) ∧
      (perr = none → d.MethodEnabledAndAllowedFromRequest = none →
        ∀ p1 out1, d.decodeSettingsFlow p = (p1, none) →
          continueSettingsFlow d ctxUpdate { p1 with Flow := fl.ID } = some out1 →
          out1.err = some e →
          ∃ out, Settings d f ss = some out ∧
            if e = .FlowNeedsReAuth ∧ fl.Type_ = .TypeBrowser ∧
                d.Pause { p1 with Flow := fl.ID } ctxUpdate.GetSessionIdentity ≠ none then
              out.err = d.Pause { p1 with Flow := fl.ID } ctxUpdate.GetSessionIdentity ∧
                out.ctx.Flow = some fl
            else
              out.err = some e ∧
                out.ctx.Flow = some { fl with
                  UI := { fl.UI with Messages := [], CSRF := d.GenerateCSRFToken } }) := by
  refine ⟨?_, ?_, ?_⟩
  · intro hp
    subst hp
    have hS : Settings d f ss = continueSettingsFlow d ctxUpdate p := by
      unfold Settings
      rw [hprep]
      simp [Error.isContinuePreviousAction]
    refine ⟨hS, ?_⟩
    intro out hout he
    rw [hS] at hout
    rw [continueSettingsFlow_error_ctx d ctxUpdate p out e hout he]
    exact hflow
  · intro hp hm
    subst hp
    refine ⟨handleSettingsError d ctxUpdate p e, ?_, handleSettingsError_recovered d ctxUpdate p e fl hflow⟩
    unfold Settings
    rw [hprep]
    simp only [hm]
  · intro hp hm p1 out1 hdec hcont he
    subst hp
    have hctx := continueSettingsFlow_error_ctx d ctxUpdate _ out1 e hcont he
    refine ⟨{ handleSettingsError d ctxUpdate { p1 with Flow := fl.ID } e with
      events := out1.events ++
        (handleSettingsError d ctxUpdate { p1 with Flow := fl.ID } e).events }, ?_, ?_⟩
    · unfold Settings
      rw [hprep]
      simp only [hm, hdec, hflow, hcont, he, hctx]
    · exact handleSettingsError_recovered d ctxUpdate _ e fl hflow

theorem settings_error_recovery_witness :
    ∃ out, Settings (exampleDeps none none (.ok [])) (some (pendingFlow .TypeAPI))
        (sessionAt 0) = some out ∧
      out.err = some .FlowNeedsReAuth ∧
      out.ctx.Flow = some { pendingFlow .TypeAPI with
        UI := { Messages := [], CSRF := ofString "fresh", NodeOps := [] } } := by
  obtain ⟨out, h1, h2⟩ :=
    (settings_error_recovery (exampleDeps none none (.ok [])) (some (pendingFlow .TypeAPI))
      (sessionAt 0)
      { Session := sessionAt 0, Flow := some (pendingFlow .TypeAPI), toUpdate := none }
      none examplePayload (pendingFlow .TypeAPI) .FlowNeedsReAuth rfl rfl).2.2 rfl rfl
      examplePayload
      { ctx := { Session := sessionAt 0, Flow := some (pendingFlow .TypeAPI),
                 toUpdate := none },
        err := some .FlowNeedsReAuth, events := [] }
      rfl (by decide) rfl
  refine ⟨out, h1, ?_⟩
  rw [if_neg (by decide)] at h2
  exact h2

/-- C20 (counterexample): with a hasher that fails with the error 1 and a validation
of the credentials that fails with the error 2, `continueSettingsFlow` returns the
error 2 of the validation, which is not the error of the hashing task. -/
theorem continueSettingsFlow_validation_error_first :
    (exampleDeps none (some (.other 2)) (.error (.other 1))).HasherGenerate
        examplePayload.Password = .error (.other 1) ∧
      continueSettingsFlow (exampleDeps none (some (.other 2)) (.error (.other 1)))
        { Session := sessionAt 9000, Flow := some (pendingFlow .TypeBrowser), toUpdate := none }
        examplePayload =
      some { ctx := { Session := sessionAt 9000, Flow := some (pendingFlow .TypeBrowser),
                      toUpdate := none },
             err := some (.other 2),
             events := [Event.HasherGenerate examplePayload.Password,
               Event.GetIdentityConfidential 7,
               Event.validateCredentials examplePayload.Password] } ∧
      Error.other 2 ≠ Error.other 1 := by
  decide

/-- C20 (amended): for a submission that has passed the earlier checks and whose
identity was found, when the validation of the credentials fails,
`continueSettingsFlow` returns the error of the validation whatever the hashing task
answers, its error included; the error of the hashing task is returned when the
validation succeeds and the hashing task fails. -/
theorem continueSettingsFlow_error_order (d : SettingsDeps) (ctxUpdate : UpdateContext)
    (p : updateSettingsFlowWithPasswordMethod) (f : Flow) (i : Identity)
    (hflow : ctxUpdate.Flow = some f)
    (hmethod : d.MethodEnabledAndAllowed p.Method = none)
    (hcsrf : d.EnsureCSRF f.Type_ p.CSRFToken = none)
    (hage : ¬ ctxUpdate.Session.AuthenticatedAt + d.PrivilegedSessionMaxAge < d.Now)
    (hpw : p.Password.length ≠ 0)
    (hid : d.GetIdentityConfidential ctxUpdate.Session.Identity.ID = .ok i) :
    (∀ ev, d.validateCredentials
          (i.UpsertCredentialsConfig SettingsStrategyID (ofString "{}") 0) p.Password = some ev →
        continueSettingsFlow d ctxUpdate p =
          some { ctx := ctxUpdate, err := some ev,
                 events := [Event.HasherGenerate p.Password,
                   Event.GetIdentityConfidential ctxUpdate.Session.Identity.ID,
                   Event.validateCredentials p.Password] }) ∧
      (∀ eh, d.validateCredentials
          (i.UpsertCredentialsConfig SettingsStrategyID (ofString "{}") 0) p.Password = none →
        d.HasherGenerate p.Password = .error eh →
        continueSettingsFlow d ctxUpdate p =
          some { ctx := ctxUpdate, err := some eh,
                 events := [Event.HasherGenerate p.Password,
                   Event.GetIdentityConfidential ctxUpdate.Session.Identity.ID,
                   Event.validateCredentials p.Password] }) := by
  constructor
  · intro ev hv
    unfold continueSettingsFlow
    simp only [hmethod, hflow, hcsrf, hage, hpw, hid, hv, if_false]
    rfl
  · intro eh hv hh
    unfold continueSettingsFlow
    simp only [hmethod, hflow, hcsrf, hage, hpw, hid, hv, hh, if_false]
    rfl

theorem continueSettingsFlow_error_order_witness :
    continueSettingsFlow (exampleDeps none (some (.other 2)) (.error (.other 1)))
        { Session := sessionAt 9000, Flow := some (pendingFlow .TypeBrowser), toUpdate := none }
        examplePayload =
      some { ctx := { Session := sessionAt 9000, Flow := some (pendingFlow .TypeBrowser),
                      toUpdate := none },
             err := some (.other 2),
             events := [Event.HasherGenerate examplePayload.Password,
               Event.GetIdentityConfidential 7,
               Event.validateCredentials examplePayload.Password] } :=
  (continueSettingsFlow_error_order (exampleDeps none (some (.other 2)) (.error (.other 1)))
    { Session := sessionAt 9000, Flow := some (pendingFlow .TypeBrowser), toUpdate := none }
    examplePayload (pendingFlow .TypeBrowser) { ID := 7, Traits := [], Credentials := [] }
    rfl rfl rfl (by decide) (by decide) rfl).1 (.other 2) rfl

end Kratos.password

/-! ## Theorems: hydration order of the registration strategies -/

namespace Kratos.profile

open Kratos Kratos.registration

theorem SortForHydration.loop_none (profile : GoString) (sorted : Strategies) :
    ∀ (rest : Strategies) (i : Nat), (∀ x ∈ rest, x.ID ≠ profile) →
      SortForHydration.loop profile sorted i rest = (sorted, sorted) := by
  intro rest
  induction rest with
  | nil => intro i _; rfl
  | cons x rest ih =>
    intro i h
    rw [SortForHydration.loop, if_neg (h x (List.mem_cons_self _ _))]
    exact ih (i + 1) fun y hy => h y (List.mem_cons_of_mem _ hy)

theorem SortForHydration.loop_first (profile : GoString) (s : Strategy)
    (after : Strategies) (hs : s.ID = profile) :
    ∀ (before pre : Strategies), (∀ x ∈ before, x.ID ≠ profile) →
      SortForHydration.loop profile (pre ++ before ++ s :: after) pre.length
          (before ++ s :: after) =
        (s :: (pre ++ before ++ after),
          pre ++ before ++ after ++
            (pre ++ before ++ s :: after).drop ((pre ++ before ++ s :: after).length - 1)) := by
  intro before
  induction before with
  | nil =>
    intro pre _
    simp only [List.append_nil, List.nil_append]
    rw [SortForHydration.loop, if_pos hs]
    have h1 : (pre ++ s :: after).take pre.length = pre := by
      rw [List.take_append_eq_append_take]
      simp
    have h2 : (pre ++ s :: after).drop (pre.length + 1) = after := by
      rw [List.drop_append_eq_append_drop]
      simp
    simp only [h1, h2]
  | cons x before ih =>
    intro pre h
    have hx : x.ID ≠ profile := h x (List.mem_cons_self _ _)
    have hb : ∀ y ∈ before, y.ID ≠ profile := fun y hy => h y (List.mem_cons_of_mem _ hy)
    have e1 : pre ++ (x :: before) ++ s :: after = (pre ++ [x]) ++ before ++ s :: after := by
      simp
    have e2 : pre ++ (x :: before) ++ after = (pre ++ [x]) ++ before ++ after := by simp
    have e3 : (pre ++ [x]).length = pre.length + 1 := by simp
    show SortForHydration.loop profile _ pre.length (x :: (before ++ s :: after)) = _
    rw [SortForHydration.loop, if_neg hx, e1, e2, ← e3]
    exact ih (pre ++ [x]) hb

theorem first_profile_split (profile : GoString) :
    ∀ strats : Strategies, (∀ x ∈ strats, x.ID ≠ profile) ∨
      ∃ before s after, strats = before ++ s :: after ∧
        (∀ x ∈ before, x.ID ≠ profile) ∧ s.ID = profile := by
  intro strats
  induction strats with
  | nil => exact Or.inl (by simp)
  | cons x xs ih =>
    by_cases hx : x.ID = profile
    · exact Or.inr ⟨[], x, xs, rfl, by simp, hx⟩
    · rcases ih with h | ⟨before, s, after, he, hb, hs⟩
      · refine Or.inl ?_
        intro y hy
        rcases List.mem_cons.1 hy with rfl | hy
        · exact hx
        · exact h y hy
      · refine Or.inr ⟨x :: before, s, after, by rw [he]; rfl, ?_, hs⟩
        intro y hy
        rcases List.mem_cons.1 hy with rfl | hy
        · exact hx
        · exact hb y hy

/-- C21: for every list of strategies, `SortForHydration` returns a list of the same
length; when the list is `before ++ s :: after` with `s` its first profile strategy,
the result is `s :: before ++ after`, so that `s` is at position 0 and the other
elements keep their relative order; when no element is a profile strategy the result
is the list itself; every list is of one of these two kinds, and the result is a
rearrangement of the list; the elements of the list given are as they were. -/
theorem sortForHydration_moves_first_profile (profile : GoString) (strats : Strategies) :
    (SortForHydration profile strats).sorted.length = strats.length ∧
      (∀ before s after, strats = before ++ s :: after →
        (∀ x ∈ before, x.ID ≠ profile) → s.ID = profile →
        (SortForHydration profile strats).sorted = s :: (before ++ after)) ∧
      ((∀ x ∈ strats, x.ID ≠ profile) → (SortForHydration profile strats).sorted = strats) ∧
      ((∀ x ∈ strats, x.ID ≠ profile) ∨
        ∃ before s after, strats = before ++ s :: after ∧
          (∀ x ∈ before, x.ID ≠ profile) ∧ s.ID = profile) ∧
      (SortForHydration profile strats).sorted.Perm strats ∧
      (SortForHydration profile strats).strats = strats := by
  have hfirst : ∀ before s after, strats = before ++ s :: after →
      (∀ x ∈ before, x.ID ≠ profile) → s.ID = profile →
      (SortForHydration profile strats).sorted = s :: (before ++ after) := by
    intro before s after he hb hs
    subst he
    have h := SortForHydration.loop_first profile s after hs before [] hb
    simp only [List.nil_append, List.length_nil] at h
    unfold SortForHydration
    simp only [h]
  have hnone : (∀ x ∈ strats, x.ID ≠ profile) →
      (SortForHydration profile strats).sorted = strats := by
    intro h
    unfold SortForHydration
    simp only [SortForHydration.loop_none profile strats strats 0 h]
  have hperm : (SortForHydration profile strats).sorted.Perm strats := by
    rcases first_profile_split profile strats with h | ⟨before, s, after, he, hb, hs⟩
    · rw [hnone h]
    · rw [hfirst before s after he hb hs, he]
      exact List.perm_middle.symm
  exact ⟨hperm.length_eq, hfirst, hnone, first_profile_split profile strats, hperm, rfl⟩

theorem sortForHydration_moves_first_profile_witness :
    (SortForHydration (ofString "profile")
        [{ ID := ofString "password", impl := 0 }, { ID := ofString "profile", impl := 1 },
          { ID := ofString "oidc", impl := 2 }, { ID := ofString "profile", impl := 3 }]).sorted =
      [{ ID := ofString "profile", impl := 1 }, { ID := ofString "password", impl := 0 },
        { ID := ofString "oidc", impl := 2 }, { ID := ofString "profile", impl := 3 }] :=
  (sortForHydration_moves_first_profile (ofString "profile")
    [{ ID := ofString "password", impl := 0 }, { ID := ofString "profile", impl := 1 },
      { ID := ofString "oidc", impl := 2 }, { ID := ofString "profile", impl := 3 }]).2.1
    [{ ID := ofString "password", impl := 0 }] { ID := ofString "profile", impl := 1 }
    [{ ID := ofString "oidc", impl := 2 }, { ID := ofString "profile", impl := 3 }]
    rfl (by decide) (by decide)

end Kratos.profile

/-! ## Theorems: the two families of states -/

namespace Kratos.flow

open Kratos

theorem recoveryV2_not_linear (s : State) (h : IsStateRecoveryV2 s = true) : s ∉ states := by
  intro hm
  rcases (mem_states_iff s).1 hm with e | e | e <;> subst e <;> revert h <;> decide

/-- C22 (counterexample): `recovery_awaiting_address` is a recovery-v2 state and
`NextState` maps it to `sent_email`, which is not a recovery-v2 state and not
`passed_challenge`, but the linear state at position 1, before the terminal one. -/
theorem nextState_leaves_recovery_v2 :
    IsStateRecoveryV2 StateRecoveryAwaitingAddress = true ∧
      NextState StateRecoveryAwaitingAddress = some StateEmailSent ∧
      IsStateRecoveryV2 StateEmailSent = false ∧
      StateEmailSent ≠ StatePassedChallenge ∧
      StateEmailSent ∈ states ∧
      indexOf StateEmailSent < indexOf StatePassedChallenge := by
  decide

/-- C22 (amended): for every linear state `s`, `NextState s` is a linear state whose
index is at least the index of `s`; the four recovery states are recovery-v2 states,
and for every recovery-v2 state `s` (every state whose name starts with
`recovery_`), `NextState s` is `sent_email`, the linear state after position 0:
`NextState` does not step through the recovery-v2 family. -/
theorem nextState_forward_in_linear_family :
    (∀ s ∈ states, ∃ t, NextState s = some t ∧ t ∈ states ∧ indexOf t ≥ indexOf s) ∧
      IsStateRecoveryV2 StateRecoveryAwaitingAddress = true ∧
      IsStateRecoveryV2 StateRecoveryAwaitingAddressChoice = true ∧
      IsStateRecoveryV2 StateRecoveryAwaitingAddressConfirm = true ∧
      IsStateRecoveryV2 StateRecoveryAwaitingCode = true ∧
      (∀ s, IsStateRecoveryV2 s = true → NextState s = some StateEmailSent) := by
  refine ⟨?_, by decide, by decide, by decide, by decide, ?_⟩
  · intro s hs
    rcases (mem_states_iff s).1 hs with e | e | e
    · subst e; exact ⟨StateEmailSent, by decide, by decide, by decide⟩
    · subst e; exact ⟨StatePassedChallenge, by decide, by decide, by decide⟩
    · subst e; exact ⟨StatePassedChallenge, by decide, by decide, by decide⟩
  · intro s h
    have hn := recoveryV2_not_linear s h
    have h0 : indexOf s = 0 := by
      rw [indexOf_eq_tablePosition]
      unfold tablePosition
      have hm := (mem_states_iff s).not.1 hn
      simp only [not_or] at hm
      rw [if_neg hm.1, if_neg hm.2.1, if_neg hm.2.2]
    unfold NextState
    have hp : ¬ s = StatePassedChallenge := fun e => hn ((mem_states_iff s).2 (Or.inr (Or.inr e)))
    rw [if_neg hp, h0]
    rfl

theorem nextState_forward_in_linear_family_witness :
    (∃ t, NextState StateChooseMethod = some t ∧ t ∈ states ∧
        indexOf t ≥ indexOf StateChooseMethod) ∧
      NextState StateRecoveryAwaitingCode = some StateEmailSent :=
  ⟨nextState_forward_in_linear_family.1 StateChooseMethod (by decide),
    nextState_forward_in_linear_family.2.2.2.2.2 StateRecoveryAwaitingCode (by decide)⟩

end Kratos.flow

/-! ## Theorems: commit of the new password -/

namespace Kratos.password

open Kratos Kratos.settings

theorem find_map_config (t : GoString) (conf : List Byte) (version : Int) :
    ∀ cs : List Credentials, cs.any (fun c => c.Type_ = t) = true →
      ((cs.map fun c =>
          if c.Type_ = t then { c with Config := conf, Version := version } else c).find?
        fun c => c.Type_ = t) = some { Type_ := t, Config := conf, Version := version } := by
  intro cs
  induction cs with
  | nil => intro h; simp at h
  | cons c cs ih =>
    intro h
    by_cases hc : c.Type_ = t
    · simp [hc]
    · have h2 : cs.any (fun c => c.Type_ = t) = true := by
        simpa [hc] using h
      simp only [List.map_cons, if_neg hc]
      rw [List.find?_cons_of_neg _ (by simpa using hc)]
      exact ih h2

theorem getCredentials_upsert (i : Identity) (t : GoString) (conf : List Byte)
    (version : Int) :
    (i.UpsertCredentialsConfig t conf version).GetCredentials t =
      some { Type_ := t, Config := conf, Version := version } := by
  unfold Identity.UpsertCredentialsConfig Identity.GetCredentials
  by_cases h : i.Credentials.any (fun c => c.Type_ = t) = true
  · rw [if_pos h]
    exact find_map_config t conf version i.Credentials h
  · rw [if_neg h]
    have hn : ∀ c ∈ i.Credentials, ¬ c.Type_ = t := by
      simpa using h
    show (i.Credentials ++ [_]).find? _ = _
    rw [List.find?_append]
    have hf : i.Credentials.find? (fun c => decide (c.Type_ = t)) = none := by
      rw [List.find?_eq_none]
      intro c hc
      simpa using hn c hc
    rw [hf]
    simp

theorem continueSettingsFlow_success (d : SettingsDeps) (ctxUpdate : UpdateContext)
    (p : updateSettingsFlowWithPasswordMethod) (out : Outcome)
    (h : continueSettingsFlow d ctxUpdate p = some out) (he : out.err = none) :
    ∃ i hash, d.GetIdentityConfidential ctxUpdate.Session.Identity.ID = .ok i ∧
      d.HasherGenerate p.Password = .ok hash ∧
      out.ctx = ctxUpdate.UpdateIdentity
        ((i.UpsertCredentialsConfig SettingsStrategyID (ofString "{}") 0).UpsertCredentialsConfig
          SettingsStrategyID (marshalCredentialsPassword hash) 0) ∧
      out.events = [Event.HasherGenerate p.Password,
        Event.GetIdentityConfidential ctxUpdate.Session.Identity.ID,
        Event.validateCredentials p.Password, Event.UpdateIdentity] := by
  unfold continueSettingsFlow at h
  split at h
  · cases h; simp at he
  · split at h
    · cases h
    · split at h
      · cases h; simp at he
      · split_ifs at h
        · cases h; simp at he
        · cases h; simp at he
        · split at h
          · cases h; simp at he
          · rename_i i hi
            simp only at h
            split at h
            · cases h; simp at he
            · split at h
              · cases h; simp at he
              · rename_i hash hh
                cases h
                exact ⟨i, hash, hi, hh, rfl, rfl⟩

theorem continueSettingsFlow_error_events (d : SettingsDeps) (ctxUpdate : UpdateContext)
    (p : updateSettingsFlowWithPasswordMethod) (out : Outcome) (e : Error)
    (h : continueSettingsFlow d ctxUpdate p = some out) (he : out.err = some e) :
    Event.UpdateIdentity ∉ out.events := by
  unfold continueSettingsFlow at h
  split at h
  · cases h; simp
  · split at h
    · cases h
    · split at h
      · cases h; simp
      · split_ifs at h
        · cases h; simp
        · cases h; simp
        · split at h
          · cases h; simp
          · simp only at h
            split at h
            · cases h; simp
            · split at h
              · cases h; simp
              · cases h; simp at he

theorem continueSettingsFlow_returns (d : SettingsDeps) (ctxUpdate : UpdateContext)
    (p : updateSettingsFlowWithPasswordMethod) (f : Flow) (hflow : ctxUpdate.Flow = some f) :
    ∃ out, continueSettingsFlow d ctxUpdate p = some out := by
  unfold continueSettingsFlow
  simp only [hflow]
  split
  · exact ⟨_, rfl⟩
  · split
    · exact ⟨_, rfl⟩
    · split_ifs
      · exact ⟨_, rfl⟩
      · exact ⟨_, rfl⟩
      · split
        · exact ⟨_, rfl⟩
        · split
          · exact ⟨_, rfl⟩
          · split
            · exact ⟨_, rfl⟩
            · exact ⟨_, rfl⟩

/-- C23: with a flow present `continueSettingsFlow` returns, and for what it leaves
behind: `UpdateIdentity` is in the log of calls exactly when no error is returned,
and at most once. When no error is returned, the update context is the one given
with `UpdateIdentity` applied to the identity fetched from the pool, whose password
credential then holds as configuration the JSON object made of the hash that the
hasher returned for the submitted password; that identity is what the context hands
out as the identity of the session. When an error is returned (on each of the error
paths), the update context, and with it the identity it hands out, is as it was. -/
theorem continueSettingsFlow_commit (d : SettingsDeps) (ctxUpdate : UpdateContext)
    (p : updateSettingsFlowWithPasswordMethod) :
    (∀ f, ctxUpdate.Flow = some f → ∃ out, continueSettingsFlow d ctxUpdate p = some out) ∧
      ∀ out, continueSettingsFlow d ctxUpdate p = some out →
        (out.err = none ↔ Event.UpdateIdentity ∈ out.events) ∧
        out.events.count Event.UpdateIdentity ≤ 1 ∧
        (out.err = none →
          ∃ i hash committed,
            d.GetIdentityConfidential ctxUpdate.Session.Identity.ID = .ok i ∧
            d.HasherGenerate p.Password = .ok hash ∧
            out.ctx = ctxUpdate.UpdateIdentity committed ∧
            out.ctx.GetSessionIdentity = committed ∧
            committed.ID = i.ID ∧
            committed.GetCredentials SettingsStrategyID =
              some { Type_ := SettingsStrategyID,
                     Config := marshalCredentialsPassword hash, Version := 0 }) ∧
        (∀ e, out.err = some e →
          out.ctx = ctxUpdate ∧ out.ctx.GetSessionIdentity = ctxUpdate.GetSessionIdentity) := by
  refine ⟨fun f hf => continueSettingsFlow_returns d ctxUpdate p f hf, ?_⟩
  intro out h
  have herr : ∀ e, out.err = some e →
      out.ctx = ctxUpdate ∧ out.ctx.GetSessionIdentity = ctxUpdate.GetSessionIdentity := by
    intro e he
    have hc := continueSettingsFlow_error_ctx d ctxUpdate p out e h he
    exact ⟨hc, by rw [hc]⟩
  cases he : out.err with
  | none =>
    obtain ⟨i, hash, hi, hh, hctx, hev⟩ := continueSettingsFlow_success d ctxUpdate p out h he
    refine ⟨?_, ?_, ?_, ?_⟩
    · simp [hev]
    · rw [hev]
      simp [List.count_cons]
    · intro _
      refine ⟨i, hash, _, hi, hh, hctx, ?_, ?_, getCredentials_upsert _ _ _ _⟩
      · rw [hctx]; rfl
      · unfold Identity.UpsertCredentialsConfig
        split_ifs <;> rfl
    · intro e he2
      cases he2
  | some e =>
    have hno := continueSettingsFlow_error_events d ctxUpdate p out e h he
    refine ⟨?_, ?_, ?_, ?_⟩
    · simp [hno]
    · rw [List.count_eq_zero_of_not_mem hno]
      exact Nat.zero_le _
    · intro h2
      cases h2
    · intro e2 he2
      exact herr e2 (he ▸ he2)

set_option maxRecDepth 100000 in
theorem continueSettingsFlow_commit_witness :
    ∃ out, continueSettingsFlow (exampleDeps none none (.ok (ofString "$2a$12$hash")))
        { Session := sessionAt 9000, Flow := some (pendingFlow .TypeBrowser), toUpdate := none }
        examplePayload = some out ∧
      out.err = none ∧ Event.UpdateIdentity ∈ out.events :=
  ⟨_, rfl, rfl,
    ((continueSettingsFlow_commit (exampleDeps none none (.ok (ofString "$2a$12$hash")))
      { Session := sessionAt 9000, Flow := some (pendingFlow .TypeBrowser), toUpdate := none }
      examplePayload).2 _ rfl).1.1 rfl⟩

set_option maxRecDepth 100000 in
/-- The commit on the example: the identity 7 is handed on with the one password
credential whose configuration is the JSON object of the hash. -/
theorem continueSettingsFlow_commit_example :
    continueSettingsFlow (exampleDeps none none (.ok (ofString "$2a$12$hash")))
        { Session := sessionAt 9000, Flow := some (pendingFlow .TypeBrowser), toUpdate := none }
        examplePayload =
      some { ctx := { Session := sessionAt 9000, Flow := some (pendingFlow .TypeBrowser),
                      toUpdate := some { ID := 7, Traits := [], Credentials :=
                        [{ Type_ := ofString "password",
                           Config := ofString "\x7b\"hashed_password\":\"$2a$12$hash\"\x7d",
                           Version := 0 }] } },
             err := none,
             events := [Event.HasherGenerate examplePayload.Password,
               Event.GetIdentityConfidential 7,
               Event.validateCredentials examplePayload.Password, Event.UpdateIdentity] } := by
  decide

end Kratos.password

/-! ## Theorems: malformed rows of the range response -/

namespace Kratos.password

open Kratos

theorem fetchRows_bad_count (prefix5 full : GoString) (bad : List Byte)
    (after : List (List Byte)) (field : GoString)
    (htwo : (splitColon (trimSpace bad)).length = 2)
    (hfield : (splitColon (trimSpace bad)).getD 1 [] = field)
    (hbad : parseInt (removeCommas field) = none) :
    ∀ (before : List (List Byte)) (entries : List (GoString × Int)) (applied : List Nat)
      (st : FetchState),
      before.map rowEntry = entries.map some →
      fetchRows prefix5 full (before ++ bad :: after) applied st =
        (.error (.badCount field), storeAll prefix5 applied st.hashes entries) := by
  intro before
  induction before with
  | nil =>
    intro entries applied st h
    cases entries with
    | cons e es => simp at h
    | nil =>
      show fetchRows prefix5 full (bad :: after) applied st = _
      rw [fetchRows]
      simp only [htwo, if_true, hfield, hbad]
      cases applied <;> rfl
  | cons row rows ih =>
    intro entries applied st h
    cases entries with
    | nil => simp at h
    | cons e es =>
      simp only [List.map_cons, List.cons.injEq] at h
      show fetchRows prefix5 full (row :: (rows ++ bad :: after)) applied st = _
      rw [fetchRows_cons prefix5 full row _ applied st e h.1, ih es _ _ h.2]
      rfl

/-- C24: when the response has status 200 and, after rows that parse into pairs
(suffix, count), a row in two-field format whose count field is not accepted by
`ParseInt` once its commas are removed: `fetch` fails with the internal server error
about the count field, which is neither `ErrNetworkFailure` nor
`ErrUnexpectedStatusCode`. The failure undoes nothing: the cache is left as the
`SetWithTTL` calls for the rows before the malformed one have made it, so that once
the cache has applied its buffered sets the key of every one of these rows has an
entry (with the count of the row, when no suffix occurs twice among them and no new
item for these keys was waiting in the buffer). And `validate`, for a password with
that hash that has passed the earlier checks and is not in the cache, returns this
error whatever `IgnoreNetworkErrors` is, with the same cache. -/
theorem fetch_malformed_count (env : Env) (s : DefaultPasswordValidator) (hpw : List Byte)
    (host : GoString) (body : List Byte) (readError : Bool) (before after : List (List Byte))
    (bad : List Byte) (field : GoString) (entries : List (GoString × Int))
    (hdo : env.httpDo (rangeURL hpw host) = .response 200 body readError)
    (hscan : (scanLines body.length body).1 = before ++ bad :: after)
    (hbefore : before.map rowEntry = entries.map some)
    (htwo : (splitColon (trimSpace bad)).length = 2)
    (hfield : (splitColon (trimSpace bad)).getD 1 [] = field)
    (hbad : parseInt (removeCommas field) = none) :
    (fetch env s hpw host).1 = .error (.badCount field) ∧
      (FetchError.badCount field).isNetworkFailure = false ∧
      (FetchError.badCount field).isUnexpectedStatusCode = false ∧
      (fetch env s hpw host).2.Client = s.Client ++ [rangeURL hpw host] ∧
      (fetch env s hpw host).2.hashes =
        storeAll ((b20 hpw).take 5) env.applied s.hashes entries ∧
      (∀ e ∈ entries,
        (fetch env s hpw host).2.hashes.Wait.get ((b20 hpw).take 5 ++ e.1) ≠ none) ∧
      ((entries.map Prod.fst).Nodup →
        (∀ e ∈ entries, firstNew s.hashes.setBuf ((b20 hpw).take 5 ++ e.1) = none) →
        ∀ e ∈ entries,
          (fetch env s hpw host).2.hashes.Wait.get ((b20 hpw).take 5 ++ e.1) = some e.2) ∧
      (∀ (cfg : PasswordPolicy) (identifier password : GoString),
        sha1.Sum password = hpw → cfg.HaveIBeenPwnedHost = host →
        cfg.HaveIBeenPwnedEnabled = true →
        ¬ (password.length : Int) < toInt64 cfg.MinPasswordLength →
        ¬ (cfg.IdentifierSimilarityCheckEnabled = true ∧ identifier.length > 0 ∧
          tooSimilar env s identifier password = true) →
        s.hashes.get (b20 hpw) = none →
        (validate env cfg s identifier password).1 = some (.fetch (.badCount field)) ∧
          (validate env cfg s identifier password).2.hashes =
            storeAll ((b20 hpw).take 5) env.applied s.hashes entries) := by
  have hf : fetch env s hpw host =
      (.error (.badCount field),
        { s with Client := s.Client ++ [rangeURL hpw host],
                 hashes := storeAll ((b20 hpw).take 5) env.applied s.hashes entries }) := by
    unfold fetch
    simp only [hdo, ne_eq, not_true_eq_false, if_false, hscan]
    rw [fetchRows_bad_count _ _ bad after field htwo hfield hbad before entries _ _ hbefore]
  refine ⟨by rw [hf], rfl, rfl, by rw [hf], by rw [hf], ?_, ?_, ?_⟩
  · intro e he
    rw [hf]
    exact storeAll_wait_ne_none _ _ _ _ _ (Or.inr ⟨e, he, rfl⟩)
  · intro hnd hbuf e he
    rw [hf]
    apply storeAll_wait_of_unbuffered _ _ _ _ _ _ (Or.inr (hbuf e he))
    · intro x hx hxk
      have h1 : x.1 = e.1 := List.append_cancel_left hxk
      rw [List.inj_on_of_nodup_map hnd hx he h1]
    · exact ⟨e, he, rfl⟩
  · intro cfg identifier password hsum hhost hen hlen hsim hmiss
    subst hsum
    subst hhost
    rw [validate_eq_validateBreaches env cfg s identifier password hlen hsim,
      validateBreaches_fetched env cfg s _ password _ hen hmiss hf]
    simp [FetchError.isNetworkFailure, FetchError.isUnexpectedStatusCode]

set_option maxRecDepth 1000000 in
theorem fetch_malformed_count_witness :
    (validate (respondingEnv 200 (ofString
          "0018A45C4D1DEF81644B54AB7F969B88D65:10\n1E4C9B93F3F0682250B6CF8331B7EE68FD8:3x\n"))
        (breachPolicy 3 true) NewDefaultPasswordValidatorStrategy
        (ofString "alice@example.com") (ofString "password")).1 =
      some (.fetch (.badCount (ofString "3x"))) :=
  ((fetch_malformed_count (respondingEnv 200 (ofString
        "0018A45C4D1DEF81644B54AB7F969B88D65:10\n1E4C9B93F3F0682250B6CF8331B7EE68FD8:3x\n"))
      NewDefaultPasswordValidatorStrategy (sha1.Sum (ofString "password"))
      (ofString "api.pwnedpasswords.com") _ false
      [ofString "0018A45C4D1DEF81644B54AB7F969B88D65:10"] []
      (ofString "1E4C9B93F3F0682250B6CF8331B7EE68FD8:3x") (ofString "3x")
      [(ofString "0018A45C4D1DEF81644B54AB7F969B88D65", 10)]
      rfl (by decide) (by decide) (by decide) (by decide) (by decide)).2.2.2.2.2.2.2
    (breachPolicy 3 true) (ofString "alice@example.com") (ofString "password")
    rfl rfl rfl (by decide) (by decide) (by decide)).1

set_option maxRecDepth 1000000 in
/-- The same response end to end with `IgnoreNetworkErrors` set: the error comes
back, one request was sent, the set for the row before the malformed one is in the
buffer of the cache, and after `Wait` that row is stored. -/
theorem fetch_malformed_count_example :
    validate (respondingEnv 200 (ofString
          "0018A45C4D1DEF81644B54AB7F969B88D65:10\n1E4C9B93F3F0682250B6CF8331B7EE68FD8:3x\n"))
        (breachPolicy 3 true) NewDefaultPasswordValidatorStrategy
        (ofString "alice@example.com") (ofString "password") =
      (some (.fetch (.badCount (ofString "3x"))),
        { NewDefaultPasswordValidatorStrategy with
          Client := [ofString "https://api.pwnedpasswords.com/range/5BAA6"],
          hashes :=
            { storedItems := [],
              setBuf := [
                { isUpdate := false,
                  Key := ofString "5BAA60018A45C4D1DEF81644B54AB7F969B88D65", Value := 10 }] } }) ∧
      (validate (respondingEnv 200 (ofString
          "0018A45C4D1DEF81644B54AB7F969B88D65:10\n1E4C9B93F3F0682250B6CF8331B7EE68FD8:3x\n"))
        (breachPolicy 3 true) NewDefaultPasswordValidatorStrategy
        (ofString "alice@example.com") (ofString "password")).2.hashes.Wait.get
          (ofString "5BAA60018A45C4D1DEF81644B54AB7F969B88D65") = some 10 := by
  decide

end Kratos.password
